import Mathlib

/-! terraform-provider-wundergraph: label matcher codec, enum mappers, label maps, reconcilers

A shallow embedding of `internal/resources/federated_graph.go`,
`internal/resources/federated_subgraph.go` and `internal/resources/namespace.go`:
the pure mapping functions and the create, read, update and delete operations
of the three resources; and of the provider configuration in
`internal/provider/provider.go` with the header transport of `internal/utils`.
The definitions come first, the theorems about them follow.

Conventions of the embedding.

* A Go `string` is a Lean `String`. The only separators the program splits on
  are the one-byte strings `","` and `"="`, so splitting by character and
  splitting by byte agree.
* A Go slice that the program builds with `append` is a `Slice`: either `nil`
  or an allocated sequence. A slice that is only ranged over is given by the
  list of its elements (ranging over `nil` and over an empty slice is the same).
* A Go function returning `(result, diagnostics)` or `(result, error)` returns
  the pair in Lean as well.
* The remote control plane is a parameter of every operation: a
  `PlatformServiceClient` gives, for each method, the answer to each request.
  An operation returns the calls it issued, in order, the diagnostics of its
  response, and the value it wrote to the state, if any.
-/

namespace resources

/-! ## Go runtime and standard library -/

/-- A Go slice value: the `nil` slice, or an allocated (possibly empty) sequence. -/
inductive Slice (α : Type) where
  | nil : Slice α
  | mk (elems : List α) : Slice α
  deriving DecidableEq, Repr

/-- The elements of a slice, in order; `nil` has none. -/
def Slice.toList {α : Type} : Slice α → List α
  | .nil => []
  | .mk elems => elems

/-- The builtin `append(s, x)`: the result is always allocated. -/
def Slice.append {α : Type} (s : Slice α) (x : α) : Slice α :=
  .mk (s.toList ++ [x])

/-- Pieces of a character sequence between the occurrences of `sep`; there is
always at least one piece. -/
def splitChars (sep : Char) : List Char → List (List Char)
  | [] => [[]]
  | c :: cs =>
    if c = sep then [] :: splitChars sep cs
    else
      match splitChars sep cs with
      | [] => [[c]]
      | h :: t => (c :: h) :: t

/-- The call `strings.Split(s, sep)` for a one-character separator: the
substrings of `s` between the occurrences of `sep`; if `sep` does not occur
the result is the one-element list holding `s`. -/
def Split (s : String) (sep : Char) : List String :=
  (splitChars sep s.data).map String.mk

/-- The call `strings.Join(elems, sep)`: no element gives the empty string, one
element gives that element, otherwise the first element followed by `sep` and
an element for each further element. -/
def Join (elems : List String) (sep : String) : String :=
  match elems with
  | [] => ""
  | [a] => a
  | a :: rest => rest.foldl (fun b s => b ++ sep ++ s) a

/-! ## Plugin framework values -/

/-- The framework type `types.String`: null, unknown, or a known string. -/
inductive TFString where
  | null : TFString
  | unknown : TFString
  | value (s : String) : TFString
  deriving DecidableEq, Repr

/-- The method `IsNull` of `types.String`. -/
def TFString.IsNull : TFString → Bool
  | .null => true
  | _ => false

/-- The method `IsUnknown` of `types.String`. -/
def TFString.IsUnknown : TFString → Bool
  | .unknown => true
  | _ => false

/-- The method `ValueString` of `types.String`: the known string, and the empty
string for null and unknown. -/
def TFString.ValueString : TFString → String
  | .value s => s
  | _ => ""

/-- The framework type `types.List` with element type `types.StringType`: null,
unknown, or a known sequence of string values. -/
inductive TFList where
  | null : TFList
  | unknown : TFList
  | known (elems : List TFString) : TFList
  deriving DecidableEq, Repr

/-- One entry of `diag.Diagnostics`. An error or warning added by the provider
carries its summary and detail; `conversionError` is the error the framework
itself reports when a value cannot be converted into the Go target type. -/
inductive Diagnostic where
  | error (summary detail : String) : Diagnostic
  | warning (summary detail : String) : Diagnostic
  | conversionError : Diagnostic
  deriving DecidableEq, Repr

/-- The framework type `diag.Diagnostics`; the `nil` value is the empty list. -/
abbrev Diagnostics := List Diagnostic

/-- The severity test behind `HasError`. -/
def Diagnostic.isError : Diagnostic → Bool
  | .warning _ _ => false
  | _ => true

/-- The method `HasError` of `diag.Diagnostics`. -/
def HasError (d : Diagnostics) : Bool :=
  d.any Diagnostic.isError

/-- Conversion of the elements of a known list into Go strings, stopping at the
first element that is null or unknown (a Go `string` can hold neither). -/
def readElems : List TFString → Option (List String)
  | [] => some []
  | .value s :: rest =>
    match readElems rest with
    | some vs => some (s :: vs)
    | none => none
  | _ :: _ => none

/-- The call `l.ElementsAs(ctx, &values, false)` with `values` a nil `[]string`:
the strings written to `values` and the diagnostics returned. A null list
leaves `values` nil without error; an unknown list, or a null or unknown
element, is a conversion error and leaves `values` as it was. -/
def ElementsAs : TFList → List String × Diagnostics
  | .null => ([], [])
  | .unknown => ([], [.conversionError])
  | .known elems =>
    match readElems elems with
    | some vs => (vs, [])
    | none => ([], [.conversionError])

/-- The call `types.ListValueFrom(ctx, types.StringType, values)` for a
`[]string`: a nil slice gives the null list, an allocated slice the known list
of its strings; converting strings never reports a diagnostic. -/
def ListValueFrom : Slice String → TFList × Diagnostics
  | .nil => (.null, [])
  | .mk vs => (.known (vs.map TFString.value), [])

/-! ## Label matcher codec (`federated_graph.go`) -/

/-- The struct `LabelMatcher`. -/
structure LabelMatcher where
  Key : TFString
  Values : TFList
  deriving DecidableEq, Repr

/-- The inner loop of `MapLabelMatchersToNative`: one tag `key=value` is
appended for each value. -/
def encodeTags (key : String) (values : List String) : Slice String :=
  values.foldl (fun tags tag => tags.append (key ++ "=" ++ tag)) Slice.nil

/-- The outer loop of `MapLabelMatchersToNative` over the remaining matchers,
with the slice `matchers` built so far. -/
def encodeLoop : List LabelMatcher → Slice String → Slice String × Diagnostics
  | [], matchers => (matchers, [])
  | v :: rest, matchers =>
    let read := ElementsAs v.Values
    if HasError read.2 then (Slice.nil, read.2)
    else
      let tags := encodeTags v.Key.ValueString read.1
      encodeLoop rest (matchers.append (Join tags.toList ","))

/-- The function `MapLabelMatchersToNative`. -/
def MapLabelMatchersToNative (labelMatchers : List LabelMatcher) :
    Slice String × Diagnostics :=
  encodeLoop labelMatchers Slice.nil

/-- The inner loop of `MapLabelMatchersFromNative` over the remaining tags of
one entry, with the `key` and `values` collected so far; `none` is the early
return taken when a tag does not split on `=` into exactly two parts. -/
def decodeTags : List String → String → Slice String → Option (String × Slice String)
  | [], key, values => some (key, values)
  | e :: rest, key, values =>
    match Split e '=' with
    | [p0, p1] => decodeTags rest (if key = "" then p0 else key) (values.append p1)
    | _ => none

/-- The outer loop of `MapLabelMatchersFromNative` over the remaining entries,
with the matchers `l` built so far (`l` is allocated by `make` before the
loop). -/
def decodeLoop : List String → List LabelMatcher → Slice LabelMatcher × Diagnostics
  | [], l => (Slice.mk l, [])
  | v :: rest, l =>
    match decodeTags (Split v ',') "" Slice.nil with
    | none => (Slice.nil, [Diagnostic.error "Error parsing label matcher" "invalid label matcher"])
    | some (key, values) =>
      let lv := ListValueFrom values
      if HasError lv.2 then (Slice.nil, lv.2)
      else decodeLoop rest (l ++ [{ Key := TFString.value key, Values := lv.1 }])

/-- The function `MapLabelMatchersFromNative`. -/
def MapLabelMatchersFromNative (labelMatchers : List String) :
    Slice LabelMatcher × Diagnostics :=
  decodeLoop labelMatchers []

/-! ## Enum mappers (`federated_subgraph.go`) -/

/-- Modelled from the spec: the enum `common.GraphQLSubscriptionProtocol` is
declared in the generated package `sdk/wg/cosmo/common`, which is not among the
source files; the program names three constants of it, `WS`, `SSE` and
`SSE_POST`. -/
inductive GraphQLSubscriptionProtocol where
  | WS
  | SSE
  | SSE_POST
  deriving DecidableEq, Repr

/-- Modelled from the spec: the enum `common.GraphQLWebsocketSubprotocol` is
declared in the generated package `sdk/wg/cosmo/common`, which is not among the
source files; the program names three constants of it, `AUTO`, `WS` and
`TRANSPORT_WS`. -/
inductive GraphQLWebsocketSubprotocol where
  | AUTO
  | WS
  | TRANSPORT_WS
  deriving DecidableEq, Repr

/-- The function `MapSubscriptionProtocol`: the pointer result (`none` is nil)
and the error (`none` is nil, otherwise the message of `fmt.Errorf`). -/
def MapSubscriptionProtocol (sp : TFString) :
    Option GraphQLSubscriptionProtocol × Option String :=
  if sp.IsNull || sp.IsUnknown then
    (some GraphQLSubscriptionProtocol.WS, none)
  else if sp.ValueString = "ws" then
    (some GraphQLSubscriptionProtocol.WS, none)
  else if sp.ValueString = "sse" then
    (some GraphQLSubscriptionProtocol.SSE, none)
  else if sp.ValueString = "sse_post" then
    (some GraphQLSubscriptionProtocol.SSE_POST, none)
  else
    (none, some ("unsupported protocol: " ++ sp.ValueString))

/-- The function `MapWebSocketSubprotocol`: the pointer result (`none` is nil)
and the error (`none` is nil, otherwise the message of `fmt.Errorf`). -/
def MapWebSocketSubprotocol (wsp : TFString) :
    Option GraphQLWebsocketSubprotocol × Option String :=
  if wsp.IsNull || wsp.IsUnknown then
    (some GraphQLWebsocketSubprotocol.AUTO, none)
  else if wsp.ValueString = "auto" then
    (some GraphQLWebsocketSubprotocol.AUTO, none)
  else if wsp.ValueString = "graphql-ws" then
    (some GraphQLWebsocketSubprotocol.WS, none)
  else if wsp.ValueString = "graphql-transport-ws" then
    (some GraphQLWebsocketSubprotocol.TRANSPORT_WS, none)
  else
    (none, some ("unsupported protocol: " ++ wsp.ValueString))

/-! ## Label maps (`federated_subgraph.go`) -/

/-- The message `platformv1.Label`, with the two fields the program uses. A
slice of labels holds pointers to such messages; the lists of labels here hold
the messages pointed to. -/
structure Label where
  Key : String
  Value : String
  deriving DecidableEq, Repr

/-- A Go `map[string]string` value: the `nil` map, or an allocated table. The
table is an association list with unique keys; the order of its entries is the
order in which a `range` over the map visits them, which Go leaves unspecified,
so a statement about every table covers every iteration order. -/
inductive GoMap where
  | nil : GoMap
  | table (t : AList (fun _ : String => String)) : GoMap

/-- The entries a `range` over the map visits, in the order it visits them; a
nil map has none. -/
def GoMap.range : GoMap → List (String × String)
  | .nil => []
  | .table t => t.entries.map (fun e => (e.1, e.2))

/-- The index expression `m[k]` with the comma-ok form: the value stored under
`k`, if any. -/
def GoMap.lookup : GoMap → String → Option String
  | .nil, _ => none
  | .table t, k => t.lookup k

/-- The keys of the map, in iteration order. -/
def GoMap.keys (m : GoMap) : List String :=
  m.range.map Prod.fst

/-- The function `MapLabelsToNative`: one label is appended to the nil slice `l`
for each entry the `range` visits. -/
def MapLabelsToNative (labels : GoMap) : Slice Label :=
  labels.range.foldl (fun l kv => l.append { Key := kv.1, Value := kv.2 }) Slice.nil

/-- The function `MapLabelsFromNative`: the map is allocated by `make`, and
each label in turn is stored under its key by `l[v.Key] = v.Value`. -/
def MapLabelsFromNative (labels : List Label) : GoMap :=
  GoMap.table (labels.foldl (fun l v => l.insert v.Key v.Value) ∅)

/-! ## Words of the specification -/

/-- The number of `=` characters in a tag. -/
def countEq (e : String) : Nat :=
  e.data.count '='

/-- The text of a tag before its first `=`. -/
def textBefore (e : String) : String :=
  String.mk (e.data.takeWhile (fun c => c != '='))

/-- The text of a tag after its first `=`. -/
def textAfter (e : String) : String :=
  String.mk ((e.data.dropWhile (fun c => c != '=')).drop 1)

/-- The encoded form of one matcher in the words of the specification: the tags
`key=value`, one per value, separated by commas. -/
def matcherString (k : String) (vs : List String) : String :=
  String.intercalate "," (vs.map (fun v => k ++ "=" ++ v))

/-- A string value is known when it is neither null nor unknown. -/
def TFString.isKnown (s : TFString) : Bool :=
  !s.IsNull && !s.IsUnknown

/-- The strings of a list value whose elements can all be read: a null list
has none, an unknown list cannot be read, a known list can be read when every
element is a known string. -/
def TFList.strings : TFList → Option (List String)
  | .null => some []
  | .unknown => none
  | .known elems =>
    if elems.all TFString.isKnown then some (elems.map TFString.ValueString) else none

/-- An encoded entry is well formed when each of its comma-separated tags
contains exactly one `=`. -/
def wellFormed (v : String) : Prop :=
  ∀ e ∈ Split v ',', countEq e = 1

instance wellFormedDecidable : DecidablePred wellFormed :=
  fun v => by unfold wellFormed; infer_instance

/-- The first tag of an encoded entry (an entry always has one). -/
def firstTag (v : String) : String :=
  (Split v ',').headD ""

/-- The text before `=` of the first tag in which that text is not empty, and
the empty string when there is no such tag. -/
def firstNonEmptyBefore (tags : List String) : String :=
  ((tags.map textBefore).find? (fun k => k != "")).getD ""

/-- The texts after `=` of the tags of an encoded entry, in tag order. -/
def entryValues (v : String) : List String :=
  (Split v ',').map textAfter

/-- The value of the last label in the list that bears the key `k`, if any
label does. -/
def lastValue (labels : List Label) (k : String) : Option String :=
  (labels.reverse.find? (fun l => l.Key == k)).map Label.Value

/-- The matcher a well-formed entry stands for: its key is the first non-empty
text before `=` among the tags, its values are the texts after `=`. -/
def entryMatcher (v : String) : LabelMatcher :=
  { Key := TFString.value (firstNonEmptyBefore (Split v ',')),
    Values := TFList.known ((entryValues v).map TFString.value) }

/-! ## Further plugin framework values -/

/-- The framework type `types.Bool`: null, unknown, or a known boolean. -/
inductive TFBool where
  | null : TFBool
  | unknown : TFBool
  | value (b : Bool) : TFBool
  deriving DecidableEq, Repr

/-- The framework type `types.Map` with element type `types.StringType`: null,
unknown, or known elements under their keys. -/
inductive TFMap where
  | null : TFMap
  | unknown : TFMap
  | known (elems : List (String × TFString)) : TFMap
  deriving DecidableEq, Repr

/-- The method `ValueStringPointer` of `types.String`: nil for null, a pointer to
the known string for a known value, and a pointer to the empty string for
unknown. -/
def TFString.ValueStringPointer : TFString → Option String
  | .null => none
  | .unknown => some ""
  | .value s => some s

/-- The function `types.StringPointerValue`: null for a nil pointer, otherwise
the known string pointed to. -/
def StringPointerValue : Option String → TFString
  | none => TFString.null
  | some s => TFString.value s

/-- The method `ValueBoolPointer` of `types.Bool`: nil for null, a pointer to the
known boolean for a known value, and a pointer to `false` for unknown. -/
def TFBool.ValueBoolPointer : TFBool → Option Bool
  | .null => none
  | .unknown => some false
  | .value b => some b

/-- The call `m.ElementsAs(ctx, &labels, false)` with `labels` a nil
`map[string]string`: the map written to `labels` and the diagnostics returned.
A null map leaves `labels` nil without error; an unknown map, or a null or
unknown element, is a conversion error and leaves `labels` nil. -/
def MapElementsAs : TFMap → GoMap × Diagnostics
  | .null => (GoMap.nil, [])
  | .unknown => (GoMap.nil, [Diagnostic.conversionError])
  | .known elems =>
    if elems.all (fun e => !e.2.IsNull && !e.2.IsUnknown) then
      (GoMap.table (elems.foldr (fun e m => m.insert e.1 e.2.ValueString) ∅), [])
    else (GoMap.nil, [Diagnostic.conversionError])

/-! ## Remote API (generated package `sdk/wg/cosmo`) -/

/-- Modelled from the spec: the enum `common.EnumStatusCode` is declared in the
generated package `sdk/wg/cosmo/common`, which is not among the source files.
The program only compares a status with `EnumStatusCode_OK`; every other status
is `ERR` with its number. -/
inductive EnumStatusCode where
  | OK : EnumStatusCode
  | ERR (code : Nat) : EnumStatusCode
  deriving DecidableEq, Repr

/-- Modelled from the spec: the message `common.Response`, not among the source
files, with its status code and its detail text. Every response message the
remote returns carries one. -/
structure Response where
  Code : EnumStatusCode
  Details : String
  deriving DecidableEq, Repr

/-- Modelled from the spec: a response message of which the program reads at
most the field `response` (the responses to create, rename, delete, update,
move and publish calls other than `CreateFederatedGraph`). -/
structure StatusResponse where
  Response : Response
  deriving DecidableEq, Repr

/-- Modelled from the spec: the message `platformv1.CreateNamespaceRequest`. -/
structure CreateNamespaceRequest where
  Name : String
  deriving DecidableEq, Repr

/-- Modelled from the spec: the message `platformv1.RenameNamespaceRequest`. -/
structure RenameNamespaceRequest where
  Name : String
  NewName : String
  deriving DecidableEq, Repr

/-- Modelled from the spec: the message `platformv1.DeleteNamespaceRequest`. -/
structure DeleteNamespaceRequest where
  Name : String
  deriving DecidableEq, Repr

/-- Modelled from the spec: the message `platformv1.Namespace`, an entry of the
namespace list. -/
structure Namespace where
  Id : String
  Name : String
  deriving DecidableEq, Repr

/-- Modelled from the spec: the message `platformv1.GetNamespacesResponse`. -/
structure GetNamespacesResponse where
  Response : Response
  Namespaces : List Namespace
  deriving DecidableEq, Repr

/-- Modelled from the spec: the message `platformv1.CreateFederatedGraphRequest`. -/
structure CreateFederatedGraphRequest where
  Name : String
  Namespace : String
  RoutingUrl : String
  AdmissionWebhookURL : String
  AdmissionWebhookSecret : Option String
  LabelMatchers : Slice String
  deriving DecidableEq, Repr

/-- Modelled from the spec: a composition error of a response, with its message. -/
structure CompositionError where
  Message : String
  deriving DecidableEq, Repr

/-- Modelled from the spec: a deployment error of a response, with its message. -/
structure DeploymentError where
  Message : String
  deriving DecidableEq, Repr

/-- Modelled from the spec: the message `platformv1.CreateFederatedGraphResponse`. -/
structure CreateFederatedGraphResponse where
  Response : Response
  CompositionErrors : List CompositionError
  DeploymentErrors : List DeploymentError
  deriving DecidableEq, Repr

/-- Modelled from the spec: the message `platformv1.GetFederatedGraphsRequest`. -/
structure GetFederatedGraphsRequest where
  Namespace : String
  deriving DecidableEq, Repr

/-- Modelled from the spec: the message `platformv1.FederatedGraph`, an entry of
the federated graph list; the webhook URL is an optional field. -/
structure FederatedGraph where
  Id : String
  Name : String
  Namespace : String
  RoutingURL : String
  LabelMatchers : List String
  AdmissionWebhookUrl : Option String
  deriving DecidableEq, Repr

/-- Modelled from the spec: the message `platformv1.GetFederatedGraphsResponse`. -/
structure GetFederatedGraphsResponse where
  Response : Response
  Graphs : List FederatedGraph
  deriving DecidableEq, Repr

/-- Modelled from the spec: the message `platformv1.UpdateFederatedGraphRequest`. -/
structure UpdateFederatedGraphRequest where
  Name : String
  Namespace : String
  RoutingUrl : String
  AdmissionWebhookSecret : Option String
  AdmissionWebhookURL : Option String
  LabelMatchers : Slice String
  deriving DecidableEq, Repr

/-- Modelled from the spec: the message `platformv1.DeleteFederatedGraphRequest`. -/
structure DeleteFederatedGraphRequest where
  Name : String
  Namespace : String
  deriving DecidableEq, Repr

/-- Modelled from the spec: the message `platformv1.CreateFederatedSubgraphRequest`. -/
structure CreateFederatedSubgraphRequest where
  Name : String
  Namespace : String
  RoutingUrl : Option String
  SubscriptionUrl : Option String
  SubscriptionProtocol : Option GraphQLSubscriptionProtocol
  WebsocketSubprotocol : Option GraphQLWebsocketSubprotocol
  Labels : Slice Label
  IsEventDrivenGraph : Option Bool
  IsFeatureSubgraph : Option Bool
  deriving DecidableEq, Repr

/-- Modelled from the spec: the message `platformv1.GetSubgraphsRequest`. -/
structure GetSubgraphsRequest where
  Namespace : String
  deriving DecidableEq, Repr

/-- Modelled from the spec: the message `platformv1.Subgraph`, an entry of the
subgraph list. -/
structure Subgraph where
  Id : String
  Name : String
  Namespace : String
  RoutingURL : String
  SubscriptionUrl : String
  SubscriptionProtocol : String
  WebsocketSubprotocol : String
  Labels : List Label
  IsEventDrivenGraph : Bool
  IsFeatureSubgraph : Bool
  deriving DecidableEq, Repr

/-- Modelled from the spec: the message `platformv1.GetSubgraphsResponse`. -/
structure GetSubgraphsResponse where
  Response : Response
  Graphs : List Subgraph
  deriving DecidableEq, Repr

/-- Modelled from the spec: the message `platformv1.PublishFederatedSubgraphRequest`. -/
structure PublishFederatedSubgraphRequest where
  Name : String
  Namespace : String
  Schema : String
  deriving DecidableEq, Repr

/-- Modelled from the spec: the message `platformv1.MoveGraphRequest`. -/
structure MoveGraphRequest where
  Name : String
  Namespace : String
  NewNamespace : String
  deriving DecidableEq, Repr

/-- Modelled from the spec: the message `platformv1.UpdateSubgraphRequest`. -/
structure UpdateSubgraphRequest where
  Name : String
  Namespace : String
  RoutingUrl : Option String
  SubscriptionUrl : Option String
  Labels : Slice Label
  SubscriptionProtocol : Option GraphQLSubscriptionProtocol
  WebsocketSubprotocol : Option GraphQLWebsocketSubprotocol
  deriving DecidableEq, Repr

/-- Modelled from the spec: the message `platformv1.GetLatestSubgraphSDLRequest`. -/
structure GetLatestSubgraphSDLRequest where
  Namespace : String
  Name : String
  deriving DecidableEq, Repr

/-- Modelled from the spec: the message `platformv1.GetLatestSubgraphSDLResponse`;
the SDL text is an optional field. -/
structure GetLatestSubgraphSDLResponse where
  Response : Response
  Sdl : Option String
  deriving DecidableEq, Repr

/-- Modelled from the spec: the message `platformv1.DeleteFederatedSubgraphRequest`. -/
structure DeleteFederatedSubgraphRequest where
  SubgraphName : String
  Namespace : String
  deriving DecidableEq, Repr

/-- Modelled from the spec: the interface `platformv1connect.PlatformServiceClient`,
not among the source files. The remote is a parameter of every operation: for
each method, the answer to a request is either a transport error with its text
(`err.Error()`) or the response message. No operation calls a method twice, so
one answer per request describes every remote. -/
structure PlatformServiceClient where
  CreateNamespace : CreateNamespaceRequest → Except String StatusResponse
  GetNamespaces : Except String GetNamespacesResponse
  RenameNamespace : RenameNamespaceRequest → Except String StatusResponse
  DeleteNamespace : DeleteNamespaceRequest → Except String StatusResponse
  CreateFederatedGraph : CreateFederatedGraphRequest → Except String CreateFederatedGraphResponse
  GetFederatedGraphs : GetFederatedGraphsRequest → Except String GetFederatedGraphsResponse
  UpdateFederatedGraph : UpdateFederatedGraphRequest → Except String StatusResponse
  DeleteFederatedGraph : DeleteFederatedGraphRequest → Except String StatusResponse
  CreateFederatedSubgraph : CreateFederatedSubgraphRequest → Except String StatusResponse
  GetSubgraphs : GetSubgraphsRequest → Except String GetSubgraphsResponse
  PublishFederatedSubgraph : PublishFederatedSubgraphRequest → Except String StatusResponse
  MoveSubgraph : MoveGraphRequest → Except String StatusResponse
  UpdateSubgraph : UpdateSubgraphRequest → Except String StatusResponse
  DeleteFederatedSubgraph : DeleteFederatedSubgraphRequest → Except String StatusResponse
  GetLatestSubgraphSDL :
    GetLatestSubgraphSDLRequest → Except String GetLatestSubgraphSDLResponse

/-- A remote call issued by an operation: the method and the request sent. -/
inductive Call where
  | CreateNamespace (req : CreateNamespaceRequest) : Call
  | GetNamespaces : Call
  | RenameNamespace (req : RenameNamespaceRequest) : Call
  | DeleteNamespace (req : DeleteNamespaceRequest) : Call
  | CreateFederatedGraph (req : CreateFederatedGraphRequest) : Call
  | GetFederatedGraphs (req : GetFederatedGraphsRequest) : Call
  | UpdateFederatedGraph (req : UpdateFederatedGraphRequest) : Call
  | DeleteFederatedGraph (req : DeleteFederatedGraphRequest) : Call
  | CreateFederatedSubgraph (req : CreateFederatedSubgraphRequest) : Call
  | GetSubgraphs (req : GetSubgraphsRequest) : Call
  | PublishFederatedSubgraph (req : PublishFederatedSubgraphRequest) : Call
  | MoveSubgraph (req : MoveGraphRequest) : Call
  | UpdateSubgraph (req : UpdateSubgraphRequest) : Call
  | DeleteFederatedSubgraph (req : DeleteFederatedSubgraphRequest) : Call
  | GetLatestSubgraphSDL (req : GetLatestSubgraphSDLRequest) : Call
  deriving DecidableEq, Repr

/-- What an operation of a resource does: the remote calls it issues, in order,
the diagnostics it leaves in the response, and the value it passes to
`resp.State.Set`, if it reaches that call. The plan and state handed to an
operation are the decoded models, and `State.Set` reports no diagnostic. -/
structure OpResult (σ : Type) where
  calls : List Call
  diags : Diagnostics
  state : Option σ
  deriving DecidableEq, Repr

/-- The method `Append` of `diag.Diagnostics`: each incoming diagnostic is added
at the end unless an equal one is already present. -/
def Diagnostics.Append (d : Diagnostics) (incoming : Diagnostics) : Diagnostics :=
  incoming.foldl (fun acc x => if x ∈ acc then acc else acc ++ [x]) d

/-- The method `AddError` of `diag.Diagnostics`. -/
def Diagnostics.AddError (d : Diagnostics) (summary detail : String) : Diagnostics :=
  Diagnostics.Append d [Diagnostic.error summary detail]

/-- The method `AddWarning` of `diag.Diagnostics`. -/
def Diagnostics.AddWarning (d : Diagnostics) (summary detail : String) : Diagnostics :=
  Diagnostics.Append d [Diagnostic.warning summary detail]

/-! ## Namespace resource (`namespace.go`) -/

/-- The struct `NamespaceModel`. -/
structure NamespaceModel where
  Id : TFString
  Name : TFString
  deriving DecidableEq, Repr

/-- The scan of `NamespaceResource.Create` over the listed namespaces: the id of
each namespace bearing the plan's name is stored in `data`, and `isFound` is
set. -/
def namespaceCreateScan (namespaces : List Namespace) (data : NamespaceModel) :
    NamespaceModel × Bool :=
  namespaces.foldl
    (fun acc n =>
      if n.Name = acc.1.Name.ValueString then
        ({ acc.1 with Id := TFString.value n.Id }, true)
      else acc)
    (data, false)

/-- The method `NamespaceResource.Create`. -/
def NamespaceResource.Create (client : PlatformServiceClient) (data : NamespaceModel) :
    OpResult NamespaceModel :=
  let createReq : CreateNamespaceRequest := { Name := data.Name.ValueString }
  match client.CreateNamespace createReq with
  | .error err =>
    { calls := [Call.CreateNamespace createReq],
      diags := Diagnostics.AddError [] "Error creating namespace" err,
      state := none }
  | .ok _ =>
    match client.GetNamespaces with
    | .error err =>
      { calls := [Call.CreateNamespace createReq, Call.GetNamespaces],
        diags := Diagnostics.AddError [] "Error reading namespaces" err,
        state := none }
    | .ok ns =>
      let scan := namespaceCreateScan ns.Namespaces data
      if !scan.2 then
        { calls := [Call.CreateNamespace createReq, Call.GetNamespaces],
          diags := Diagnostics.AddError [] "Error reading namespaces" "Namespace not found",
          state := none }
      else
        { calls := [Call.CreateNamespace createReq, Call.GetNamespaces],
          diags := [],
          state := some scan.1 }

/-- The scan of `NamespaceResource.Read` over the listed namespaces: `current`
is replaced by each namespace bearing the state's id. -/
def namespaceReadScan (namespaces : List Namespace) (id : String) : Option NamespaceModel :=
  namespaces.foldl
    (fun current n =>
      if n.Id = id then
        some { Id := TFString.value n.Id, Name := TFString.value n.Name }
      else current)
    none

/-- The method `NamespaceResource.Read`. -/
def NamespaceResource.Read (client : PlatformServiceClient) (data : NamespaceModel) :
    OpResult NamespaceModel :=
  match client.GetNamespaces with
  | .error err =>
    { calls := [Call.GetNamespaces],
      diags := Diagnostics.AddError [] "Error reading namespaces" err,
      state := none }
  | .ok ns =>
    match namespaceReadScan ns.Namespaces data.Id.ValueString with
    | none =>
      { calls := [Call.GetNamespaces],
        diags := Diagnostics.AddError [] "Error reading namespaces" "Namespace not found",
        state := none }
    | some current =>
      { calls := [Call.GetNamespaces], diags := [], state := some current }

/-- The method `NamespaceResource.Update`. -/
def NamespaceResource.Update (client : PlatformServiceClient) (plan state : NamespaceModel) :
    OpResult NamespaceModel :=
  let renameReq : RenameNamespaceRequest :=
    { Name := state.Name.ValueString, NewName := plan.Name.ValueString }
  match client.RenameNamespace renameReq with
  | .error err =>
    { calls := [Call.RenameNamespace renameReq],
      diags := Diagnostics.AddError [] "Error reading namespaces" err,
      state := none }
  | .ok _ =>
    { calls := [Call.RenameNamespace renameReq], diags := [], state := some plan }

/-- The method `NamespaceResource.Delete`; it never calls `State.Set`. -/
def NamespaceResource.Delete (client : PlatformServiceClient) (data : NamespaceModel) :
    OpResult NamespaceModel :=
  let deleteReq : DeleteNamespaceRequest := { Name := data.Name.ValueString }
  match client.DeleteNamespace deleteReq with
  | .error err =>
    { calls := [Call.DeleteNamespace deleteReq],
      diags := Diagnostics.AddError [] "Error deleting namespace" err,
      state := none }
  | .ok _ =>
    { calls := [Call.DeleteNamespace deleteReq], diags := [], state := none }

/-! ## Federated graph resource (`federated_graph.go`) -/

/-- The struct `FederatedGraphModel`. -/
structure FederatedGraphModel where
  Id : TFString
  Name : TFString
  Namespace : TFString
  RoutingUrl : TFString
  LabelMatchers : Slice LabelMatcher
  AdmissionWebhookUrl : TFString
  AdmissionWebhookSecret : TFString
  deriving DecidableEq, Repr

/-- The warnings and the error that `FederatedGraphResource.Create` adds to the
diagnostics `d` when the response to the create call has a status other than
OK: a warning for each composition error, a warning for each deployment error,
then the error with the detail text of the response. -/
def graphCreateFailure (d : Diagnostics) (rc : CreateFederatedGraphResponse) : Diagnostics :=
  let d1 := rc.CompositionErrors.foldl
    (fun acc e => Diagnostics.AddWarning acc "Composition errors when creating graph" e.Message) d
  let d2 := rc.DeploymentErrors.foldl
    (fun acc e => Diagnostics.AddWarning acc "Deployment errors when creating graph" e.Message) d1
  Diagnostics.AddError d2 "Error creating federated graph" rc.Response.Details

/-- The scan of `FederatedGraphResource.Create` over the listed graphs: the id
of each graph bearing the plan's name is stored in `plan`, and `isFound` is
set. -/
def graphCreateScan (graphs : List FederatedGraph) (plan : FederatedGraphModel) :
    FederatedGraphModel × Bool :=
  graphs.foldl
    (fun acc n =>
      if n.Name = acc.1.Name.ValueString then
        ({ acc.1 with Id := TFString.value n.Id }, true)
      else acc)
    (plan, false)

/-- The method `FederatedGraphResource.Create`; `diags` are the diagnostics that
`req.Plan.Get` returned for the decoded `plan`. A plan is decoded only when
`req.Plan.Get` reports no error (otherwise the pointer `plan` stays nil and the
method stops with a nil dereference at the encoding of the label matchers), so
the method is given for diagnostics without error. The early return after the
encoding of the label matchers tests `diags`, as the source does, and a status
other than OK of the create response adds diagnostics without returning. -/
def FederatedGraphResource.Create (client : PlatformServiceClient) (diags : Diagnostics)
    (_decoded : HasError diags = false) (plan : FederatedGraphModel) :
    OpResult FederatedGraphModel :=
  let d0 := Diagnostics.Append [] diags
  let enc := MapLabelMatchersToNative plan.LabelMatchers.toList
  if HasError diags then
    { calls := [], diags := Diagnostics.Append d0 enc.2, state := none }
  else
    let createReq : CreateFederatedGraphRequest :=
      { Name := plan.Name.ValueString,
        Namespace := plan.Namespace.ValueString,
        RoutingUrl := plan.RoutingUrl.ValueString,
        AdmissionWebhookURL := plan.AdmissionWebhookUrl.ValueString,
        AdmissionWebhookSecret := plan.AdmissionWebhookSecret.ValueStringPointer,
        LabelMatchers := enc.1 }
    match client.CreateFederatedGraph createReq with
    | .error err =>
      { calls := [Call.CreateFederatedGraph createReq],
        diags := Diagnostics.AddError d0 "Error creating federated graph" err,
        state := none }
    | .ok rc =>
      let d1 := if rc.Response.Code ≠ EnumStatusCode.OK then graphCreateFailure d0 rc else d0
      let listReq : GetFederatedGraphsRequest := { Namespace := plan.Namespace.ValueString }
      match client.GetFederatedGraphs listReq with
      | .error err =>
        { calls := [Call.CreateFederatedGraph createReq, Call.GetFederatedGraphs listReq],
          diags := Diagnostics.AddError d1 "Error reading federated graph" err,
          state := none }
      | .ok ns =>
        let scan := graphCreateScan ns.Graphs plan
        if !scan.2 then
          { calls := [Call.CreateFederatedGraph createReq, Call.GetFederatedGraphs listReq],
            diags := Diagnostics.AddError d1 "Error reading federated graph"
              "Federated graph not found",
            state := none }
        else
          { calls := [Call.CreateFederatedGraph createReq, Call.GetFederatedGraphs listReq],
            diags := d1,
            state := some scan.1 }

/-- The model that `FederatedGraphResource.Read` builds from a listed graph and
its decoded label matchers; the webhook secret is left at its zero value, the
null string. -/
def graphReadModel (n : FederatedGraph) (labelMatchers : Slice LabelMatcher) :
    FederatedGraphModel :=
  let admissionWebhookUrl : Option String :=
    if n.AdmissionWebhookUrl ≠ none ∧ n.AdmissionWebhookUrl ≠ some "" then
      n.AdmissionWebhookUrl
    else none
  { Id := TFString.value n.Id,
    Name := TFString.value n.Name,
    Namespace := TFString.value n.Namespace,
    RoutingUrl := TFString.value n.RoutingURL,
    AdmissionWebhookUrl := StringPointerValue admissionWebhookUrl,
    LabelMatchers := labelMatchers,
    AdmissionWebhookSecret := TFString.null }

/-- The scan of `FederatedGraphResource.Read` over the remaining listed graphs,
with the model `current` found so far; `Except.error` is the early return taken
when the label matchers of a graph bearing the state's id fail to decode. -/
def graphReadScan (id : String) :
    List FederatedGraph → Option FederatedGraphModel →
      Except Diagnostics (Option FederatedGraphModel)
  | [], current => .ok current
  | n :: rest, current =>
    if n.Id = id then
      let dec := MapLabelMatchersFromNative n.LabelMatchers
      if HasError dec.2 then .error dec.2
      else graphReadScan id rest (some (graphReadModel n dec.1))
    else graphReadScan id rest current

/-- The method `FederatedGraphResource.Read`. -/
def FederatedGraphResource.Read (client : PlatformServiceClient) (data : FederatedGraphModel) :
    OpResult FederatedGraphModel :=
  let listReq : GetFederatedGraphsRequest := { Namespace := data.Namespace.ValueString }
  match client.GetFederatedGraphs listReq with
  | .error err =>
    { calls := [Call.GetFederatedGraphs listReq],
      diags := Diagnostics.AddError [] "Error reading federated graph" err,
      state := none }
  | .ok ns =>
    if ns.Response.Code ≠ EnumStatusCode.OK then
      { calls := [Call.GetFederatedGraphs listReq],
        diags := Diagnostics.AddError [] "Error fetching federated graph list"
          ns.Response.Details,
        state := none }
    else
      match graphReadScan data.Id.ValueString ns.Graphs none with
      | .error d =>
        { calls := [Call.GetFederatedGraphs listReq],
          diags := Diagnostics.Append [] d,
          state := none }
      | .ok none =>
        { calls := [Call.GetFederatedGraphs listReq],
          diags := Diagnostics.AddError [] "Error reading federated graph"
            "federated graph not found",
          state := none }
      | .ok (some current) =>
        { calls := [Call.GetFederatedGraphs listReq], diags := [], state := some current }

/-- The method `FederatedGraphResource.Update`. -/
def FederatedGraphResource.Update (client : PlatformServiceClient)
    (plan _state : FederatedGraphModel) : OpResult FederatedGraphModel :=
  let enc := MapLabelMatchersToNative plan.LabelMatchers.toList
  if HasError enc.2 then
    { calls := [], diags := Diagnostics.Append [] enc.2, state := none }
  else
    let updateReq : UpdateFederatedGraphRequest :=
      { Name := plan.Name.ValueString,
        Namespace := plan.Namespace.ValueString,
        RoutingUrl := plan.RoutingUrl.ValueString,
        AdmissionWebhookSecret := plan.AdmissionWebhookSecret.ValueStringPointer,
        AdmissionWebhookURL := plan.AdmissionWebhookUrl.ValueStringPointer,
        LabelMatchers := enc.1 }
    match client.UpdateFederatedGraph updateReq with
    | .error err =>
      { calls := [Call.UpdateFederatedGraph updateReq],
        diags := Diagnostics.AddError [] "Error updating federated graph" err,
        state := none }
    | .ok ru =>
      if ru.Response.Code ≠ EnumStatusCode.OK then
        { calls := [Call.UpdateFederatedGraph updateReq],
          diags := Diagnostics.AddError [] "Error updating federated graph"
            ru.Response.Details,
          state := none }
      else
        { calls := [Call.UpdateFederatedGraph updateReq], diags := [], state := some plan }

/-- The method `FederatedGraphResource.Delete`; the response to the delete call
is discarded and `State.Set` is never called. -/
def FederatedGraphResource.Delete (client : PlatformServiceClient)
    (data : FederatedGraphModel) : OpResult FederatedGraphModel :=
  let deleteReq : DeleteFederatedGraphRequest :=
    { Name := data.Name.ValueString, Namespace := data.Namespace.ValueString }
  match client.DeleteFederatedGraph deleteReq with
  | .error err =>
    { calls := [Call.DeleteFederatedGraph deleteReq],
      diags := Diagnostics.AddError [] "Error deleting federated graph" err,
      state := none }
  | .ok _ =>
    { calls := [Call.DeleteFederatedGraph deleteReq], diags := [], state := none }

/-! ## Federated subgraph resource (`federated_subgraph.go`) -/

/-- The struct `FederatedSubgraphModel`. -/
structure FederatedSubgraphModel where
  Id : TFString
  Name : TFString
  Namespace : TFString
  RoutingUrl : TFString
  Schema : TFString
  SubscriptionUrl : TFString
  SubscriptionProtocol : TFString
  WebsocketSubprotocol : TFString
  Labels : TFMap
  IsEventDrivenGraph : TFBool
  IsFeatureSubgraph : TFBool
  deriving DecidableEq, Repr

/-- The scan of `FederatedSubgraphResource.Create` over the listed subgraphs:
the id of each subgraph bearing the plan's name is stored in `plan`, and
`isFound` is set. -/
def subgraphCreateScan (graphs : List Subgraph) (plan : FederatedSubgraphModel) :
    FederatedSubgraphModel × Bool :=
  graphs.foldl
    (fun acc n =>
      if n.Name = acc.1.Name.ValueString then
        ({ acc.1 with Id := TFString.value n.Id }, true)
      else acc)
    (plan, false)

/-- The last part of `FederatedSubgraphResource.Create`, after the scan has found
the subgraph: the publish call and the write of the state; `calls` are the
calls issued before. -/
def subgraphCreatePublish (client : PlatformServiceClient) (plan : FederatedSubgraphModel)
    (calls : List Call) : OpResult FederatedSubgraphModel :=
  let publishReq : PublishFederatedSubgraphRequest :=
    { Name := plan.Name.ValueString,
      Namespace := plan.Namespace.ValueString,
      Schema := plan.Schema.ValueString }
  match client.PublishFederatedSubgraph publishReq with
  | .error err =>
    { calls := calls ++ [Call.PublishFederatedSubgraph publishReq],
      diags := Diagnostics.AddError [] "Error updating schema" err,
      state := none }
  | .ok rp =>
    if rp.Response.Code ≠ EnumStatusCode.OK then
      { calls := calls ++ [Call.PublishFederatedSubgraph publishReq],
        diags := Diagnostics.AddError [] "Error creating subgraph" rp.Response.Details,
        state := none }
    else
      { calls := calls ++ [Call.PublishFederatedSubgraph publishReq],
        diags := [],
        state := some plan }

/-- The middle part of `FederatedSubgraphResource.Create`, after the create call
has succeeded: the list call and the scan for the plan's name; `calls` are the
calls issued before. -/
def subgraphCreateList (client : PlatformServiceClient) (plan : FederatedSubgraphModel)
    (calls : List Call) : OpResult FederatedSubgraphModel :=
  let listReq : GetSubgraphsRequest := { Namespace := plan.Namespace.ValueString }
  match client.GetSubgraphs listReq with
  | .error err =>
    { calls := calls ++ [Call.GetSubgraphs listReq],
      diags := Diagnostics.AddError [] "Error reading subgraph" err,
      state := none }
  | .ok ns =>
    let scan := subgraphCreateScan ns.Graphs plan
    if !scan.2 then
      { calls := calls ++ [Call.GetSubgraphs listReq],
        diags := Diagnostics.AddError [] "Error reading subgraph" "subgraph not found",
        state := none }
    else subgraphCreatePublish client scan.1 (calls ++ [Call.GetSubgraphs listReq])

/-- The method `FederatedSubgraphResource.Create`. -/
def FederatedSubgraphResource.Create (client : PlatformServiceClient)
    (plan : FederatedSubgraphModel) : OpResult FederatedSubgraphModel :=
  let p := MapSubscriptionProtocol plan.SubscriptionProtocol
  match p.2 with
  | some err =>
    { calls := [], diags := Diagnostics.AddError [] "Error creating subgraph" err,
      state := none }
  | none =>
    let w := MapWebSocketSubprotocol plan.WebsocketSubprotocol
    match w.2 with
    | some err =>
      { calls := [], diags := Diagnostics.AddError [] "Error creating subgraph" err,
        state := none }
    | none =>
      let read := MapElementsAs plan.Labels
      if HasError read.2 then
        { calls := [], diags := Diagnostics.Append [] read.2, state := none }
      else
        let createReq : CreateFederatedSubgraphRequest :=
          { Name := plan.Name.ValueString,
            Namespace := plan.Namespace.ValueString,
            RoutingUrl := plan.RoutingUrl.ValueStringPointer,
            SubscriptionUrl := plan.SubscriptionUrl.ValueStringPointer,
            SubscriptionProtocol := p.1,
            WebsocketSubprotocol := w.1,
            Labels := MapLabelsToNative read.1,
            IsEventDrivenGraph := plan.IsEventDrivenGraph.ValueBoolPointer,
            IsFeatureSubgraph := plan.IsFeatureSubgraph.ValueBoolPointer }
        match client.CreateFederatedSubgraph createReq with
        | .error err =>
          { calls := [Call.CreateFederatedSubgraph createReq],
            diags := Diagnostics.AddError [] "Error creating subgraph" err,
            state := none }
        | .ok rc =>
          if rc.Response.Code ≠ EnumStatusCode.OK then
            { calls := [Call.CreateFederatedSubgraph createReq],
              diags := Diagnostics.AddError [] "Error creating subgraph" rc.Response.Details,
              state := none }
          else subgraphCreateList client plan [Call.CreateFederatedSubgraph createReq]

/-- The last part of `FederatedSubgraphResource.Update`: the mapping of the two
protocols, the reading of the labels, the general update call and the write of
the state; `calls` are the calls issued before. -/
def subgraphUpdateGeneral (client : PlatformServiceClient) (plan : FederatedSubgraphModel)
    (calls : List Call) : OpResult FederatedSubgraphModel :=
  let p := MapSubscriptionProtocol plan.SubscriptionProtocol
  match p.2 with
  | some err =>
    { calls := calls, diags := Diagnostics.AddError [] "Error creating subgraph" err,
      state := none }
  | none =>
    let w := MapWebSocketSubprotocol plan.WebsocketSubprotocol
    match w.2 with
    | some err =>
      { calls := calls, diags := Diagnostics.AddError [] "Error creating subgraph" err,
        state := none }
    | none =>
      let read := MapElementsAs plan.Labels
      if HasError read.2 then
        { calls := calls, diags := Diagnostics.Append [] read.2, state := none }
      else
        let updateReq : UpdateSubgraphRequest :=
          { Name := plan.Name.ValueString,
            Namespace := plan.Namespace.ValueString,
            RoutingUrl := plan.RoutingUrl.ValueStringPointer,
            SubscriptionUrl := plan.SubscriptionUrl.ValueStringPointer,
            Labels := MapLabelsToNative read.1,
            SubscriptionProtocol := p.1,
            WebsocketSubprotocol := w.1 }
        match client.UpdateSubgraph updateReq with
        | .error err =>
          { calls := calls ++ [Call.UpdateSubgraph updateReq],
            diags := Diagnostics.AddError [] "Error reading subgraph" err,
            state := none }
        | .ok ru =>
          if ru.Response.Code ≠ EnumStatusCode.OK then
            { calls := calls ++ [Call.UpdateSubgraph updateReq],
              diags := Diagnostics.AddError [] "Error updating subgraph" ru.Response.Details,
              state := none }
          else
            { calls := calls ++ [Call.UpdateSubgraph updateReq],
              diags := [],
              state := some plan }

/-- The middle part of `FederatedSubgraphResource.Update`: the move call, issued
when the plan's namespace is not equal to the state's; `calls` are the calls
issued before. -/
def subgraphUpdateMove (client : PlatformServiceClient)
    (plan state : FederatedSubgraphModel) (calls : List Call) :
    OpResult FederatedSubgraphModel :=
  if plan.Namespace ≠ state.Namespace then
    let moveReq : MoveGraphRequest :=
      { Name := state.Name.ValueString,
        Namespace := state.Namespace.ValueString,
        NewNamespace := plan.Namespace.ValueString }
    match client.MoveSubgraph moveReq with
    | .error err =>
      { calls := calls ++ [Call.MoveSubgraph moveReq],
        diags := Diagnostics.AddError [] "Error moving namespace" err,
        state := none }
    | .ok rm =>
      if rm.Response.Code ≠ EnumStatusCode.OK then
        { calls := calls ++ [Call.MoveSubgraph moveReq],
          diags := Diagnostics.AddError [] "Error updating subgraph" rm.Response.Details,
          state := none }
      else subgraphUpdateGeneral client plan (calls ++ [Call.MoveSubgraph moveReq])
  else subgraphUpdateGeneral client plan calls

/-- The method `FederatedSubgraphResource.Update`: the publish call, issued when
the plan's schema is not equal to the state's, then the rest. -/
def FederatedSubgraphResource.Update (client : PlatformServiceClient)
    (plan state : FederatedSubgraphModel) : OpResult FederatedSubgraphModel :=
  if plan.Schema ≠ state.Schema then
    let publishReq : PublishFederatedSubgraphRequest :=
      { Name := plan.Name.ValueString,
        Namespace := plan.Namespace.ValueString,
        Schema := plan.Schema.ValueString }
    match client.PublishFederatedSubgraph publishReq with
    | .error err =>
      { calls := [Call.PublishFederatedSubgraph publishReq],
        diags := Diagnostics.AddError [] "Error updating schema" err,
        state := none }
    | .ok rp =>
      if rp.Response.Code ≠ EnumStatusCode.OK then
        { calls := [Call.PublishFederatedSubgraph publishReq],
          diags := Diagnostics.AddError [] "Error updating subgraph" rp.Response.Details,
          state := none }
      else subgraphUpdateMove client plan state [Call.PublishFederatedSubgraph publishReq]
  else subgraphUpdateMove client plan state []

/-- The call `types.MapValueFrom(ctx, types.StringType, m)` for a
`map[string]string`: a nil map gives the null map, an allocated map the known
map of its strings; converting strings never reports a diagnostic. -/
def MapValueFrom : GoMap → TFMap × Diagnostics
  | .nil => (TFMap.null, [])
  | .table t => (TFMap.known (t.entries.map (fun e => (e.1, TFString.value e.2))), [])

/-- The model that `FederatedSubgraphResource.Read` builds from a listed
subgraph and its labels; the subscription URL is null for the empty string, and
the schema is left at its zero value, the null string, until the SDL is
fetched. -/
def subgraphReadModel (n : Subgraph) (labels : TFMap) : FederatedSubgraphModel :=
  let subscriptionUrl : Option String :=
    if n.SubscriptionUrl ≠ "" then some n.SubscriptionUrl else none
  { Id := TFString.value n.Id,
    Name := TFString.value n.Name,
    Namespace := TFString.value n.Namespace,
    RoutingUrl := TFString.value n.RoutingURL,
    Schema := TFString.null,
    SubscriptionUrl := StringPointerValue subscriptionUrl,
    IsEventDrivenGraph := TFBool.value n.IsEventDrivenGraph,
    IsFeatureSubgraph := TFBool.value n.IsFeatureSubgraph,
    SubscriptionProtocol := TFString.value n.SubscriptionProtocol,
    WebsocketSubprotocol := TFString.value n.WebsocketSubprotocol,
    Labels := labels }

/-- The scan of `FederatedSubgraphResource.Read` over the remaining listed
subgraphs, with the model `current` found so far; `Except.error` is the early
return taken when the conversion of the labels reports an error. -/
def subgraphReadScan (id : String) :
    List Subgraph → Option FederatedSubgraphModel →
      Except Diagnostics (Option FederatedSubgraphModel)
  | [], current => .ok current
  | n :: rest, current =>
    if n.Id = id then
      let conv := MapValueFrom (MapLabelsFromNative n.Labels)
      if HasError conv.2 then .error conv.2
      else subgraphReadScan id rest (some (subgraphReadModel n conv.1))
    else subgraphReadScan id rest current

/-- The last part of `FederatedSubgraphResource.Read`, after the scan has found
the subgraph: the call that fetches the latest SDL and the write of the state;
`calls` are the calls issued before. -/
def subgraphReadSdl (client : PlatformServiceClient) (data current : FederatedSubgraphModel)
    (calls : List Call) : OpResult FederatedSubgraphModel :=
  let sdlReq : GetLatestSubgraphSDLRequest :=
    { Namespace := data.Namespace.ValueString, Name := data.Name.ValueString }
  match client.GetLatestSubgraphSDL sdlReq with
  | .error err =>
    { calls := calls ++ [Call.GetLatestSubgraphSDL sdlReq],
      diags := Diagnostics.AddError [] "Error fetching sdl" err,
      state := none }
  | .ok sdl =>
    if sdl.Response.Code ≠ EnumStatusCode.OK then
      { calls := calls ++ [Call.GetLatestSubgraphSDL sdlReq],
        diags := Diagnostics.AddError [] "Error fetching SDL" sdl.Response.Details,
        state := none }
    else
      { calls := calls ++ [Call.GetLatestSubgraphSDL sdlReq],
        diags := [],
        state := some { current with Schema := StringPointerValue sdl.Sdl } }

/-- The method `FederatedSubgraphResource.Read`. -/
def FederatedSubgraphResource.Read (client : PlatformServiceClient)
    (data : FederatedSubgraphModel) : OpResult FederatedSubgraphModel :=
  let listReq : GetSubgraphsRequest := { Namespace := data.Namespace.ValueString }
  match client.GetSubgraphs listReq with
  | .error err =>
    { calls := [Call.GetSubgraphs listReq],
      diags := Diagnostics.AddError [] "Error reading subgraph" err,
      state := none }
  | .ok ns =>
    if ns.Response.Code ≠ EnumStatusCode.OK then
      { calls := [Call.GetSubgraphs listReq],
        diags := Diagnostics.AddError [] "Error fetching subgraph list" ns.Response.Details,
        state := none }
    else
      match subgraphReadScan data.Id.ValueString ns.Graphs none with
      | .error d =>
        { calls := [Call.GetSubgraphs listReq],
          diags := Diagnostics.Append [] d,
          state := none }
      | .ok none =>
        { calls := [Call.GetSubgraphs listReq],
          diags := Diagnostics.AddError [] "Error reading federated subgraph"
            "federated subgraph not found",
          state := none }
      | .ok (some current) => subgraphReadSdl client data current [Call.GetSubgraphs listReq]

/-- The method `FederatedSubgraphResource.Delete`; the response to the delete
call is discarded and `State.Set` is never called. -/
def FederatedSubgraphResource.Delete (client : PlatformServiceClient)
    (data : FederatedSubgraphModel) : OpResult FederatedSubgraphModel :=
  let deleteReq : DeleteFederatedSubgraphRequest :=
    { SubgraphName := data.Name.ValueString, Namespace := data.Namespace.ValueString }
  match client.DeleteFederatedSubgraph deleteReq with
  | .error err =>
    { calls := [Call.DeleteFederatedSubgraph deleteReq],
      diags := Diagnostics.AddError [] "Error deleting subgraph" err,
      state := none }
  | .ok _ =>
    { calls := [Call.DeleteFederatedSubgraph deleteReq], diags := [], state := none }

/-! ## Words of the specification about the operations -/

/-- The name of the method of a remote call. -/
def Call.name : Call → String
  | .CreateNamespace _ => "CreateNamespace"
  | .GetNamespaces => "GetNamespaces"
  | .RenameNamespace _ => "RenameNamespace"
  | .DeleteNamespace _ => "DeleteNamespace"
  | .CreateFederatedGraph _ => "CreateFederatedGraph"
  | .GetFederatedGraphs _ => "GetFederatedGraphs"
  | .UpdateFederatedGraph _ => "UpdateFederatedGraph"
  | .DeleteFederatedGraph _ => "DeleteFederatedGraph"
  | .CreateFederatedSubgraph _ => "CreateFederatedSubgraph"
  | .GetSubgraphs _ => "GetSubgraphs"
  | .PublishFederatedSubgraph _ => "PublishFederatedSubgraph"
  | .MoveSubgraph _ => "MoveSubgraph"
  | .UpdateSubgraph _ => "UpdateSubgraph"
  | .DeleteFederatedSubgraph _ => "DeleteFederatedSubgraph"
  | .GetLatestSubgraphSDL _ => "GetLatestSubgraphSDL"

/-- The status with which the remote answers a call: `none` when the call fails
at transport level, otherwise the status code of the response. -/
def PlatformServiceClient.status (client : PlatformServiceClient) : Call → Option EnumStatusCode
  | .CreateNamespace req => (client.CreateNamespace req).toOption.map (·.Response.Code)
  | .GetNamespaces => client.GetNamespaces.toOption.map (·.Response.Code)
  | .RenameNamespace req => (client.RenameNamespace req).toOption.map (·.Response.Code)
  | .DeleteNamespace req => (client.DeleteNamespace req).toOption.map (·.Response.Code)
  | .CreateFederatedGraph req => (client.CreateFederatedGraph req).toOption.map (·.Response.Code)
  | .GetFederatedGraphs req => (client.GetFederatedGraphs req).toOption.map (·.Response.Code)
  | .UpdateFederatedGraph req => (client.UpdateFederatedGraph req).toOption.map (·.Response.Code)
  | .DeleteFederatedGraph req => (client.DeleteFederatedGraph req).toOption.map (·.Response.Code)
  | .CreateFederatedSubgraph req =>
    (client.CreateFederatedSubgraph req).toOption.map (·.Response.Code)
  | .GetSubgraphs req => (client.GetSubgraphs req).toOption.map (·.Response.Code)
  | .PublishFederatedSubgraph req =>
    (client.PublishFederatedSubgraph req).toOption.map (·.Response.Code)
  | .MoveSubgraph req => (client.MoveSubgraph req).toOption.map (·.Response.Code)
  | .UpdateSubgraph req => (client.UpdateSubgraph req).toOption.map (·.Response.Code)
  | .DeleteFederatedSubgraph req =>
    (client.DeleteFederatedSubgraph req).toOption.map (·.Response.Code)
  | .GetLatestSubgraphSDL req =>
    (client.GetLatestSubgraphSDL req).toOption.map (·.Response.Code)

/-- A remote that answers every call at transport level with the same status
and detail text, lists the given namespaces, graphs and subgraphs, and has no
SDL text. -/
def fixedClient (code : EnumStatusCode) (details : String) (namespaces : List Namespace)
    (graphs : List FederatedGraph) (subgraphs : List Subgraph) : PlatformServiceClient :=
  let r : Response := { Code := code, Details := details }
  { CreateNamespace := fun _ => .ok { Response := r },
    GetNamespaces := .ok { Response := r, Namespaces := namespaces },
    RenameNamespace := fun _ => .ok { Response := r },
    DeleteNamespace := fun _ => .ok { Response := r },
    CreateFederatedGraph := fun _ =>
      .ok { Response := r, CompositionErrors := [], DeploymentErrors := [] },
    GetFederatedGraphs := fun _ => .ok { Response := r, Graphs := graphs },
    UpdateFederatedGraph := fun _ => .ok { Response := r },
    DeleteFederatedGraph := fun _ => .ok { Response := r },
    CreateFederatedSubgraph := fun _ => .ok { Response := r },
    GetSubgraphs := fun _ => .ok { Response := r, Graphs := subgraphs },
    PublishFederatedSubgraph := fun _ => .ok { Response := r },
    MoveSubgraph := fun _ => .ok { Response := r },
    UpdateSubgraph := fun _ => .ok { Response := r },
    DeleteFederatedSubgraph := fun _ => .ok { Response := r },
    GetLatestSubgraphSDL := fun _ => .ok { Response := r, Sdl := none } }

/-- A subscription protocol of a plan is supported when it is null, unknown, or
one of the literals `ws`, `sse`, `sse_post`. -/
def supportedSubscriptionProtocol (s : TFString) : Prop :=
  s.isKnown = false ∨ s.ValueString ∈ ["ws", "sse", "sse_post"]

/-- A websocket subprotocol of a plan is supported when it is null, unknown, or
one of the literals `auto`, `graphql-ws`, `graphql-transport-ws`. -/
def supportedWebsocketSubprotocol (s : TFString) : Prop :=
  s.isKnown = false ∨ s.ValueString ∈ ["auto", "graphql-ws", "graphql-transport-ws"]

instance supportedSubscriptionProtocolDecidable : DecidablePred supportedSubscriptionProtocol :=
  fun s => by unfold supportedSubscriptionProtocol; infer_instance

instance supportedWebsocketSubprotocolDecidable : DecidablePred supportedWebsocketSubprotocol :=
  fun s => by unfold supportedWebsocketSubprotocol; infer_instance

/-- The labels of a plan can be read when the map is not unknown and none of its
elements is null or unknown. -/
def TFMap.readable : TFMap → Bool
  | .null => true
  | .unknown => false
  | .known elems => elems.all (fun e => e.2.isKnown)

/-- Two label maps hold the same elements: both are null, both are unknown, or
both are known with the same elements under the same keys, in whatever order
(the equality of `types.Map`). -/
def TFMap.sameElements : TFMap → TFMap → Prop
  | .null, .null => True
  | .unknown, .unknown => True
  | .known a, .known b => ∀ e, e ∈ a ↔ e ∈ b
  | _, _ => False

/-- A prior state of a subgraph is a state that the resource wrote: the state
that `Create`, `Read` or `Update` passed to `State.Set` for some remote, plan
and earlier state. -/
def subgraphPriorState (s : FederatedSubgraphModel) : Prop :=
  (∃ client plan, (FederatedSubgraphResource.Create client plan).state = some s) ∨
  (∃ client data, (FederatedSubgraphResource.Read client data).state = some s) ∨
  (∃ client plan state, (FederatedSubgraphResource.Update client plan state).state = some s)

/-- The last listed subgraph that bears the given name, if any. -/
def lastSubgraphNamed (graphs : List Subgraph) (name : String) : Option Subgraph :=
  graphs.reverse.find? (fun g => g.Name == name)

/-- The last listed graph that bears the given id, if any. -/
def lastGraphWithId (graphs : List FederatedGraph) (id : String) : Option FederatedGraph :=
  graphs.reverse.find? (fun g => g.Id == id)

/-- The webhook URL of a state read from a listed graph, in the words of the
specification: null when the remote URL is absent or the empty string, the
remote URL otherwise. -/
def webhookUrlOf (n : FederatedGraph) : TFString :=
  match n.AdmissionWebhookUrl with
  | none => TFString.null
  | some url => if url = "" then TFString.null else TFString.value url

/-- The error with which the protocol mappers reject a plan, if they do: the
error of `MapSubscriptionProtocol`, or else the error of
`MapWebSocketSubprotocol`. -/
def protocolError (plan : FederatedSubgraphModel) : Option String :=
  match (MapSubscriptionProtocol plan.SubscriptionProtocol).2 with
  | some e => some e
  | none => (MapWebSocketSubprotocol plan.WebsocketSubprotocol).2

/-- A subgraph model with supported protocols and readable labels, the starting
point of the worked examples. -/
def sampleSubgraph : FederatedSubgraphModel :=
  { Id := TFString.value "id1",
    Name := TFString.value "acme.users",
    Namespace := TFString.value "default",
    RoutingUrl := TFString.value "https://users.acme.com",
    Schema := TFString.value "type Query",
    SubscriptionUrl := TFString.null,
    SubscriptionProtocol := TFString.value "ws",
    WebsocketSubprotocol := TFString.value "auto",
    Labels := TFMap.known [("team", TFString.value "a")],
    IsEventDrivenGraph := TFBool.value false,
    IsFeatureSubgraph := TFBool.value false }

/-- The entry with which the remote lists the sample subgraph. -/
def sampleListed : Subgraph :=
  { Id := "id1",
    Name := "acme.users",
    Namespace := "default",
    RoutingURL := "https://users.acme.com",
    SubscriptionUrl := "",
    SubscriptionProtocol := "ws",
    WebsocketSubprotocol := "auto",
    Labels := [{ Key := "team", Value := "a" }],
    IsEventDrivenGraph := false,
    IsFeatureSubgraph := false }

/-! ## Provider configuration (`provider.go`, `utils/transport.go`, `utils/user_agent.go`) -/

/-- The struct `WundergraphProviderModel`. -/
structure WundergraphProviderModel where
  ApiKey : TFString
  ApiUrl : TFString
  deriving DecidableEq, Repr

/-- The function `GetUserAgent`; `goVersion`, `goos` and `goarch` are the values
of `runtime.Version()`, `runtime.GOOS` and `runtime.GOARCH`. -/
def GetUserAgent (version goVersion goos goarch : String) : String :=
  "terraform-provider-wundergraph/" ++ version ++ " Go/" ++ goVersion ++
    " (" ++ goos ++ "; " ++ goarch ++ ")"

/-- The headers of an HTTP request (`http.Header`), as the sequence of their
(key, value) lines. The keys the program adds are already in canonical form. -/
abbrev Header := List (String × String)

/-- The method `Add` of `http.Header`: the value is added under the key, after
the values the key already has. -/
def Header.Add (h : Header) (k v : String) : Header :=
  h ++ [(k, v)]

/-- The method `Values` of `http.Header`: the values under a key, in order. -/
def Header.Values (h : Header) (k : String) : List String :=
  (h.filter (fun kv => kv.1 == k)).map Prod.snd

/-- The struct `HeaderTransport`; its field `Base` is left nil by the program,
so the default transport sends the request. -/
structure HeaderTransport where
  Headers : GoMap

/-- The method `HeaderTransport.RoundTrip`, up to the hand-over to the base
transport: every entry of `Headers` is added to the headers of the request, and
the result is what the base transport sends. -/
def HeaderTransport.RoundTrip (t : HeaderTransport) (req : Header) : Header :=
  t.Headers.range.foldl (fun h kv => Header.Add h kv.1 kv.2) req

/-- What `Configure` hands to the resources: the client that
`NewPlatformServiceClient` builds from the HTTP transport and the base URL. -/
structure ProviderClient where
  Transport : HeaderTransport
  BaseUrl : String

/-- The method `WundergraphProvider.Configure` for a decoded configuration
`data`; `getenv` is `os.Getenv`, which gives the empty string for a variable
that is not set. The result is the diagnostics and the client, if one is
built. -/
def WundergraphProvider.Configure (version goVersion goos goarch : String)
    (getenv : String → String) (data : WundergraphProviderModel) :
    Diagnostics × Option ProviderClient :=
  let apiKey :=
    if data.ApiKey.IsUnknown || data.ApiKey.IsNull then getenv "WGC_API_KEY"
    else data.ApiKey.ValueString
  if apiKey = "" then
    (Diagnostics.AddError [] "api_key must be set" "Expected a non-empty value for api_key",
      none)
  else
    let apiUrl :=
      if data.ApiUrl.IsUnknown || data.ApiUrl.IsNull then getenv "WGC_API_URL"
      else data.ApiUrl.ValueString
    let apiUrl := if apiUrl = "" then "https://cosmo-cp.wundergraph.com" else apiUrl
    ([], some
      { Transport :=
          { Headers := GoMap.table
              (((∅ : AList (fun _ : String => String)).insert "Authorization"
                ("Bearer " ++ apiKey)).insert "User-Agent"
                (GetUserAgent version goVersion goos goarch)) },
        BaseUrl := apiUrl })

/-- A setting of the provider as the specification resolves it: the configured
value when it is set (neither null nor unknown), the value of the environment
variable otherwise. -/
def resolveSetting (configured : TFString) (envValue : String) : String :=
  if configured.isKnown then configured.ValueString else envValue

/-- The last listed namespace that bears the given name, if any. -/
def lastNamespaceNamed (namespaces : List Namespace) (name : String) : Option Namespace :=
  namespaces.reverse.find? (fun n => n.Name == name)

/-! ## Splitting and joining -/

theorem splitChars_cons (sep c : Char) (cs : List Char) :
    splitChars sep (c :: cs) =
      if c = sep then [] :: splitChars sep cs
      else
        match splitChars sep cs with
        | [] => [[c]]
        | h :: t => (c :: h) :: t := by
  rw [splitChars]

theorem splitChars_ne_nil (sep : Char) (s : List Char) : splitChars sep s ≠ [] := by
  induction s with
  | nil => simp [splitChars]
  | cons c cs ih =>
    unfold splitChars
    split
    · simp
    · split <;> simp

theorem splitChars_length (sep : Char) (s : List Char) :
    (splitChars sep s).length = s.count sep + 1 := by
  induction s with
  | nil => simp [splitChars]
  | cons c cs ih =>
    unfold splitChars
    by_cases h : c = sep
    · subst h
      simp [ih]
    · rw [if_neg h]
      have hc : List.count sep (c :: cs) = List.count sep cs := by
        rw [List.count_cons_of_ne]
        exact fun e => h e.symm
      rw [hc, ← ih]
      split
      · rename_i heq
        exact absurd heq (splitChars_ne_nil sep cs)
      · rename_i heq
        simp [heq]

theorem splitChars_of_not_mem (sep : Char) (s : List Char) (h : sep ∉ s) :
    splitChars sep s = [s] := by
  induction s with
  | nil => simp [splitChars]
  | cons c cs ih =>
    simp only [List.mem_cons, not_or] at h
    unfold splitChars
    rw [if_neg (fun e => h.1 e.symm), ih h.2]

theorem splitChars_append_sep (sep : Char) (a b : List Char) (h : sep ∉ a) :
    splitChars sep (a ++ sep :: b) = a :: splitChars sep b := by
  induction a with
  | nil => simp [splitChars]
  | cons c cs ih =>
    simp only [List.mem_cons, not_or] at h
    simp only [List.cons_append]
    rw [splitChars_cons, if_neg (fun e => h.1 e.symm), ih h.2]

theorem splitChars_count_one (sep : Char) (s : List Char) (h : s.count sep = 1) :
    splitChars sep s =
      [s.takeWhile (fun c => c != sep), (s.dropWhile (fun c => c != sep)).drop 1] := by
  induction s with
  | nil => simp at h
  | cons c cs ih =>
    by_cases hc : c = sep
    · subst hc
      have h0 : List.count c cs = 0 := by simpa using h
      have hn : c ∉ cs := List.count_eq_zero.mp h0
      unfold splitChars
      simp [splitChars_of_not_mem c cs hn]
    · have h1 : List.count sep cs = 1 := by
        rw [List.count_cons_of_ne] at h
        · exact h
        · exact fun e => hc e.symm
      unfold splitChars
      rw [if_neg hc, ih h1]
      simp [hc]

/-! ## Tags -/

theorem Split_ne_nil (s : String) (sep : Char) : Split s sep ≠ [] := by
  simp [Split, splitChars_ne_nil]

theorem Split_length (s : String) (sep : Char) :
    (Split s sep).length = s.data.count sep + 1 := by
  simp [Split, splitChars_length]

theorem Split_eq_of_countEq (e : String) (h : countEq e = 1) :
    Split e '=' = [textBefore e, textAfter e] := by
  simp [Split, textBefore, textAfter, splitChars_count_one '=' e.data h]

theorem Split_two_countEq (e p0 p1 : String) (h : Split e '=' = [p0, p1]) :
    countEq e = 1 := by
  have hl := Split_length e '='
  rw [h] at hl
  simp only [List.length_cons, List.length_nil] at hl
  unfold countEq
  omega

/-! ## The decoding loops -/

theorem foldl_append_toList {α : Type} (xs : List α) (s : Slice α) :
    (xs.foldl Slice.append s).toList = s.toList ++ xs := by
  induction xs generalizing s with
  | nil => simp
  | cons x xs ih =>
    rw [List.foldl_cons, ih]
    cases s <;> simp [Slice.append, Slice.toList]

theorem keyFold_eq (tags : List String) (key : String) :
    tags.foldl (fun k e => if k = "" then textBefore e else k) key =
      if key = "" then firstNonEmptyBefore tags else key := by
  induction tags generalizing key with
  | nil =>
    by_cases hk : key = ""
    · simp [hk, firstNonEmptyBefore]
    · simp [hk]
  | cons e rest ih =>
    rw [List.foldl_cons, ih]
    by_cases hk : key = ""
    · subst hk
      by_cases hb : textBefore e = ""
      · simp [firstNonEmptyBefore, hb]
      · simp [firstNonEmptyBefore, hb]
    · simp [hk]

theorem decodeTags_ok (tags : List String) (key : String) (values : Slice String)
    (h : ∀ e ∈ tags, countEq e = 1) :
    decodeTags tags key values =
      some (tags.foldl (fun k e => if k = "" then textBefore e else k) key,
        (tags.map textAfter).foldl Slice.append values) := by
  induction tags generalizing key values with
  | nil => simp [decodeTags]
  | cons e rest ih =>
    have he : countEq e = 1 := h e (List.mem_cons_self _ _)
    have hr : ∀ x ∈ rest, countEq x = 1 := fun x hx => h x (List.mem_cons_of_mem _ hx)
    rw [decodeTags, Split_eq_of_countEq e he]
    simp only []
    rw [ih _ _ hr]
    simp

theorem decodeTags_bad (tags : List String) (key : String) (values : Slice String)
    (h : ∃ e ∈ tags, countEq e ≠ 1) :
    decodeTags tags key values = none := by
  induction tags generalizing key values with
  | nil => simp at h
  | cons e rest ih =>
    by_cases he : countEq e = 1
    · have hr : ∃ x ∈ rest, countEq x ≠ 1 := by
        obtain ⟨x, hx, hxc⟩ := h
        rcases List.mem_cons.mp hx with rfl | hx
        · exact absurd he hxc
        · exact ⟨x, hx, hxc⟩
      rw [decodeTags, Split_eq_of_countEq e he]
      simp only []
      exact ih _ _ hr
    · rw [decodeTags]
      split
      · rename_i p0 p1 heq
        exact absurd (Split_two_countEq e p0 p1 heq) he
      · rfl

theorem foldl_append_eq_mk {α : Type} (xs : List α) (s : Slice α) (hx : xs ≠ []) :
    xs.foldl Slice.append s = Slice.mk (s.toList ++ xs) := by
  cases xs with
  | nil => exact absurd rfl hx
  | cons x rest =>
    have h := foldl_append_toList rest (s.append x)
    rw [List.foldl_cons]
    generalize hr : List.foldl Slice.append (s.append x) rest = r at h
    have hne : r ≠ Slice.nil := by
      rw [← hr]
      clear h hr hx
      induction rest generalizing s x with
      | nil => simp [Slice.append]
      | cons y ys ih => exact ih (s.append x) y
    cases r with
    | nil => exact absurd rfl hne
    | mk elems =>
      have h2 : elems = s.toList ++ x :: rest := by
        rw [show (Slice.mk elems).toList = elems from rfl] at h
        rw [h]
        simp [Slice.append, Slice.toList]
      rw [h2]

theorem decodeTags_entry (v : String) (h : wellFormed v) :
    decodeTags (Split v ',') "" Slice.nil =
      some (firstNonEmptyBefore (Split v ','), Slice.mk (entryValues v)) := by
  rw [decodeTags_ok _ _ _ h, keyFold_eq]
  have hne : (Split v ',').map textAfter ≠ [] := by
    simpa using Split_ne_nil v ','
  rw [foldl_append_eq_mk _ _ hne]
  simp [Slice.toList, entryValues]

theorem decodeLoop_ok (input : List String) (l : List LabelMatcher)
    (h : ∀ v ∈ input, wellFormed v) :
    decodeLoop input l = (Slice.mk (l ++ input.map entryMatcher), []) := by
  induction input generalizing l with
  | nil => simp [decodeLoop]
  | cons v rest ih =>
    have hv : wellFormed v := h v (List.mem_cons_self _ _)
    have hr : ∀ x ∈ rest, wellFormed x := fun x hx => h x (List.mem_cons_of_mem _ hx)
    rw [decodeLoop, decodeTags_entry v hv]
    simp only [ListValueFrom, HasError, List.any_nil]
    rw [if_neg (by simp), ih _ hr]
    simp [entryMatcher]

theorem decodeLoop_bad (input : List String) (l : List LabelMatcher)
    (h : ∃ v ∈ input, ¬ wellFormed v) :
    decodeLoop input l =
      (Slice.nil, [Diagnostic.error "Error parsing label matcher" "invalid label matcher"]) := by
  induction input generalizing l with
  | nil => simp at h
  | cons v rest ih =>
    by_cases hv : wellFormed v
    · have hr : ∃ x ∈ rest, ¬ wellFormed x := by
        obtain ⟨x, hx, hxc⟩ := h
        rcases List.mem_cons.mp hx with rfl | hx
        · exact absurd hv hxc
        · exact ⟨x, hx, hxc⟩
      rw [decodeLoop, decodeTags_entry v hv]
      simp only [ListValueFrom, HasError, List.any_nil]
      rw [if_neg (by simp)]
      exact ih _ hr
    · have hb : ∃ e ∈ Split v ',', countEq e ≠ 1 := by
        unfold wellFormed at hv
        push_neg at hv
        exact hv
      rw [decodeLoop, decodeTags_bad _ _ _ hb]

/-! ## The encoding loops -/

theorem readElems_eq (elems : List TFString) :
    readElems elems =
      if elems.all TFString.isKnown then some (elems.map TFString.ValueString) else none := by
  induction elems with
  | nil => simp [readElems]
  | cons e rest ih =>
    cases e with
    | null => simp [readElems, TFString.isKnown, TFString.IsNull]
    | unknown => simp [readElems, TFString.isKnown, TFString.IsNull, TFString.IsUnknown]
    | value s =>
      rw [readElems, ih]
      by_cases hr : rest.all TFString.isKnown = true
      · simp [hr, TFString.isKnown, TFString.IsNull, TFString.IsUnknown, TFString.ValueString]
      · simp [hr]

theorem ElementsAs_of_strings (l : TFList) (vs : List String) (h : l.strings = some vs) :
    ElementsAs l = (vs, []) := by
  cases l with
  | null =>
    simp only [TFList.strings, Option.some.injEq] at h
    simp [ElementsAs, h]
  | unknown => simp [TFList.strings] at h
  | known elems =>
    simp only [TFList.strings] at h
    rw [ElementsAs, readElems_eq, h]

theorem ElementsAs_of_strings_none (l : TFList) (h : l.strings = none) :
    ElementsAs l = ([], [Diagnostic.conversionError]) := by
  cases l with
  | null => simp [TFList.strings] at h
  | unknown => rfl
  | known elems =>
    simp only [TFList.strings] at h
    rw [ElementsAs, readElems_eq, h]

theorem encodeTags_toList (key : String) (values : List String) :
    (encodeTags key values).toList = values.map (fun v => key ++ "=" ++ v) := by
  have h : encodeTags key values =
      (values.map (fun v => key ++ "=" ++ v)).foldl Slice.append Slice.nil := by
    rw [encodeTags, List.foldl_map]
  rw [h, foldl_append_toList]
  simp [Slice.toList]

theorem intercalate_go_eq (sep : String) (rest : List String) (a : String) :
    String.intercalate.go a sep rest = rest.foldl (fun b s => b ++ sep ++ s) a := by
  induction rest generalizing a with
  | nil => simp [String.intercalate.go]
  | cons x xs ih => simp [String.intercalate.go, ih]

theorem Join_eq_intercalate (elems : List String) (sep : String) :
    Join elems sep = String.intercalate sep elems := by
  cases elems with
  | nil => simp [Join, String.intercalate]
  | cons a rest =>
    cases rest with
    | nil => simp [Join, String.intercalate, String.intercalate.go]
    | cons b rest => simp [Join, String.intercalate, intercalate_go_eq]

theorem encodeLoop_ok (m : List LabelMatcher) (acc : Slice String)
    (h : ∀ lm ∈ m, lm.Values.strings ≠ none) :
    ∃ out, encodeLoop m acc = (out, []) ∧
      out.toList = acc.toList ++
        m.map (fun lm => matcherString lm.Key.ValueString (lm.Values.strings.getD [])) ∧
      (m = [] → out = acc) := by
  induction m generalizing acc with
  | nil => exact ⟨acc, by simp [encodeLoop]⟩
  | cons lm rest ih =>
    have hlm : lm.Values.strings ≠ none := h lm (List.mem_cons_self _ _)
    have hr : ∀ x ∈ rest, x.Values.strings ≠ none :=
      fun x hx => h x (List.mem_cons_of_mem _ hx)
    obtain ⟨vs, hvs⟩ := Option.ne_none_iff_exists'.mp hlm
    obtain ⟨out, ho, hl, _⟩ := ih (acc.append
      (Join (encodeTags lm.Key.ValueString vs).toList ",")) hr
    refine ⟨out, ?_, ?_, by simp⟩
    · rw [encodeLoop]
      simp only [ElementsAs_of_strings _ _ hvs, HasError, List.any_nil]
      rw [if_neg (by simp)]
      exact ho
    · rw [hl, encodeTags_toList, Join_eq_intercalate]
      simp [Slice.append, Slice.toList, matcherString, hvs]

theorem encodeLoop_unreadable (m : List LabelMatcher) (acc : Slice String)
    (h : ∃ lm ∈ m, lm.Values.strings = none) :
    encodeLoop m acc = (Slice.nil, [Diagnostic.conversionError]) := by
  induction m generalizing acc with
  | nil => simp at h
  | cons lm rest ih =>
    rw [encodeLoop]
    cases hs : lm.Values.strings with
    | none =>
      simp [ElementsAs_of_strings_none _ hs, HasError, Diagnostic.isError]
    | some vs =>
      have hr : ∃ x ∈ rest, x.Values.strings = none := by
        obtain ⟨x, hx, hxn⟩ := h
        rcases List.mem_cons.mp hx with rfl | hx
        · rw [hs] at hxn
          exact absurd hxn (by simp)
        · exact ⟨x, hx, hxn⟩
      simp only [ElementsAs_of_strings _ _ hs, HasError, List.any_nil]
      rw [if_neg (by simp)]
      exact ih _ hr

/-! ## Decoding an encoded matcher -/

theorem foldl_concat_data (sep : String) (rest : List String) (a : String) :
    (rest.foldl (fun b s => b ++ sep ++ s) a).data =
      a.data ++ rest.foldr (fun s r => sep.data ++ (s.data ++ r)) [] := by
  induction rest generalizing a with
  | nil => simp
  | cons x xs ih => simp [ih, String.data_append]

theorem splitChars_joined (sep : Char) (rest : List String) (a : String)
    (ha : sep ∉ a.data) (hr : ∀ s ∈ rest, sep ∉ s.data) :
    splitChars sep (a.data ++ rest.foldr (fun s r => sep :: (s.data ++ r)) []) =
      a.data :: rest.map String.data := by
  induction rest generalizing a with
  | nil => simp [splitChars_of_not_mem sep a.data ha]
  | cons x xs ih =>
    have hx : sep ∉ x.data := hr x (List.mem_cons_self _ _)
    have hxs : ∀ s ∈ xs, sep ∉ s.data := fun s hs => hr s (List.mem_cons_of_mem _ hs)
    simp only [List.foldr_cons, List.map_cons]
    rw [splitChars_append_sep sep _ _ ha, ih x hx hxs]

theorem Split_intercalate (tags : List String) (hne : tags ≠ [])
    (h : ∀ s ∈ tags, ',' ∉ s.data) :
    Split (String.intercalate "," tags) ',' = tags := by
  cases tags with
  | nil => exact absurd rfl hne
  | cons a rest =>
    have ha : ',' ∉ a.data := h a (List.mem_cons_self _ _)
    have hr : ∀ s ∈ rest, ',' ∉ s.data := fun s hs => h s (List.mem_cons_of_mem _ hs)
    have hd : (String.intercalate "," (a :: rest)).data =
        a.data ++ rest.foldr (fun s r => ',' :: (s.data ++ r)) [] := by
      rw [String.intercalate, intercalate_go_eq, foldl_concat_data]
      simp
    rw [Split, hd, splitChars_joined ',' rest a ha hr]
    simp [List.map_map, Function.comp_def]

theorem tag_data (k v : String) : (k ++ "=" ++ v).data = k.data ++ '=' :: v.data := by
  simp [String.data_append]

theorem tag_countEq (k v : String) (hk : '=' ∉ k.data) (hv : '=' ∉ v.data) :
    countEq (k ++ "=" ++ v) = 1 := by
  rw [countEq, tag_data, List.count_append, List.count_cons_self,
    List.count_eq_zero.mpr hk, List.count_eq_zero.mpr hv]

theorem tag_textBefore (k v : String) (hk : '=' ∉ k.data) :
    textBefore (k ++ "=" ++ v) = k := by
  rw [textBefore, tag_data]
  have h : List.takeWhile (fun c => c != '=') (k.data ++ '=' :: v.data) = k.data := by
    generalize k.data = ks at hk
    induction ks with
    | nil => simp
    | cons c cs ih =>
      simp only [List.mem_cons, not_or] at hk
      have hc : c ≠ '=' := fun e => hk.1 e.symm
      simp [List.takeWhile_cons, hc, ih hk.2]
  rw [h]

theorem tag_textAfter (k v : String) (hk : '=' ∉ k.data) :
    textAfter (k ++ "=" ++ v) = v := by
  rw [textAfter, tag_data]
  have h : List.dropWhile (fun c => c != '=') (k.data ++ '=' :: v.data) = '=' :: v.data := by
    generalize k.data = ks at hk
    induction ks with
    | nil => simp
    | cons c cs ih =>
      simp only [List.mem_cons, not_or] at hk
      have hc : c ≠ '=' := fun e => hk.1 e.symm
      simp [List.dropWhile_cons, hc, ih hk.2]
  rw [h]
  rfl

theorem tag_no_comma (k v : String) (hk : ',' ∉ k.data) (hv : ',' ∉ v.data) :
    ',' ∉ (k ++ "=" ++ v).data := by
  rw [tag_data]
  simp [hk, hv]

theorem firstNonEmptyBefore_tags (k : String) (vs : List String) (hk : '=' ∉ k.data)
    (hne : vs ≠ []) :
    firstNonEmptyBefore (vs.map (fun v => k ++ "=" ++ v)) = k := by
  cases vs with
  | nil => exact absurd rfl hne
  | cons v rest =>
    by_cases hk0 : k = ""
    · have hall : ∀ x ∈ (v :: rest).map (fun v => k ++ "=" ++ v), textBefore x = "" := by
        intro x hx
        obtain ⟨w, _, rfl⟩ := List.mem_map.mp hx
        rw [tag_textBefore k w hk, hk0]
      have hf : ((((v :: rest).map (fun v => k ++ "=" ++ v)).map textBefore).find?
          (fun k => k != "")) = none := by
        rw [List.find?_eq_none]
        intro x hx
        obtain ⟨y, hy, rfl⟩ := List.mem_map.mp hx
        simp [hall y hy]
      rw [firstNonEmptyBefore, hf, hk0]
      rfl
    · simp [firstNonEmptyBefore, tag_textBefore k v hk, hk0]

theorem matcherString_wellFormed (k : String) (vs : List String) (hne : vs ≠ [])
    (hk : ',' ∉ k.data ∧ '=' ∉ k.data) (hv : ∀ v ∈ vs, ',' ∉ v.data ∧ '=' ∉ v.data) :
    Split (matcherString k vs) ',' = vs.map (fun v => k ++ "=" ++ v) ∧
      wellFormed (matcherString k vs) := by
  have hs : Split (matcherString k vs) ',' = vs.map (fun v => k ++ "=" ++ v) := by
    rw [matcherString]
    apply Split_intercalate
    · simpa using hne
    · intro s hs
      obtain ⟨w, hw, rfl⟩ := List.mem_map.mp hs
      exact tag_no_comma k w hk.1 (hv w hw).1
  refine ⟨hs, ?_⟩
  rw [wellFormed, hs]
  intro e he
  obtain ⟨w, hw, rfl⟩ := List.mem_map.mp he
  exact tag_countEq k w hk.2 (hv w hw).2

theorem entryMatcher_matcherString (k : String) (vs : List String) (hne : vs ≠ [])
    (hk : ',' ∉ k.data ∧ '=' ∉ k.data) (hv : ∀ v ∈ vs, ',' ∉ v.data ∧ '=' ∉ v.data) :
    entryMatcher (matcherString k vs) =
      { Key := TFString.value k, Values := TFList.known (vs.map TFString.value) } := by
  have hs := (matcherString_wellFormed k vs hne hk hv).1
  rw [entryMatcher, entryValues, hs, firstNonEmptyBefore_tags k vs hk.2 hne]
  have hval : (vs.map (fun v => k ++ "=" ++ v)).map textAfter = vs := by
    rw [List.map_map]
    conv_rhs => rw [← List.map_id vs]
    apply List.map_congr_left
    intro w _
    simp [tag_textAfter k w hk.2]
  rw [hval]

theorem known_of_isKnown (s : TFString) (h : s.isKnown = true) :
    s = TFString.value s.ValueString := by
  cases s <;> simp [TFString.isKnown, TFString.IsNull, TFString.IsUnknown,
    TFString.ValueString] at h ⊢

theorem known_of_strings (l : TFList) (h1 : l.strings ≠ none) (h2 : l.strings ≠ some []) :
    l = TFList.known ((l.strings.getD []).map TFString.value) := by
  cases l with
  | null => simp [TFList.strings] at h2
  | unknown => simp [TFList.strings] at h1
  | known elems =>
    simp only [TFList.strings] at h1 ⊢
    by_cases ha : elems.all TFString.isKnown = true
    · rw [if_pos ha]
      simp only [Option.getD_some, List.map_map, TFList.known.injEq]
      conv_lhs => rw [← List.map_id elems]
      apply List.map_congr_left
      intro e he
      exact known_of_isKnown e (List.all_eq_true.mp ha e he)
    · rw [if_neg ha] at h1
      exact absurd rfl h1

/-! ## Claims about the label matcher codec -/

/-- C1, as stated, fails: a matcher whose key is null has readable, non-empty
values and no `,` or `=` anywhere, is encoded with the empty key, and is decoded
to a matcher whose key is the known empty string, which is not the null key. -/
theorem MapLabelMatchers_roundtrip_null_key :
    (∀ lm ∈ [({ Key := TFString.null, Values := TFList.known [TFString.value "a"] } :
          LabelMatcher)],
        (lm.Values.strings ≠ none ∧ lm.Values.strings ≠ some [] ∧
          ∀ v ∈ lm.Values.strings.getD [], ',' ∉ v.data ∧ '=' ∉ v.data) ∧
        ',' ∉ lm.Key.ValueString.data ∧ '=' ∉ lm.Key.ValueString.data) ∧
    MapLabelMatchersToNative
        [{ Key := TFString.null, Values := TFList.known [TFString.value "a"] }] =
      (Slice.mk ["=a"], []) ∧
    MapLabelMatchersFromNative ["=a"] =
      (Slice.mk [{ Key := TFString.value "", Values := TFList.known [TFString.value "a"] }],
        []) ∧
    MapLabelMatchersFromNative (MapLabelMatchersToNative
        [{ Key := TFString.null, Values := TFList.known [TFString.value "a"] }]).1.toList ≠
      (Slice.mk [{ Key := TFString.null, Values := TFList.known [TFString.value "a"] }],
        []) := by
  refine ⟨by decide, by decide, by decide, by decide⟩

/-- C1, amended: for every ordered list of label matchers in which every key is
a known string, every matcher has a non-empty list of readable values, and no
key or value contains `,` or `=`, encoding succeeds and decoding the encoded
list succeeds and returns the original list. -/
theorem MapLabelMatchers_roundtrip (m : List LabelMatcher)
    (hkey : ∀ lm ∈ m, lm.Key.isKnown = true ∧
      ',' ∉ lm.Key.ValueString.data ∧ '=' ∉ lm.Key.ValueString.data)
    (hval : ∀ lm ∈ m, lm.Values.strings ≠ none ∧ lm.Values.strings ≠ some [] ∧
      ∀ v ∈ lm.Values.strings.getD [], ',' ∉ v.data ∧ '=' ∉ v.data) :
    ∃ enc, MapLabelMatchersToNative m = (enc, []) ∧
      MapLabelMatchersFromNative enc.toList = (Slice.mk m, []) := by
  obtain ⟨enc, he, hl, _⟩ := encodeLoop_ok m Slice.nil (fun lm h => (hval lm h).1)
  refine ⟨enc, he, ?_⟩
  have hne : ∀ lm ∈ m, lm.Values.strings.getD [] ≠ [] := by
    intro lm h hc
    obtain ⟨h1, h2, _⟩ := hval lm h
    obtain ⟨vs, hvs⟩ := Option.ne_none_iff_exists'.mp h1
    rw [hvs] at hc h2
    simp only [Option.getD_some] at hc
    exact h2 (by rw [hc])
  have hwf : ∀ v ∈ enc.toList, wellFormed v := by
    intro v hv
    rw [hl] at hv
    simp only [Slice.toList, List.nil_append] at hv
    obtain ⟨lm, hlm, rfl⟩ := List.mem_map.mp hv
    exact (matcherString_wellFormed _ _ (hne lm hlm) (hkey lm hlm).2 (hval lm hlm).2.2).2
  rw [MapLabelMatchersFromNative, decodeLoop_ok _ _ hwf, hl]
  simp only [Slice.toList, List.nil_append, List.map_map]
  congr 2
  conv_rhs => rw [← List.map_id m]
  apply List.map_congr_left
  intro lm hlm
  simp only [Function.comp_apply, id_eq]
  rw [entryMatcher_matcherString _ _ (hne lm hlm) (hkey lm hlm).2 (hval lm hlm).2.2]
  cases lm with
  | mk key values =>
    simp only at *
    rw [← known_of_isKnown key (hkey _ hlm).1,
      ← known_of_strings values (hval _ hlm).1 (hval _ hlm).2.1]

/-- Witness for the amended C1: the matchers of the repository test round-trip. -/
theorem MapLabelMatchers_roundtrip_witness :
    ∃ enc, MapLabelMatchersToNative
        [{ Key := TFString.value "key1",
           Values := TFList.known [TFString.value "value1", TFString.value "value2"] },
         { Key := TFString.value "", Values := TFList.known [TFString.value ""] }] =
        (enc, []) ∧
      MapLabelMatchersFromNative enc.toList =
        (Slice.mk
          [{ Key := TFString.value "key1",
             Values := TFList.known [TFString.value "value1", TFString.value "value2"] },
           { Key := TFString.value "", Values := TFList.known [TFString.value ""] }], []) :=
  MapLabelMatchers_roundtrip _ (by decide) (by decide)

/-- C2: decoding fails, with a nil result and the single error diagnostic
"invalid label matcher", exactly when some entry has a comma-separated tag that
does not contain exactly one `=`; on every other input it succeeds with an
allocated list and no diagnostics. The input of the repository test fails. -/
theorem MapLabelMatchersFromNative_fails_iff (input : List String) :
    (MapLabelMatchersFromNative input =
        (Slice.nil, [Diagnostic.error "Error parsing label matcher" "invalid label matcher"]) ↔
      ∃ v ∈ input, ∃ e ∈ Split v ',', countEq e ≠ 1) ∧
    ((∃ l, MapLabelMatchersFromNative input = (Slice.mk l, [])) ↔
      ¬ ∃ v ∈ input, ∃ e ∈ Split v ',', countEq e ≠ 1) ∧
    MapLabelMatchersFromNative ["key1=value1,value2", "invalid"] =
      (Slice.nil, [Diagnostic.error "Error parsing label matcher" "invalid label matcher"]) := by
  have hbad : (∃ v ∈ input, ∃ e ∈ Split v ',', countEq e ≠ 1) ↔
      ∃ v ∈ input, ¬ wellFormed v := by
    simp only [wellFormed]
    push_neg
    rfl
  refine ⟨?_, ?_, by decide⟩
  · constructor
    · intro h
      by_contra hc
      have hgood : ∀ v ∈ input, wellFormed v := by
        intro v hv
        by_contra hw
        exact hc (hbad.mpr ⟨v, hv, hw⟩)
      rw [MapLabelMatchersFromNative, decodeLoop_ok _ _ hgood] at h
      simp at h
    · intro h
      exact decodeLoop_bad input [] (hbad.mp h)
  · constructor
    · rintro ⟨l, hl⟩ hc
      rw [MapLabelMatchersFromNative, decodeLoop_bad input [] (hbad.mp hc)] at hl
      simp at hl
    · intro hc
      have hgood : ∀ v ∈ input, wellFormed v := by
        intro v hv
        by_contra hw
        exact hc (hbad.mpr ⟨v, hv, hw⟩)
      exact ⟨_, decodeLoop_ok input [] hgood⟩

/-- C3: whenever decoding succeeds, the result is an allocated list with one
matcher per input entry, in input order, and the values of the matcher of an
entry are the texts after `=` of the comma-separated tags of that entry, in tag
order. The empty input decodes to the empty allocated list, and the entry
`key1=` decodes to one matcher whose only value is the empty string. -/
theorem MapLabelMatchersFromNative_values (input : List String)
    (hok : HasError (MapLabelMatchersFromNative input).2 = false) :
    (∃ l, MapLabelMatchersFromNative input = (Slice.mk l, []) ∧
      l.length = input.length ∧
      l.map LabelMatcher.Values =
        input.map (fun v => TFList.known
          (((Split v ',').map textAfter).map TFString.value))) ∧
    MapLabelMatchersFromNative [] = (Slice.mk [], []) ∧
    MapLabelMatchersFromNative ["key1="] =
      (Slice.mk [{ Key := TFString.value "key1", Values := TFList.known [TFString.value ""] }],
        []) := by
  refine ⟨?_, by decide, by decide⟩
  by_cases hgood : ∀ v ∈ input, wellFormed v
  · refine ⟨_, decodeLoop_ok input [] hgood, by simp, ?_⟩
    simp [entryMatcher, entryValues, List.map_map, Function.comp_def]
  · push_neg at hgood
    rw [MapLabelMatchersFromNative, decodeLoop_bad input [] hgood] at hok
    simp [HasError, Diagnostic.isError] at hok

/-- Witness for C3: the valid input of the repository test. -/
theorem MapLabelMatchersFromNative_values_witness :
    (∃ l, MapLabelMatchersFromNative ["key1=value1,key1=value2", "key2=value3,key2=value4"] =
        (Slice.mk l, []) ∧
      l.length = ["key1=value1,key1=value2", "key2=value3,key2=value4"].length ∧
      l.map LabelMatcher.Values =
        ["key1=value1,key1=value2", "key2=value3,key2=value4"].map (fun v => TFList.known
          (((Split v ',').map textAfter).map TFString.value))) ∧
    MapLabelMatchersFromNative [] = (Slice.mk [], []) ∧
    MapLabelMatchersFromNative ["key1="] =
      (Slice.mk [{ Key := TFString.value "key1", Values := TFList.known [TFString.value ""] }],
        []) :=
  MapLabelMatchersFromNative_values _ (by decide)

/-- C4: for every ordered list of label matchers whose values can all be read,
encoding succeeds and returns one string per matcher, in input order; the
string of a matcher with key `k` and values `v1..vn` is `k=v1,k=v2,...,k=vn`.
The matcher with key `env` and the single value `prod` encodes to `env=prod`. -/
theorem MapLabelMatchersToNative_spec (m : List LabelMatcher)
    (h : ∀ lm ∈ m, lm.Values.strings ≠ none) :
    (∃ out, MapLabelMatchersToNative m = (out, []) ∧
      out.toList = m.map (fun lm =>
        matcherString lm.Key.ValueString (lm.Values.strings.getD []))) ∧
    MapLabelMatchersToNative
        [{ Key := TFString.value "env", Values := TFList.known [TFString.value "prod"] }] =
      (Slice.mk ["env=prod"], []) := by
  refine ⟨?_, by decide⟩
  obtain ⟨out, ho, hl, _⟩ := encodeLoop_ok m Slice.nil h
  exact ⟨out, ho, by simpa [Slice.toList] using hl⟩

/-- Witness for C4: two matchers, the second with a null value list. -/
theorem MapLabelMatchersToNative_spec_witness :
    (∃ out, MapLabelMatchersToNative
        [{ Key := TFString.value "k",
           Values := TFList.known [TFString.value "a", TFString.value "b"] },
         { Key := TFString.value "j", Values := TFList.null }] = (out, []) ∧
      out.toList = ["k=a,k=b", ""]) ∧
    MapLabelMatchersToNative
        [{ Key := TFString.value "env", Values := TFList.known [TFString.value "prod"] }] =
      (Slice.mk ["env=prod"], []) :=
  MapLabelMatchersToNative_spec
    [{ Key := TFString.value "k",
       Values := TFList.known [TFString.value "a", TFString.value "b"] },
     { Key := TFString.value "j", Values := TFList.null }] (by decide)

theorem firstNonEmptyBefore_first (v : String) (h : textBefore (firstTag v) ≠ "") :
    firstNonEmptyBefore (Split v ',') = textBefore (firstTag v) := by
  unfold firstTag at h ⊢
  cases hs : Split v ',' with
  | nil => exact absurd hs (Split_ne_nil v ',')
  | cons t ts =>
    rw [hs] at h
    simp only [List.headD_cons] at h ⊢
    simp [firstNonEmptyBefore, h]

/-- C5, as stated, fails: every tag of the entry `=a,k=b` contains exactly one
`=`, the text before `=` in its first tag is empty, and the decoded key is `k`,
the text before `=` of the second tag. -/
theorem MapLabelMatchersFromNative_key_not_first :
    (∀ e ∈ Split "=a,k=b" ',', countEq e = 1) ∧
    textBefore (firstTag "=a,k=b") = "" ∧
    MapLabelMatchersFromNative ["=a,k=b"] =
      (Slice.mk [{ Key := TFString.value "k",
                   Values := TFList.known [TFString.value "a", TFString.value "b"] }], []) ∧
    TFString.value "k" ≠ TFString.value (textBefore (firstTag "=a,k=b")) := by
  refine ⟨by decide, by decide, by decide, by decide⟩

/-- C5, amended: for every input all of whose entries have only tags with
exactly one `=`, decoding succeeds, and for every entry whose first tag has a
non-empty text before `=`, the key of the matcher decoded from that entry is
that text, whatever the keys of the later tags are. -/
theorem MapLabelMatchersFromNative_key_first (input : List String)
    (h : ∀ v ∈ input, ∀ e ∈ Split v ',', countEq e = 1) :
    ∃ l, MapLabelMatchersFromNative input = (Slice.mk l, []) ∧
      l.length = input.length ∧
      ∀ (i : Nat) (v : String), input[i]? = some v → textBefore (firstTag v) ≠ "" →
        (l[i]?).map LabelMatcher.Key = some (TFString.value (textBefore (firstTag v))) := by
  refine ⟨_, decodeLoop_ok input [] h, by simp, ?_⟩
  intro i v hv hne
  simp only [List.nil_append, List.getElem?_map, hv, Option.map_some']
  rw [entryMatcher, firstNonEmptyBefore_first v hne]

/-- Witness for the amended C5: the second tag of the entry names another key. -/
theorem MapLabelMatchersFromNative_key_first_witness :
    ∃ l, MapLabelMatchersFromNative ["k=a,j=b"] = (Slice.mk l, []) ∧
      l.length = ["k=a,j=b"].length ∧
      ∀ (i : Nat) (v : String), ["k=a,j=b"][i]? = some v → textBefore (firstTag v) ≠ "" →
        (l[i]?).map LabelMatcher.Key = some (TFString.value (textBefore (firstTag v))) :=
  MapLabelMatchersFromNative_key_first ["k=a,j=b"] (by decide)

/-! ## Claims about the enum mappers -/

/-- C6: a null or unknown input maps to `WS` with no error; the literals `ws`,
`sse` and `sse_post` map to `WS`, `SSE` and `SSE_POST` with no error; every
other known string (the non-empty ones in particular) gives no value and the
error `unsupported protocol: ` followed by the string, so `invalid` gives
`unsupported protocol: invalid`. -/
theorem MapSubscriptionProtocol_spec :
    MapSubscriptionProtocol TFString.null = (some GraphQLSubscriptionProtocol.WS, none) ∧
    MapSubscriptionProtocol TFString.unknown = (some GraphQLSubscriptionProtocol.WS, none) ∧
    MapSubscriptionProtocol (TFString.value "ws") =
      (some GraphQLSubscriptionProtocol.WS, none) ∧
    MapSubscriptionProtocol (TFString.value "sse") =
      (some GraphQLSubscriptionProtocol.SSE, none) ∧
    MapSubscriptionProtocol (TFString.value "sse_post") =
      (some GraphQLSubscriptionProtocol.SSE_POST, none) ∧
    (∀ v : String, ¬ (v = "ws" ∨ v = "sse" ∨ v = "sse_post") →
      MapSubscriptionProtocol (TFString.value v) =
        (none, some ("unsupported protocol: " ++ v))) ∧
    MapSubscriptionProtocol (TFString.value "invalid") =
      (none, some "unsupported protocol: invalid") := by
  refine ⟨by decide, by decide, by decide, by decide, by decide, ?_, by decide⟩
  intro v hv
  simp only [not_or] at hv
  simp [MapSubscriptionProtocol, TFString.IsNull, TFString.IsUnknown, TFString.ValueString,
    hv.1, hv.2.1, hv.2.2]

/-- C7: a null or unknown input maps to `AUTO` with no error; the literals
`auto`, `graphql-ws` and `graphql-transport-ws` map to `AUTO`, `WS` and
`TRANSPORT_WS` with no error, three distinct enum values; every other known
string, the empty string included, gives no value and the error
`unsupported protocol: ` followed by the string. -/
theorem MapWebSocketSubprotocol_spec :
    MapWebSocketSubprotocol TFString.null = (some GraphQLWebsocketSubprotocol.AUTO, none) ∧
    MapWebSocketSubprotocol TFString.unknown = (some GraphQLWebsocketSubprotocol.AUTO, none) ∧
    MapWebSocketSubprotocol (TFString.value "auto") =
      (some GraphQLWebsocketSubprotocol.AUTO, none) ∧
    MapWebSocketSubprotocol (TFString.value "graphql-ws") =
      (some GraphQLWebsocketSubprotocol.WS, none) ∧
    MapWebSocketSubprotocol (TFString.value "graphql-transport-ws") =
      (some GraphQLWebsocketSubprotocol.TRANSPORT_WS, none) ∧
    (∀ v : String, ¬ (v = "auto" ∨ v = "graphql-ws" ∨ v = "graphql-transport-ws") →
      MapWebSocketSubprotocol (TFString.value v) =
        (none, some ("unsupported protocol: " ++ v))) ∧
    MapWebSocketSubprotocol (TFString.value "") = (none, some "unsupported protocol: ") ∧
    (MapWebSocketSubprotocol (TFString.value "auto")).1 ≠
      (MapWebSocketSubprotocol (TFString.value "graphql-ws")).1 ∧
    (MapWebSocketSubprotocol (TFString.value "auto")).1 ≠
      (MapWebSocketSubprotocol (TFString.value "graphql-transport-ws")).1 ∧
    (MapWebSocketSubprotocol (TFString.value "graphql-ws")).1 ≠
      (MapWebSocketSubprotocol (TFString.value "graphql-transport-ws")).1 := by
  refine ⟨by decide, by decide, by decide, by decide, by decide, ?_, by decide, by decide,
    by decide, by decide⟩
  intro v hv
  simp only [not_or] at hv
  simp [MapWebSocketSubprotocol, TFString.IsNull, TFString.IsUnknown, TFString.ValueString,
    hv.1, hv.2.1, hv.2.2]

/-! ## Label maps -/

theorem MapLabelsToNative_toList (m : GoMap) :
    (MapLabelsToNative m).toList =
      m.range.map (fun kv => ({ Key := kv.1, Value := kv.2 } : Label)) := by
  have h : MapLabelsToNative m =
      (m.range.map (fun kv => ({ Key := kv.1, Value := kv.2 } : Label))).foldl
        Slice.append Slice.nil := by
    rw [MapLabelsToNative, List.foldl_map]
  rw [h, foldl_append_toList]
  simp [Slice.toList]

theorem GoMap_lookup_iff (m : GoMap) (k v : String) :
    m.lookup k = some v ↔ (k, v) ∈ m.range := by
  cases m with
  | nil => simp [GoMap.lookup, GoMap.range]
  | table t =>
    simp only [GoMap.lookup, GoMap.range, List.mem_map, Prod.mk.injEq]
    rw [← Option.mem_def, AList.mem_lookup_iff]
    constructor
    · intro h
      exact ⟨⟨k, v⟩, h, rfl, rfl⟩
    · rintro ⟨⟨a, b⟩, h, rfl, rfl⟩
      exact h

theorem GoMap_keys_nodup (m : GoMap) : m.keys.Nodup := by
  cases m with
  | nil => simp [GoMap.keys, GoMap.range]
  | table t =>
    have h := t.keys_nodup
    simpa [GoMap.keys, GoMap.range, AList.keys, List.keys, List.map_map, Function.comp_def]
      using h

theorem foldl_insert_lookup (labels : List Label) (acc : AList (fun _ : String => String))
    (k : String) :
    (labels.foldl (fun l v => l.insert v.Key v.Value) acc).lookup k =
      (lastValue labels k).or (acc.lookup k) := by
  induction labels generalizing acc with
  | nil => simp [lastValue]
  | cons l rest ih =>
    rw [List.foldl_cons, ih]
    simp only [lastValue, List.reverse_cons, List.find?_append, Option.map_or]
    cases hr : (rest.reverse.find? (fun l => l.Key == k)) with
    | some x => simp
    | none =>
      by_cases hk : l.Key = k
      · subst hk
        simp [List.find?_cons, AList.lookup_insert]
      · have hk2 : k ≠ l.Key := fun e => hk e.symm
        simp [List.find?_cons, hk, AList.lookup_insert_ne hk2]

theorem MapLabelsFromNative_lookup (labels : List Label) (k : String) :
    (MapLabelsFromNative labels).lookup k = lastValue labels k := by
  rw [MapLabelsFromNative, GoMap.lookup, foldl_insert_lookup]
  simp [AList.lookup_empty]

theorem lastValue_of_nodup (labels : List Label) (hnd : (labels.map Label.Key).Nodup)
    (k v : String) :
    lastValue labels k = some v ↔ ({ Key := k, Value := v } : Label) ∈ labels := by
  unfold lastValue
  constructor
  · intro h
    obtain ⟨x, hx, hv⟩ := Option.map_eq_some'.mp h
    have hmem : x ∈ labels := List.mem_reverse.mp (List.mem_of_find?_eq_some hx)
    have hkey : x.Key = k := by simpa using List.find?_some hx
    cases x with
    | mk xk xv =>
      simp only at hkey hv
      rw [← hkey, ← hv]
      exact hmem
  · intro h
    cases hf : labels.reverse.find? (fun l => l.Key == k) with
    | none =>
      rw [List.find?_eq_none] at hf
      have := hf _ (List.mem_reverse.mpr h)
      simp at this
    | some x =>
      have hmem : x ∈ labels := List.mem_reverse.mp (List.mem_of_find?_eq_some hf)
      have hkey : x.Key = k := by simpa using List.find?_some hf
      have hx : x = { Key := k, Value := v } :=
        List.inj_on_of_nodup_map hnd hmem h (by simpa using hkey)
      simp [hx]

theorem lastValue_isSome (labels : List Label) (k : String) :
    (∃ v, lastValue labels k = some v) ↔ k ∈ labels.map Label.Key := by
  unfold lastValue
  constructor
  · rintro ⟨v, h⟩
    obtain ⟨x, hx, _⟩ := Option.map_eq_some'.mp h
    have hmem : x ∈ labels := List.mem_reverse.mp (List.mem_of_find?_eq_some hx)
    have hkey : x.Key = k := by simpa using List.find?_some hx
    exact List.mem_map.mpr ⟨x, hmem, hkey⟩
  · intro h
    obtain ⟨x, hx, hk⟩ := List.mem_map.mp h
    cases hf : labels.reverse.find? (fun l => l.Key == k) with
    | none =>
      rw [List.find?_eq_none] at hf
      have := hf _ (List.mem_reverse.mpr hx)
      simp [hk] at this
    | some y => exact ⟨y.Value, rfl⟩

theorem GoMap_mem_keys (m : GoMap) (k : String) :
    k ∈ m.keys ↔ ∃ v, m.lookup k = some v := by
  simp only [GoMap_lookup_iff, GoMap.keys, List.mem_map]
  constructor
  · rintro ⟨⟨a, b⟩, h, rfl⟩
    exact ⟨b, h⟩
  · rintro ⟨v, h⟩
    exact ⟨(k, v), h, rfl⟩

theorem MapLabels_roundtrip_lookup (m : GoMap) (k : String) :
    (MapLabelsFromNative (MapLabelsToNative m).toList).lookup k = m.lookup k := by
  have hnd : ((MapLabelsToNative m).toList.map Label.Key).Nodup := by
    rw [MapLabelsToNative_toList, List.map_map]
    exact GoMap_keys_nodup m
  apply Option.ext
  intro v
  rw [Option.mem_def, Option.mem_def, MapLabelsFromNative_lookup,
    lastValue_of_nodup _ hnd, MapLabelsToNative_toList, GoMap_lookup_iff]
  simp only [List.mem_map, Label.mk.injEq]
  constructor
  · rintro ⟨⟨a, b⟩, h, rfl, rfl⟩
    exact h
  · intro h
    exact ⟨(k, v), h, rfl, rfl⟩

/-! ## Claims about the label maps -/

/-- C8: for every mapping, converting it to a list of labels and back gives the
same mapping: every key is bound to the same value, and the entries are the
same up to the order of iteration. The empty mapping gives the empty mapping. -/
theorem MapLabels_roundtrip (m : GoMap) :
    (∀ k, (MapLabelsFromNative (MapLabelsToNative m).toList).lookup k = m.lookup k) ∧
    (MapLabelsFromNative (MapLabelsToNative m).toList).range.Perm m.range ∧
    MapLabelsFromNative (MapLabelsToNative (GoMap.table ∅)).toList = GoMap.table ∅ := by
  refine ⟨MapLabels_roundtrip_lookup m, ?_, rfl⟩
  have hl := MapLabels_roundtrip_lookup m
  cases m with
  | nil => simp [MapLabelsToNative, MapLabelsFromNative, GoMap.range, Slice.toList]
  | table t =>
    generalize (MapLabelsToNative (GoMap.table t)).toList = labels at hl
    simp only [MapLabelsFromNative, GoMap.lookup] at hl
    simp only [MapLabelsFromNative, GoMap.range]
    apply List.Perm.map
    apply List.lookup_ext (AList.nodupKeys _) t.nodupKeys
    intro x y
    have := hl x
    simp only [AList.lookup] at this
    rw [this]

/-- C9: for every list of labels the result is an allocated mapping whose keys
are exactly the keys occurring in the list, each bound to the value of the last
label bearing that key; a list with pairwise distinct keys yields exactly its
(key, value) pairs, and the empty list yields the empty mapping. -/
theorem MapLabelsFromNative_spec (labels : List Label) :
    MapLabelsFromNative labels ≠ GoMap.nil ∧
    (∀ k, k ∈ (MapLabelsFromNative labels).keys ↔ k ∈ labels.map Label.Key) ∧
    (∀ k, (MapLabelsFromNative labels).lookup k = lastValue labels k) ∧
    ((labels.map Label.Key).Nodup → ∀ k v,
      (MapLabelsFromNative labels).lookup k = some v ↔
        ({ Key := k, Value := v } : Label) ∈ labels) ∧
    MapLabelsFromNative [] = GoMap.table ∅ := by
  refine ⟨by simp [MapLabelsFromNative], ?_, MapLabelsFromNative_lookup labels, ?_, rfl⟩
  · intro k
    rw [GoMap_mem_keys, ← lastValue_isSome]
    simp only [MapLabelsFromNative_lookup]
  · intro hnd k v
    rw [MapLabelsFromNative_lookup, lastValue_of_nodup labels hnd]

/-- C10: for every mapping the returned list holds the label of a key and a
value exactly when the mapping binds the key to the value; its length is the
number of keys and no key occurs twice; for a mapping without entries the list
is the nil slice. The mapping of the repository test yields its two labels. -/
theorem MapLabelsToNative_spec (m : GoMap) :
    (∀ k v, ({ Key := k, Value := v } : Label) ∈ (MapLabelsToNative m).toList ↔
      m.lookup k = some v) ∧
    (MapLabelsToNative m).toList.length = m.keys.length ∧
    ((MapLabelsToNative m).toList.map Label.Key).Nodup ∧
    (m.keys = [] → MapLabelsToNative m = Slice.nil) ∧
    MapLabelsToNative (GoMap.table
        ((∅ : AList (fun _ : String => String)).insert "key2" "value2"
          |>.insert "key1" "value1")) =
      Slice.mk [{ Key := "key1", Value := "value1" }, { Key := "key2", Value := "value2" }] := by
  refine ⟨?_, ?_, ?_, ?_, by decide⟩
  · intro k v
    rw [MapLabelsToNative_toList, GoMap_lookup_iff]
    simp only [List.mem_map, Label.mk.injEq]
    constructor
    · rintro ⟨⟨a, b⟩, h, rfl, rfl⟩
      exact h
    · intro h
      exact ⟨(k, v), h, rfl, rfl⟩
  · rw [MapLabelsToNative_toList]
    simp [GoMap.keys]
  · rw [MapLabelsToNative_toList, List.map_map]
    exact GoMap_keys_nodup m
  · intro h
    have hr : m.range = [] := by simpa [GoMap.keys] using h
    rw [MapLabelsToNative, hr]
    rfl

/-! ## Diagnostics -/

theorem mem_Append (d incoming : Diagnostics) (y : Diagnostic) :
    y ∈ Diagnostics.Append d incoming ↔ y ∈ d ∨ y ∈ incoming := by
  unfold Diagnostics.Append
  induction incoming generalizing d with
  | nil => simp
  | cons x xs ih =>
    rw [List.foldl_cons, ih]
    by_cases hx : x ∈ d
    · simp only [hx, if_true, List.mem_cons]
      constructor
      · rintro (h | h)
        · exact Or.inl h
        · exact Or.inr (Or.inr h)
      · rintro (h | h | h)
        · exact Or.inl h
        · exact Or.inl (h ▸ hx)
        · exact Or.inr h
    · simp only [hx, if_false, List.mem_append, List.mem_singleton, List.mem_cons]
      tauto

theorem HasError_iff (d : Diagnostics) :
    HasError d = true ↔ ∃ y ∈ d, y.isError = true := by
  simp [HasError, List.any_eq_true]

theorem HasError_Append (d incoming : Diagnostics) :
    HasError (Diagnostics.Append d incoming) = (HasError d || HasError incoming) := by
  rw [Bool.eq_iff_iff, Bool.or_eq_true, HasError_iff, HasError_iff, HasError_iff]
  constructor
  · rintro ⟨y, hy, he⟩
    rcases (mem_Append d incoming y).mp hy with h | h
    · exact Or.inl ⟨y, h, he⟩
    · exact Or.inr ⟨y, h, he⟩
  · rintro (⟨y, hy, he⟩ | ⟨y, hy, he⟩)
    · exact ⟨y, (mem_Append d incoming y).mpr (Or.inl hy), he⟩
    · exact ⟨y, (mem_Append d incoming y).mpr (Or.inr hy), he⟩

theorem HasError_AddError (d : Diagnostics) (summary detail : String) :
    HasError (Diagnostics.AddError d summary detail) = true := by
  rw [Diagnostics.AddError, HasError_Append]
  simp [HasError, Diagnostic.isError]

theorem AddError_nil (summary detail : String) :
    Diagnostics.AddError [] summary detail = [Diagnostic.error summary detail] := by
  simp [Diagnostics.AddError, Diagnostics.Append]

theorem HasError_nil : HasError [] = false := rfl

/-! ## Claims about the namespace resource -/

/-- C20, as stated, fails: with the plan's name equal to the prior state's
name, `NamespaceResource.Update` still issues a `RenameNamespace` call. -/
theorem NamespaceResource_Update_same_name :
    ({ Id := TFString.value "1", Name := TFString.value "a" } : NamespaceModel).Name =
      ({ Id := TFString.value "1", Name := TFString.value "a" } : NamespaceModel).Name ∧
    (NamespaceResource.Update (fixedClient EnumStatusCode.OK "" [] [] [])
        { Id := TFString.value "1", Name := TFString.value "a" }
        { Id := TFString.value "1", Name := TFString.value "a" }).calls =
      [Call.RenameNamespace { Name := "a", NewName := "a" }] := by
  refine ⟨rfl, by decide⟩

/-- C20, amended: `NamespaceResource.Update` issues exactly one `RenameNamespace`
call for every plan and prior state, whether or not the names differ; the call
is keyed by the old (state) name and carries the plan's name as the new name. -/
theorem NamespaceResource_Update_calls (client : PlatformServiceClient)
    (plan state : NamespaceModel) :
    (NamespaceResource.Update client plan state).calls =
      [Call.RenameNamespace
        { Name := state.Name.ValueString, NewName := plan.Name.ValueString }] := by
  simp only [NamespaceResource.Update]
  split <;> rfl

/-! ## Claims about the federated graph resource -/

/-- C11, evaluated where the code departs from it: the remote answers the
delete call of `FederatedGraphResource.Delete`, and the rename and delete calls
of the namespace resource, at transport level with a status other than OK, and
each operation ends without any diagnostic; the namespace update even writes
the plan to the state. -/
theorem Delete_ignores_status :
    (fixedClient (EnumStatusCode.ERR 1) "boom" [] [] []).status
        (Call.DeleteFederatedGraph { Name := "g", Namespace := "default" }) =
      some (EnumStatusCode.ERR 1) ∧
    FederatedGraphResource.Delete (fixedClient (EnumStatusCode.ERR 1) "boom" [] [] [])
        { Id := TFString.value "1", Name := TFString.value "g",
          Namespace := TFString.value "default", RoutingUrl := TFString.value "u",
          LabelMatchers := Slice.mk [], AdmissionWebhookUrl := TFString.null,
          AdmissionWebhookSecret := TFString.null } =
      { calls := [Call.DeleteFederatedGraph { Name := "g", Namespace := "default" }],
        diags := [], state := none } ∧
    NamespaceResource.Delete (fixedClient (EnumStatusCode.ERR 1) "boom" [] [] [])
        { Id := TFString.value "1", Name := TFString.value "a" } =
      { calls := [Call.DeleteNamespace { Name := "a" }], diags := [], state := none } ∧
    NamespaceResource.Update (fixedClient (EnumStatusCode.ERR 1) "boom" [] [] [])
        { Id := TFString.value "1", Name := TFString.value "b" }
        { Id := TFString.value "1", Name := TFString.value "a" } =
      { calls := [Call.RenameNamespace { Name := "a", NewName := "b" }], diags := [],
        state := some { Id := TFString.value "1", Name := TFString.value "b" } } := by
  refine ⟨by decide, by decide, by decide, by decide⟩

/-- C12, evaluated where the code departs from it: the remote answers the create
call at transport level with a status other than OK and lists a graph of the
plan's name. `FederatedGraphResource.Create` reports the error with the detail
text, then goes on to the list call and writes the plan, with the id of the
listed graph, to the state. -/
theorem FederatedGraphResource_Create_continues_after_failure :
    FederatedGraphResource.Create
        (fixedClient (EnumStatusCode.ERR 1) "details" []
          [{ Id := "id1", Name := "acme.prod", Namespace := "default",
             RoutingURL := "https://api.acme.com", LabelMatchers := ["env=prod"],
             AdmissionWebhookUrl := none }] [])
        [] rfl
        { Id := TFString.unknown, Name := TFString.value "acme.prod",
          Namespace := TFString.value "default",
          RoutingUrl := TFString.value "https://api.acme.com",
          LabelMatchers := Slice.mk
            [{ Key := TFString.value "env", Values := TFList.known [TFString.value "prod"] }],
          AdmissionWebhookUrl := TFString.null, AdmissionWebhookSecret := TFString.null } =
      { calls :=
          [Call.CreateFederatedGraph
            { Name := "acme.prod", Namespace := "default",
              RoutingUrl := "https://api.acme.com", AdmissionWebhookURL := "",
              AdmissionWebhookSecret := none, LabelMatchers := Slice.mk ["env=prod"] },
           Call.GetFederatedGraphs { Namespace := "default" }],
        diags := [Diagnostic.error "Error creating federated graph" "details"],
        state := some
          { Id := TFString.value "id1", Name := TFString.value "acme.prod",
            Namespace := TFString.value "default",
            RoutingUrl := TFString.value "https://api.acme.com",
            LabelMatchers := Slice.mk
              [{ Key := TFString.value "env",
                 Values := TFList.known [TFString.value "prod"] }],
            AdmissionWebhookUrl := TFString.null,
            AdmissionWebhookSecret := TFString.null } } := by
  decide

/-- C13, evaluated where the code departs from it: the plan holds a label matcher
with a null value, so the encoding fails. `FederatedGraphResource.Create` tests
the diagnostics of the plan instead, issues the create call with a nil list of
matchers, reports nothing and writes the state; `FederatedGraphResource.Update`
on the same plan reports the encoding error and issues no call. -/
theorem FederatedGraphResource_Create_drops_encoding_error :
    HasError (MapLabelMatchersToNative
        [{ Key := TFString.value "env", Values := TFList.known [TFString.null] }]).2 = true ∧
    FederatedGraphResource.Create
        (fixedClient EnumStatusCode.OK "" []
          [{ Id := "id1", Name := "acme.prod", Namespace := "default",
             RoutingURL := "https://api.acme.com", LabelMatchers := [],
             AdmissionWebhookUrl := none }] [])
        [] rfl
        { Id := TFString.unknown, Name := TFString.value "acme.prod",
          Namespace := TFString.value "default",
          RoutingUrl := TFString.value "https://api.acme.com",
          LabelMatchers := Slice.mk
            [{ Key := TFString.value "env", Values := TFList.known [TFString.null] }],
          AdmissionWebhookUrl := TFString.null, AdmissionWebhookSecret := TFString.null } =
      { calls :=
          [Call.CreateFederatedGraph
            { Name := "acme.prod", Namespace := "default",
              RoutingUrl := "https://api.acme.com", AdmissionWebhookURL := "",
              AdmissionWebhookSecret := none, LabelMatchers := Slice.nil },
           Call.GetFederatedGraphs { Namespace := "default" }],
        diags := [],
        state := some
          { Id := TFString.value "id1", Name := TFString.value "acme.prod",
            Namespace := TFString.value "default",
            RoutingUrl := TFString.value "https://api.acme.com",
            LabelMatchers := Slice.mk
              [{ Key := TFString.value "env", Values := TFList.known [TFString.null] }],
            AdmissionWebhookUrl := TFString.null,
            AdmissionWebhookSecret := TFString.null } } ∧
    FederatedGraphResource.Update
        (fixedClient EnumStatusCode.OK "" [] [] [])
        { Id := TFString.value "id1", Name := TFString.value "acme.prod",
          Namespace := TFString.value "default",
          RoutingUrl := TFString.value "https://api.acme.com",
          LabelMatchers := Slice.mk
            [{ Key := TFString.value "env", Values := TFList.known [TFString.null] }],
          AdmissionWebhookUrl := TFString.null, AdmissionWebhookSecret := TFString.null }
        { Id := TFString.value "id1", Name := TFString.value "acme.prod",
          Namespace := TFString.value "default",
          RoutingUrl := TFString.value "https://api.acme.com",
          LabelMatchers := Slice.mk [],
          AdmissionWebhookUrl := TFString.null, AdmissionWebhookSecret := TFString.null } =
      { calls := [], diags := [Diagnostic.conversionError], state := none } := by
  refine ⟨by decide, by decide, by decide⟩

theorem graphReadModel_eq (n : FederatedGraph) (lm : Slice LabelMatcher) :
    graphReadModel n lm =
      { Id := TFString.value n.Id, Name := TFString.value n.Name,
        Namespace := TFString.value n.Namespace, RoutingUrl := TFString.value n.RoutingURL,
        LabelMatchers := lm, AdmissionWebhookUrl := webhookUrlOf n,
        AdmissionWebhookSecret := TFString.null } := by
  unfold graphReadModel webhookUrlOf
  cases h : n.AdmissionWebhookUrl with
  | none => simp [StringPointerValue]
  | some url =>
    by_cases hu : url = ""
    · simp [hu, StringPointerValue]
    · simp [hu, StringPointerValue]

theorem lastGraphWithId_cons (n : FederatedGraph) (rest : List FederatedGraph) (id : String) :
    lastGraphWithId (n :: rest) id =
      (lastGraphWithId rest id).or (if n.Id = id then some n else none) := by
  unfold lastGraphWithId
  rw [List.reverse_cons, List.find?_append]
  by_cases h : n.Id = id
  · simp [List.find?_cons, h]
  · simp [List.find?_cons, h]

theorem graphReadScan_error (id : String) (graphs : List FederatedGraph)
    (cur : Option FederatedGraphModel)
    (h : ∃ g ∈ graphs, g.Id = id ∧ HasError (MapLabelMatchersFromNative g.LabelMatchers).2 = true) :
    ∃ d, graphReadScan id graphs cur = Except.error d ∧ HasError d = true := by
  induction graphs generalizing cur with
  | nil => simp at h
  | cons n rest ih =>
    rw [graphReadScan]
    by_cases hid : n.Id = id
    · rw [if_pos hid]
      by_cases he : HasError (MapLabelMatchersFromNative n.LabelMatchers).2 = true
      · exact ⟨_, by simp only [he, if_true], he⟩
      · simp only [he]
        apply ih
        obtain ⟨g, hg, hgi, hge⟩ := h
        rcases List.mem_cons.mp hg with rfl | hg
        · exact absurd hge he
        · exact ⟨g, hg, hgi, hge⟩
    · rw [if_neg hid]
      apply ih
      obtain ⟨g, hg, hgi, hge⟩ := h
      rcases List.mem_cons.mp hg with rfl | hg
      · exact absurd hgi hid
      · exact ⟨g, hg, hgi, hge⟩

theorem graphReadScan_ok (id : String) (graphs : List FederatedGraph)
    (cur : Option FederatedGraphModel)
    (h : ∀ g ∈ graphs, g.Id = id →
      HasError (MapLabelMatchersFromNative g.LabelMatchers).2 = false) :
    graphReadScan id graphs cur =
      Except.ok (((lastGraphWithId graphs id).map
        (fun g => graphReadModel g (MapLabelMatchersFromNative g.LabelMatchers).1)).or cur) := by
  induction graphs generalizing cur with
  | nil => simp [graphReadScan, lastGraphWithId]
  | cons n rest ih =>
    have hr : ∀ g ∈ rest, g.Id = id →
        HasError (MapLabelMatchersFromNative g.LabelMatchers).2 = false :=
      fun g hg => h g (List.mem_cons_of_mem _ hg)
    rw [graphReadScan, lastGraphWithId_cons]
    by_cases hid : n.Id = id
    · have he := h n (List.mem_cons_self _ _) hid
      rw [if_pos hid]
      simp only [he]
      rw [ih _ hr]
      cases lastGraphWithId rest id <;> simp [hid]
    · rw [if_neg hid, ih _ hr]
      cases lastGraphWithId rest id <;> simp [hid]

theorem lastGraphWithId_none (graphs : List FederatedGraph) (id : String)
    (h : ∀ g ∈ graphs, g.Id ≠ id) : lastGraphWithId graphs id = none := by
  unfold lastGraphWithId
  rw [List.find?_eq_none]
  intro g hg
  simpa using h g (List.mem_reverse.mp hg)

/-- C19: `FederatedGraphResource.Read` issues the list call for the state's
namespace and nothing else. It reports an error and writes no state if the list
call fails at transport level, if the list response has a status other than OK,
if no listed graph bears the state's id, or if a listed graph bearing that id
has label matchers that fail to decode. Otherwise it reports nothing and writes
the state built from the last listed graph bearing the id: id, name, namespace
and routing URL of that graph, its decoded label matchers, and a webhook URL
that is null when the remote URL is absent or empty and the remote URL
otherwise. -/
theorem FederatedGraphResource_Read_spec (client : PlatformServiceClient)
    (data : FederatedGraphModel) :
    (FederatedGraphResource.Read client data).calls =
      [Call.GetFederatedGraphs { Namespace := data.Namespace.ValueString }] ∧
    (∀ err, client.GetFederatedGraphs { Namespace := data.Namespace.ValueString } =
        Except.error err →
      HasError (FederatedGraphResource.Read client data).diags = true ∧
        (FederatedGraphResource.Read client data).state = none) ∧
    (∀ ns, client.GetFederatedGraphs { Namespace := data.Namespace.ValueString } =
        Except.ok ns →
      (ns.Response.Code ≠ EnumStatusCode.OK →
        HasError (FederatedGraphResource.Read client data).diags = true ∧
          (FederatedGraphResource.Read client data).state = none) ∧
      ((∀ g ∈ ns.Graphs, g.Id ≠ data.Id.ValueString) →
        HasError (FederatedGraphResource.Read client data).diags = true ∧
          (FederatedGraphResource.Read client data).state = none) ∧
      ((∃ g ∈ ns.Graphs, g.Id = data.Id.ValueString ∧
          HasError (MapLabelMatchersFromNative g.LabelMatchers).2 = true) →
        HasError (FederatedGraphResource.Read client data).diags = true ∧
          (FederatedGraphResource.Read client data).state = none) ∧
      (ns.Response.Code = EnumStatusCode.OK →
        (∀ g ∈ ns.Graphs, g.Id = data.Id.ValueString →
          HasError (MapLabelMatchersFromNative g.LabelMatchers).2 = false) →
        ∀ g, lastGraphWithId ns.Graphs data.Id.ValueString = some g →
          (FederatedGraphResource.Read client data).diags = [] ∧
          (FederatedGraphResource.Read client data).state = some
            { Id := TFString.value g.Id, Name := TFString.value g.Name,
              Namespace := TFString.value g.Namespace,
              RoutingUrl := TFString.value g.RoutingURL,
              LabelMatchers := (MapLabelMatchersFromNative g.LabelMatchers).1,
              AdmissionWebhookUrl := webhookUrlOf g,
              AdmissionWebhookSecret := TFString.null })) := by
  refine ⟨?_, ?_, ?_⟩
  · simp only [FederatedGraphResource.Read]
    split
    · rfl
    · split
      · rfl
      · split <;> rfl
  · intro err herr
    simp only [FederatedGraphResource.Read, herr, HasError_AddError, and_self]
  · intro ns hns
    refine ⟨?_, ?_, ?_, ?_⟩
    · intro hcode
      simp only [FederatedGraphResource.Read, hns, hcode, ne_eq, not_false_eq_true, if_true,
        HasError_AddError, and_self]
    · intro hnone
      simp only [FederatedGraphResource.Read, hns]
      split
      · simp only [HasError_AddError, and_self]
      · have hscan := graphReadScan_ok data.Id.ValueString ns.Graphs none
          (fun g hg hid => absurd hid (hnone g hg))
        rw [lastGraphWithId_none _ _ hnone] at hscan
        simp only [Option.map_none', Option.or_none] at hscan
        simp only [hscan, HasError_AddError, and_self]
    · intro hbad
      obtain ⟨d, hd, hde⟩ := graphReadScan_error data.Id.ValueString ns.Graphs none hbad
      simp only [FederatedGraphResource.Read, hns]
      split
      · simp only [HasError_AddError, and_self]
      · simp only [hd, HasError_Append, hde, Bool.or_true, and_self]
    · intro hcode hall g hg
      have hscan := graphReadScan_ok data.Id.ValueString ns.Graphs none hall
      rw [hg] at hscan
      simp only [Option.map_some', Option.or_some] at hscan
      simp only [FederatedGraphResource.Read, hns, hcode, ne_eq, not_true_eq_false, if_false,
        hscan, graphReadModel_eq, and_self]

/-! ## The mappers inside the subgraph operations -/

theorem MapSubscriptionProtocol_supported (s : TFString)
    (h : supportedSubscriptionProtocol s) : (MapSubscriptionProtocol s).2 = none := by
  cases s with
  | null => rfl
  | unknown => rfl
  | value v =>
    rcases h with h | h
    · simp [TFString.isKnown, TFString.IsNull, TFString.IsUnknown] at h
    · simp only [TFString.ValueString, List.mem_cons, List.mem_singleton, List.mem_nil_iff,
        or_false] at h
      rcases h with rfl | rfl | rfl <;> decide

theorem MapSubscriptionProtocol_unsupported (s : TFString)
    (h : ¬ supportedSubscriptionProtocol s) :
    MapSubscriptionProtocol s = (none, some ("unsupported protocol: " ++ s.ValueString)) := by
  cases s with
  | null => exact absurd (Or.inl rfl) h
  | unknown => exact absurd (Or.inl rfl) h
  | value v =>
    simp only [supportedSubscriptionProtocol, TFString.ValueString, List.mem_cons,
      List.mem_singleton, List.mem_nil_iff, or_false, not_or] at h
    simp [MapSubscriptionProtocol, TFString.IsNull, TFString.IsUnknown, TFString.ValueString,
      h.2.1, h.2.2.1, h.2.2.2]

theorem MapWebSocketSubprotocol_supported (s : TFString)
    (h : supportedWebsocketSubprotocol s) : (MapWebSocketSubprotocol s).2 = none := by
  cases s with
  | null => rfl
  | unknown => rfl
  | value v =>
    rcases h with h | h
    · simp [TFString.isKnown, TFString.IsNull, TFString.IsUnknown] at h
    · simp only [TFString.ValueString, List.mem_cons, List.mem_singleton, List.mem_nil_iff,
        or_false] at h
      rcases h with rfl | rfl | rfl <;> decide

theorem MapWebSocketSubprotocol_unsupported (s : TFString)
    (h : ¬ supportedWebsocketSubprotocol s) :
    MapWebSocketSubprotocol s = (none, some ("unsupported protocol: " ++ s.ValueString)) := by
  cases s with
  | null => exact absurd (Or.inl rfl) h
  | unknown => exact absurd (Or.inl rfl) h
  | value v =>
    simp only [supportedWebsocketSubprotocol, TFString.ValueString, List.mem_cons,
      List.mem_singleton, List.mem_nil_iff, or_false, not_or] at h
    simp [MapWebSocketSubprotocol, TFString.IsNull, TFString.IsUnknown, TFString.ValueString,
      h.2.1, h.2.2.1, h.2.2.2]

theorem MapElementsAs_readable (m : TFMap) (h : m.readable = true) :
    HasError (MapElementsAs m).2 = false := by
  cases m with
  | null => rfl
  | unknown => simp [TFMap.readable] at h
  | known elems =>
    have h2 : elems.all (fun e => !e.2.IsNull && !e.2.IsUnknown) = true := h
    simp only [MapElementsAs, h2, if_true]
    rfl

theorem MapElementsAs_unreadable (m : TFMap) (h : m.readable = false) :
    MapElementsAs m = (GoMap.nil, [Diagnostic.conversionError]) := by
  cases m with
  | null => simp [TFMap.readable] at h
  | unknown => rfl
  | known elems =>
    have h2 : elems.all (fun e => !e.2.IsNull && !e.2.IsUnknown) = false := h
    simp only [MapElementsAs, h2]
    rfl

theorem status_UpdateSubgraph (client : PlatformServiceClient) (req : UpdateSubgraphRequest) :
    client.status (Call.UpdateSubgraph req) =
      (client.UpdateSubgraph req).toOption.map (·.Response.Code) := rfl

theorem status_MoveSubgraph (client : PlatformServiceClient) (req : MoveGraphRequest) :
    client.status (Call.MoveSubgraph req) =
      (client.MoveSubgraph req).toOption.map (·.Response.Code) := rfl

theorem status_PublishFederatedSubgraph (client : PlatformServiceClient)
    (req : PublishFederatedSubgraphRequest) :
    client.status (Call.PublishFederatedSubgraph req) =
      (client.PublishFederatedSubgraph req).toOption.map (·.Response.Code) := rfl

theorem status_CreateFederatedSubgraph (client : PlatformServiceClient)
    (req : CreateFederatedSubgraphRequest) :
    client.status (Call.CreateFederatedSubgraph req) =
      (client.CreateFederatedSubgraph req).toOption.map (·.Response.Code) := rfl

/-! ## The stages of the subgraph update -/

theorem subgraphUpdateGeneral_calls (client : PlatformServiceClient)
    (plan : FederatedSubgraphModel) (calls : List Call)
    (hsp : supportedSubscriptionProtocol plan.SubscriptionProtocol)
    (hwsp : supportedWebsocketSubprotocol plan.WebsocketSubprotocol)
    (hlab : plan.Labels.readable = true) :
    (subgraphUpdateGeneral client plan calls).calls =
      calls ++ [Call.UpdateSubgraph
        { Name := plan.Name.ValueString,
          Namespace := plan.Namespace.ValueString,
          RoutingUrl := plan.RoutingUrl.ValueStringPointer,
          SubscriptionUrl := plan.SubscriptionUrl.ValueStringPointer,
          Labels := MapLabelsToNative (MapElementsAs plan.Labels).1,
          SubscriptionProtocol := (MapSubscriptionProtocol plan.SubscriptionProtocol).1,
          WebsocketSubprotocol := (MapWebSocketSubprotocol plan.WebsocketSubprotocol).1 }] := by
  simp only [subgraphUpdateGeneral, MapSubscriptionProtocol_supported _ hsp,
    MapWebSocketSubprotocol_supported _ hwsp, MapElementsAs_readable _ hlab]
  simp only [Bool.false_eq_true, if_false]
  split
  · rfl
  · split <;> rfl

theorem subgraphUpdateGeneral_tail (client : PlatformServiceClient)
    (plan : FederatedSubgraphModel) (calls : List Call) :
    ∃ tail, (subgraphUpdateGeneral client plan calls).calls = calls ++ tail ∧
      ∀ c ∈ tail, client.status c ≠ some EnumStatusCode.OK →
        HasError (subgraphUpdateGeneral client plan calls).diags = true ∧
        (subgraphUpdateGeneral client plan calls).state = none ∧
        (subgraphUpdateGeneral client plan calls).calls.getLast? = some c := by
  simp only [subgraphUpdateGeneral]
  split
  · exact ⟨[], by simp⟩
  · split
    · exact ⟨[], by simp⟩
    · split
      · exact ⟨[], by simp⟩
      · split
        · refine ⟨[_], rfl, ?_⟩
          intro c hc _
          rw [List.mem_singleton] at hc
          subst hc
          simp [HasError_AddError]
        · rename_i ru hru
          split
          · refine ⟨[_], rfl, ?_⟩
            intro c hc _
            rw [List.mem_singleton] at hc
            subst hc
            simp [HasError_AddError]
          · rename_i hcode
            refine ⟨[_], rfl, ?_⟩
            intro c hc hne
            rw [List.mem_singleton] at hc
            subst hc
            rw [status_UpdateSubgraph, hru] at hne
            simp only [ne_eq, Decidable.not_not] at hcode
            simp [Except.toOption, hcode] at hne

theorem subgraphUpdateMove_tail (client : PlatformServiceClient)
    (plan state : FederatedSubgraphModel) (calls : List Call) :
    ∃ tail, (subgraphUpdateMove client plan state calls).calls = calls ++ tail ∧
      ∀ c ∈ tail, client.status c ≠ some EnumStatusCode.OK →
        HasError (subgraphUpdateMove client plan state calls).diags = true ∧
        (subgraphUpdateMove client plan state calls).state = none ∧
        (subgraphUpdateMove client plan state calls).calls.getLast? = some c := by
  simp only [subgraphUpdateMove]
  split
  · split
    · refine ⟨[_], rfl, ?_⟩
      intro c hc _
      rw [List.mem_singleton] at hc
      subst hc
      simp [HasError_AddError]
    · rename_i rm hrm
      split
      · refine ⟨[_], rfl, ?_⟩
        intro c hc _
        rw [List.mem_singleton] at hc
        subst hc
        simp [HasError_AddError]
      · rename_i hcode
        obtain ⟨tail, ht, hP⟩ := subgraphUpdateGeneral_tail client plan
          (calls ++ [Call.MoveSubgraph
            { Name := state.Name.ValueString, Namespace := state.Namespace.ValueString,
              NewNamespace := plan.Namespace.ValueString }])
        refine ⟨Call.MoveSubgraph
            { Name := state.Name.ValueString, Namespace := state.Namespace.ValueString,
              NewNamespace := plan.Namespace.ValueString } :: tail, by rw [ht]; simp, ?_⟩
        intro c hc hne
        rcases List.mem_cons.mp hc with rfl | hc
        · rw [status_MoveSubgraph, hrm] at hne
          simp only [ne_eq, Decidable.not_not] at hcode
          simp [Except.toOption, hcode] at hne
        · exact hP c hc hne
  · exact subgraphUpdateGeneral_tail client plan calls

theorem subgraphUpdate_tail (client : PlatformServiceClient)
    (plan state : FederatedSubgraphModel) :
    ∀ c ∈ (FederatedSubgraphResource.Update client plan state).calls,
      client.status c ≠ some EnumStatusCode.OK →
        HasError (FederatedSubgraphResource.Update client plan state).diags = true ∧
        (FederatedSubgraphResource.Update client plan state).state = none ∧
        (FederatedSubgraphResource.Update client plan state).calls.getLast? = some c := by
  simp only [FederatedSubgraphResource.Update]
  split
  · split
    · intro c hc _
      rw [List.mem_singleton] at hc
      subst hc
      simp [HasError_AddError]
    · rename_i rp hrp
      split
      · intro c hc _
        rw [List.mem_singleton] at hc
        subst hc
        simp [HasError_AddError]
      · rename_i hcode
        obtain ⟨tail, ht, hP⟩ := subgraphUpdateMove_tail client plan state
          [Call.PublishFederatedSubgraph
            { Name := plan.Name.ValueString, Namespace := plan.Namespace.ValueString,
              Schema := plan.Schema.ValueString }]
        intro c hc hne
        rw [ht] at hc
        rcases List.mem_append.mp hc with hc | hc
        · rw [List.mem_singleton] at hc
          subst hc
          rw [status_PublishFederatedSubgraph, hrp] at hne
          simp only [ne_eq, Decidable.not_not] at hcode
          simp [Except.toOption, hcode] at hne
        · exact hP c hc hne
  · obtain ⟨tail, ht, hP⟩ := subgraphUpdateMove_tail client plan state []
    intro c hc hne
    rw [ht] at hc
    exact hP c (by simpa using hc) hne

/-! ## Claims about the subgraph update -/

/-- C16: in `FederatedSubgraphResource.Update`, whenever a call that was issued
(publish, move or general update) fails at transport level or is answered with
a status other than OK, the operation reports an error, writes no state, and
that call is the last one issued. -/
theorem FederatedSubgraphResource_Update_halts (client : PlatformServiceClient)
    (plan state : FederatedSubgraphModel) (c : Call)
    (hc : c ∈ (FederatedSubgraphResource.Update client plan state).calls)
    (hfail : client.status c ≠ some EnumStatusCode.OK) :
    HasError (FederatedSubgraphResource.Update client plan state).diags = true ∧
      (FederatedSubgraphResource.Update client plan state).state = none ∧
      (FederatedSubgraphResource.Update client plan state).calls.getLast? = some c :=
  subgraphUpdate_tail client plan state c hc hfail

/-- Witness for C16: the remote answers the publish call with a status other
than OK. -/
theorem FederatedSubgraphResource_Update_halts_witness :
    HasError (FederatedSubgraphResource.Update
        (fixedClient (EnumStatusCode.ERR 1) "boom" [] [] [sampleListed])
        { sampleSubgraph with Schema := TFString.value "type Query2" }
        sampleSubgraph).diags = true ∧
      (FederatedSubgraphResource.Update
        (fixedClient (EnumStatusCode.ERR 1) "boom" [] [] [sampleListed])
        { sampleSubgraph with Schema := TFString.value "type Query2" }
        sampleSubgraph).state = none ∧
      (FederatedSubgraphResource.Update
        (fixedClient (EnumStatusCode.ERR 1) "boom" [] [] [sampleListed])
        { sampleSubgraph with Schema := TFString.value "type Query2" }
        sampleSubgraph).calls.getLast? =
        some (Call.PublishFederatedSubgraph
          { Name := "acme.users", Namespace := "default", Schema := "type Query2" }) :=
  FederatedSubgraphResource_Update_halts
    (fixedClient (EnumStatusCode.ERR 1) "boom" [] [] [sampleListed])
    { sampleSubgraph with Schema := TFString.value "type Query2" }
    sampleSubgraph
    (Call.PublishFederatedSubgraph
      { Name := "acme.users", Namespace := "default", Schema := "type Query2" })
    (by decide) (by decide)

theorem protocolError_of_unsupported (plan : FederatedSubgraphModel)
    (h : ¬ supportedSubscriptionProtocol plan.SubscriptionProtocol ∨
      ¬ supportedWebsocketSubprotocol plan.WebsocketSubprotocol) :
    ∃ e, protocolError plan = some e := by
  unfold protocolError
  by_cases hsp : supportedSubscriptionProtocol plan.SubscriptionProtocol
  · rcases h with h | h
    · exact absurd hsp h
    · rw [MapSubscriptionProtocol_supported _ hsp, MapWebSocketSubprotocol_unsupported _ h]
      exact ⟨_, rfl⟩
  · rw [MapSubscriptionProtocol_unsupported _ hsp]
    exact ⟨_, rfl⟩

theorem subgraphUpdateGeneral_of_protocolError (client : PlatformServiceClient)
    (plan : FederatedSubgraphModel) (calls : List Call) (e : String)
    (h : protocolError plan = some e) :
    subgraphUpdateGeneral client plan calls =
      { calls := calls, diags := [Diagnostic.error "Error creating subgraph" e],
        state := none } := by
  unfold protocolError at h
  simp only [subgraphUpdateGeneral]
  cases hp : (MapSubscriptionProtocol plan.SubscriptionProtocol).2 with
  | some e1 =>
    rw [hp] at h
    simp only [Option.some.injEq] at h
    simp only [h, AddError_nil]
  | none =>
    rw [hp] at h
    simp only at h
    simp only [h, AddError_nil]

/-- C17, as stated, fails: the plan's subscription protocol is an unsupported
literal and its schema differs from the prior state's; the publish call is
issued, and answered, before the mapper rejects the literal. -/
theorem FederatedSubgraphResource_Update_publishes_before_mapping :
    ¬ supportedSubscriptionProtocol (TFString.value "invalid") ∧
    FederatedSubgraphResource.Update
        (fixedClient EnumStatusCode.OK "" [] [] [sampleListed])
        { sampleSubgraph with
          SubscriptionProtocol := TFString.value "invalid",
          Schema := TFString.value "type Query2" }
        sampleSubgraph =
      { calls := [Call.PublishFederatedSubgraph
          { Name := "acme.users", Namespace := "default", Schema := "type Query2" }],
        diags := [Diagnostic.error "Error creating subgraph" "unsupported protocol: invalid"],
        state := none } := by
  refine ⟨by decide, by decide⟩

/-! ## The stages of the subgraph creation -/

theorem lastSubgraphNamed_cons (n : Subgraph) (rest : List Subgraph) (name : String) :
    lastSubgraphNamed (n :: rest) name =
      (lastSubgraphNamed rest name).or (if n.Name = name then some n else none) := by
  unfold lastSubgraphNamed
  rw [List.reverse_cons, List.find?_append]
  by_cases h : n.Name = name
  · simp [List.find?_cons, h]
  · simp [List.find?_cons, h]

theorem subgraphCreateScan_fold (graphs : List Subgraph) (plan : FederatedSubgraphModel)
    (i : TFString) (b : Bool) :
    graphs.foldl
        (fun (acc : FederatedSubgraphModel × Bool) n =>
          if n.Name = acc.1.Name.ValueString then
            ({ acc.1 with Id := TFString.value n.Id }, true)
          else acc)
        ({ plan with Id := i }, b) =
      match lastSubgraphNamed graphs plan.Name.ValueString with
      | some g => ({ plan with Id := TFString.value g.Id }, true)
      | none => ({ plan with Id := i }, b) := by
  induction graphs generalizing i b with
  | nil => simp [lastSubgraphNamed]
  | cons n rest ih =>
    rw [List.foldl_cons, lastSubgraphNamed_cons]
    by_cases hn : n.Name = plan.Name.ValueString
    · simp only [hn, if_true]
      rw [ih]
      cases lastSubgraphNamed rest plan.Name.ValueString <;> simp
    · simp only [hn, if_false]
      rw [ih]
      cases lastSubgraphNamed rest plan.Name.ValueString <;> simp

theorem subgraphCreateScan_eq (graphs : List Subgraph) (plan : FederatedSubgraphModel) :
    subgraphCreateScan graphs plan =
      match lastSubgraphNamed graphs plan.Name.ValueString with
      | some g => ({ plan with Id := TFString.value g.Id }, true)
      | none => (plan, false) := by
  have h := subgraphCreateScan_fold graphs plan plan.Id false
  exact h

theorem subgraphCreatePublish_spec (client : PlatformServiceClient)
    (p : FederatedSubgraphModel) (calls : List Call) :
    (subgraphCreatePublish client p calls).calls =
        calls ++ [Call.PublishFederatedSubgraph
          { Name := p.Name.ValueString, Namespace := p.Namespace.ValueString,
            Schema := p.Schema.ValueString }] ∧
      ((client.status (Call.PublishFederatedSubgraph
            { Name := p.Name.ValueString, Namespace := p.Namespace.ValueString,
              Schema := p.Schema.ValueString }) = some EnumStatusCode.OK ∧
          (subgraphCreatePublish client p calls).state = some p ∧
          (subgraphCreatePublish client p calls).diags = []) ∨
        (client.status (Call.PublishFederatedSubgraph
            { Name := p.Name.ValueString, Namespace := p.Namespace.ValueString,
              Schema := p.Schema.ValueString }) ≠ some EnumStatusCode.OK ∧
          (subgraphCreatePublish client p calls).state = none ∧
          HasError (subgraphCreatePublish client p calls).diags = true)) := by
  simp only [subgraphCreatePublish, status_PublishFederatedSubgraph]
  cases hp : client.PublishFederatedSubgraph
      { Name := p.Name.ValueString, Namespace := p.Namespace.ValueString,
        Schema := p.Schema.ValueString } with
  | error err => simp [HasError_AddError, Except.toOption]
  | ok rp =>
    by_cases hc : rp.Response.Code = EnumStatusCode.OK
    · simp [hc, Except.toOption]
    · simp [hc, HasError_AddError, Except.toOption]

theorem subgraphCreateList_spec (client : PlatformServiceClient)
    (plan : FederatedSubgraphModel) (calls : List Call) :
    ((subgraphCreateList client plan calls).calls =
          calls ++ [Call.GetSubgraphs { Namespace := plan.Namespace.ValueString }] ∧
        (subgraphCreateList client plan calls).state = none ∧
        HasError (subgraphCreateList client plan calls).diags = true ∧
        ∀ ns, client.GetSubgraphs { Namespace := plan.Namespace.ValueString } = Except.ok ns →
          lastSubgraphNamed ns.Graphs plan.Name.ValueString = none) ∨
      (∃ ns g, client.GetSubgraphs { Namespace := plan.Namespace.ValueString } = Except.ok ns ∧
        lastSubgraphNamed ns.Graphs plan.Name.ValueString = some g ∧
        subgraphCreateList client plan calls =
          subgraphCreatePublish client { plan with Id := TFString.value g.Id }
            (calls ++ [Call.GetSubgraphs { Namespace := plan.Namespace.ValueString }])) := by
  simp only [subgraphCreateList]
  cases hl : client.GetSubgraphs { Namespace := plan.Namespace.ValueString } with
  | error err => simp [HasError_AddError]
  | ok ns =>
    simp only [subgraphCreateScan_eq]
    cases hg : lastSubgraphNamed ns.Graphs plan.Name.ValueString with
    | none => simp [HasError_AddError, hg]
    | some g => simp [hg]

theorem subgraphCreate_early (client : PlatformServiceClient) (plan : FederatedSubgraphModel)
    (h : ¬ supportedSubscriptionProtocol plan.SubscriptionProtocol ∨
      ¬ supportedWebsocketSubprotocol plan.WebsocketSubprotocol ∨
      plan.Labels.readable = false) :
    (FederatedSubgraphResource.Create client plan).calls = [] ∧
      (FederatedSubgraphResource.Create client plan).state = none ∧
      HasError (FederatedSubgraphResource.Create client plan).diags = true := by
  simp only [FederatedSubgraphResource.Create]
  by_cases hsp : supportedSubscriptionProtocol plan.SubscriptionProtocol
  · simp only [MapSubscriptionProtocol_supported _ hsp]
    by_cases hwsp : supportedWebsocketSubprotocol plan.WebsocketSubprotocol
    · simp only [MapWebSocketSubprotocol_supported _ hwsp]
      have hl : plan.Labels.readable = false := by
        rcases h with h | h | h
        · exact absurd hsp h
        · exact absurd hwsp h
        · exact h
      simp [MapElementsAs_unreadable _ hl, HasError, Diagnostic.isError, Diagnostics.Append]
    · simp [MapWebSocketSubprotocol_unsupported _ hwsp, HasError_AddError]
  · simp [MapSubscriptionProtocol_unsupported _ hsp, HasError_AddError]

/-! ## Claims about the namespace creation -/

theorem lastNamespaceNamed_cons (n : Namespace) (rest : List Namespace) (name : String) :
    lastNamespaceNamed (n :: rest) name =
      (lastNamespaceNamed rest name).or (if n.Name = name then some n else none) := by
  unfold lastNamespaceNamed
  rw [List.reverse_cons, List.find?_append]
  by_cases h : n.Name = name
  · simp [List.find?_cons, h]
  · simp [List.find?_cons, h]

theorem namespaceCreateScan_fold (namespaces : List Namespace) (data : NamespaceModel)
    (i : TFString) (b : Bool) :
    namespaces.foldl
        (fun (acc : NamespaceModel × Bool) n =>
          if n.Name = acc.1.Name.ValueString then
            ({ acc.1 with Id := TFString.value n.Id }, true)
          else acc)
        ({ data with Id := i }, b) =
      match lastNamespaceNamed namespaces data.Name.ValueString with
      | some n => ({ data with Id := TFString.value n.Id }, true)
      | none => ({ data with Id := i }, b) := by
  induction namespaces generalizing i b with
  | nil => simp [lastNamespaceNamed]
  | cons n rest ih =>
    rw [List.foldl_cons, lastNamespaceNamed_cons]
    by_cases hn : n.Name = data.Name.ValueString
    · simp only [hn, if_true]
      rw [ih]
      cases lastNamespaceNamed rest data.Name.ValueString <;> simp
    · simp only [hn, if_false]
      rw [ih]
      cases lastNamespaceNamed rest data.Name.ValueString <;> simp

theorem namespaceCreateScan_eq (namespaces : List Namespace) (data : NamespaceModel) :
    namespaceCreateScan namespaces data =
      match lastNamespaceNamed namespaces data.Name.ValueString with
      | some n => ({ data with Id := TFString.value n.Id }, true)
      | none => (data, false) :=
  namespaceCreateScan_fold namespaces data data.Id false

theorem lastNamespaceNamed_none_iff (namespaces : List Namespace) (name : String) :
    lastNamespaceNamed namespaces name = none ↔ ∀ n ∈ namespaces, n.Name ≠ name := by
  unfold lastNamespaceNamed
  rw [List.find?_eq_none]
  constructor
  · intro h n hn
    simpa using h n (List.mem_reverse.mpr hn)
  · intro h n hn
    simpa using h n (List.mem_reverse.mp hn)

theorem lastNamespaceNamed_some (namespaces : List Namespace) (name : String) (n : Namespace)
    (h : lastNamespaceNamed namespaces name = some n) : n ∈ namespaces ∧ n.Name = name := by
  unfold lastNamespaceNamed at h
  exact ⟨List.mem_reverse.mp (List.mem_of_find?_eq_some h), by simpa using List.find?_some h⟩

/-- C21: in `NamespaceResource.Create`, once the create call and the list call
have both succeeded at transport level: if no listed namespace bears the plan's
name, Create reports the error "Namespace not found" and writes no state;
otherwise some listed namespace bears the name, and Create reports nothing and
writes the state with the plan's name and the id of the last listed namespace
bearing that name. -/
theorem NamespaceResource_Create_scan (client : PlatformServiceClient) (data : NamespaceModel)
    (r : StatusResponse) (ns : GetNamespacesResponse)
    (hcreate : client.CreateNamespace { Name := data.Name.ValueString } = Except.ok r)
    (hlist : client.GetNamespaces = Except.ok ns) :
    ((∀ n ∈ ns.Namespaces, n.Name ≠ data.Name.ValueString) →
      NamespaceResource.Create client data =
        { calls := [Call.CreateNamespace { Name := data.Name.ValueString }, Call.GetNamespaces],
          diags := [Diagnostic.error "Error reading namespaces" "Namespace not found"],
          state := none }) ∧
    ((∃ n ∈ ns.Namespaces, n.Name = data.Name.ValueString) →
      ∃ n, lastNamespaceNamed ns.Namespaces data.Name.ValueString = some n ∧
        n ∈ ns.Namespaces ∧ n.Name = data.Name.ValueString ∧
        NamespaceResource.Create client data =
          { calls := [Call.CreateNamespace { Name := data.Name.ValueString },
              Call.GetNamespaces],
            diags := [],
            state := some { Id := TFString.value n.Id, Name := data.Name } }) := by
  constructor
  · intro hnone
    have hl := (lastNamespaceNamed_none_iff ns.Namespaces data.Name.ValueString).mpr hnone
    simp [NamespaceResource.Create, hcreate, hlist, namespaceCreateScan_eq, hl, AddError_nil]
  · rintro ⟨m, hm, hmn⟩
    cases hl : lastNamespaceNamed ns.Namespaces data.Name.ValueString with
    | none =>
      exact absurd hmn ((lastNamespaceNamed_none_iff _ _).mp hl m hm)
    | some n =>
      obtain ⟨hmem, hname⟩ := lastNamespaceNamed_some _ _ _ hl
      refine ⟨n, rfl, hmem, hname, ?_⟩
      simp [NamespaceResource.Create, hcreate, hlist, namespaceCreateScan_eq, hl]

/-- Witness for C21: the remote lists two namespaces of the plan's name, and the
state takes the id of the second. -/
theorem NamespaceResource_Create_scan_witness :
    ((∀ n ∈ [({ Id := "1", Name := "prod" } : Namespace), { Id := "2", Name := "dev" },
          { Id := "3", Name := "prod" }], n.Name ≠ "prod") →
      NamespaceResource.Create
          (fixedClient EnumStatusCode.OK "" [{ Id := "1", Name := "prod" },
            { Id := "2", Name := "dev" }, { Id := "3", Name := "prod" }] [] [])
          { Id := TFString.unknown, Name := TFString.value "prod" } =
        { calls := [Call.CreateNamespace { Name := "prod" }, Call.GetNamespaces],
          diags := [Diagnostic.error "Error reading namespaces" "Namespace not found"],
          state := none }) ∧
    ((∃ n ∈ [({ Id := "1", Name := "prod" } : Namespace), { Id := "2", Name := "dev" },
          { Id := "3", Name := "prod" }], n.Name = "prod") →
      ∃ n, lastNamespaceNamed [({ Id := "1", Name := "prod" } : Namespace),
            { Id := "2", Name := "dev" }, { Id := "3", Name := "prod" }] "prod" = some n ∧
        n ∈ [({ Id := "1", Name := "prod" } : Namespace), { Id := "2", Name := "dev" },
          { Id := "3", Name := "prod" }] ∧
        n.Name = "prod" ∧
        NamespaceResource.Create
            (fixedClient EnumStatusCode.OK "" [{ Id := "1", Name := "prod" },
              { Id := "2", Name := "dev" }, { Id := "3", Name := "prod" }] [] [])
            { Id := TFString.unknown, Name := TFString.value "prod" } =
          { calls := [Call.CreateNamespace { Name := "prod" }, Call.GetNamespaces],
            diags := [],
            state := some { Id := TFString.value n.Id, Name := TFString.value "prod" } }) :=
  NamespaceResource_Create_scan
    (fixedClient EnumStatusCode.OK "" [{ Id := "1", Name := "prod" },
      { Id := "2", Name := "dev" }, { Id := "3", Name := "prod" }] [] [])
    { Id := TFString.unknown, Name := TFString.value "prod" }
    { Response := { Code := EnumStatusCode.OK, Details := "" } }
    { Response := { Code := EnumStatusCode.OK, Details := "" },
      Namespaces := [{ Id := "1", Name := "prod" }, { Id := "2", Name := "dev" },
        { Id := "3", Name := "prod" }] }
    rfl rfl

/-! ## Claims about the provider configuration -/

theorem resolveSetting_eq (configured : TFString) (envValue : String) :
    (if configured.IsUnknown || configured.IsNull then envValue else configured.ValueString) =
      resolveSetting configured envValue := by
  cases configured <;> simp [resolveSetting, TFString.isKnown, TFString.IsNull,
    TFString.IsUnknown, TFString.ValueString]

theorem Header_Values_append (h1 h2 : Header) (k : String) :
    Header.Values (h1 ++ h2) k = Header.Values h1 k ++ Header.Values h2 k := by
  simp [Header.Values]

theorem RoundTrip_eq (t : HeaderTransport) (req : Header) :
    t.RoundTrip req = req ++ t.Headers.range := by
  unfold HeaderTransport.RoundTrip
  generalize t.Headers.range = entries
  induction entries generalizing req with
  | nil => simp
  | cons e rest ih =>
    rw [List.foldl_cons, ih]
    simp [Header.Add]

/-- C22: `WundergraphProvider.Configure` resolves the API key as the configured
`api_key` when that is set and as the environment value `WGC_API_KEY` otherwise.
It fails exactly when the resolved key is empty, with the error "api_key must be
set" and without building a client. When the key is not empty it reports
nothing and builds a client whose transport adds to every request the
`Authorization` header `Bearer ` followed by the key, and whose base URL is the
configured `api_url` when set, else the environment value `WGC_API_URL`, replaced
by `https://cosmo-cp.wundergraph.com` exactly when that resolved URL is empty. -/
theorem WundergraphProvider_Configure_spec (version goVersion goos goarch : String)
    (getenv : String → String) (data : WundergraphProviderModel) :
    (HasError (WundergraphProvider.Configure version goVersion goos goarch getenv data).1 = true ↔
      resolveSetting data.ApiKey (getenv "WGC_API_KEY") = "") ∧
    (resolveSetting data.ApiKey (getenv "WGC_API_KEY") = "" →
      (WundergraphProvider.Configure version goVersion goos goarch getenv data).1 =
          [Diagnostic.error "api_key must be set" "Expected a non-empty value for api_key"] ∧
        (WundergraphProvider.Configure version goVersion goos goarch getenv data).2 = none) ∧
    (resolveSetting data.ApiKey (getenv "WGC_API_KEY") ≠ "" →
      (WundergraphProvider.Configure version goVersion goos goarch getenv data).1 = [] ∧
      ∃ c, (WundergraphProvider.Configure version goVersion goos goarch getenv data).2 = some c ∧
        (∀ req : Header, Header.Values (c.Transport.RoundTrip req) "Authorization" =
          Header.Values req "Authorization" ++
            ["Bearer " ++ resolveSetting data.ApiKey (getenv "WGC_API_KEY")]) ∧
        c.BaseUrl =
          (if resolveSetting data.ApiUrl (getenv "WGC_API_URL") = "" then
            "https://cosmo-cp.wundergraph.com"
          else resolveSetting data.ApiUrl (getenv "WGC_API_URL"))) := by
  simp only [WundergraphProvider.Configure, resolveSetting_eq]
  by_cases hk : resolveSetting data.ApiKey (getenv "WGC_API_KEY") = ""
  · simp [hk, AddError_nil, HasError, Diagnostic.isError]
  · simp only [hk, if_false, HasError_nil, Bool.false_eq_true, false_iff, not_false_eq_true,
      false_implies, true_and, ne_eq, true_implies]
    refine ⟨_, rfl, ?_, rfl⟩
    intro req
    rw [RoundTrip_eq, Header_Values_append]
    congr 1

/-! ## Further claims about the subgraph update, the graph read and the decoded key -/

theorem subgraphUpdateGeneral_names (client : PlatformServiceClient)
    (plan : FederatedSubgraphModel) (calls : List Call) :
    ∃ tail, (subgraphUpdateGeneral client plan calls).calls = calls ++ tail ∧
      ∀ c ∈ tail, c.name = "UpdateSubgraph" := by
  simp only [subgraphUpdateGeneral]
  split
  · exact ⟨[], by simp⟩
  · split
    · exact ⟨[], by simp⟩
    · split
      · exact ⟨[], by simp⟩
      · split
        · exact ⟨[_], rfl, by simp [Call.name]⟩
        · split
          · exact ⟨[_], rfl, by simp [Call.name]⟩
          · exact ⟨[_], rfl, by simp [Call.name]⟩

/-- C23: in `FederatedSubgraphResource.Update`, when the plan differs from the
prior state in both schema and namespace, the first call issued is the publish
call, keyed by the plan's name and the plan's namespace (which, both being
known, is not the namespace of the prior state), and no other publish call
follows. The move call, keyed by the prior state's name and namespace, is the
next call when the publish call is answered with status OK, and nothing follows
the publish call otherwise. -/
theorem FederatedSubgraphResource_Update_publish_first (client : PlatformServiceClient)
    (plan state : FederatedSubgraphModel)
    (hschema : plan.Schema ≠ state.Schema) (hns : plan.Namespace ≠ state.Namespace) :
    ∃ rest, (FederatedSubgraphResource.Update client plan state).calls =
        Call.PublishFederatedSubgraph
          { Name := plan.Name.ValueString, Namespace := plan.Namespace.ValueString,
            Schema := plan.Schema.ValueString } :: rest ∧
      (∀ c ∈ rest, c.name ≠ "PublishFederatedSubgraph") ∧
      (client.status (Call.PublishFederatedSubgraph
          { Name := plan.Name.ValueString, Namespace := plan.Namespace.ValueString,
            Schema := plan.Schema.ValueString }) = some EnumStatusCode.OK →
        rest.head? = some (Call.MoveSubgraph
          { Name := state.Name.ValueString, Namespace := state.Namespace.ValueString,
            NewNamespace := plan.Namespace.ValueString })) ∧
      (client.status (Call.PublishFederatedSubgraph
          { Name := plan.Name.ValueString, Namespace := plan.Namespace.ValueString,
            Schema := plan.Schema.ValueString }) ≠ some EnumStatusCode.OK →
        rest = []) ∧
      (plan.Namespace.isKnown = true → state.Namespace.isKnown = true →
        plan.Namespace.ValueString ≠ state.Namespace.ValueString) := by
  have hval : plan.Namespace.isKnown = true → state.Namespace.isKnown = true →
      plan.Namespace.ValueString ≠ state.Namespace.ValueString := by
    intro hp hs heq
    apply hns
    rw [known_of_isKnown _ hp, known_of_isKnown _ hs, heq]
  cases hp : client.PublishFederatedSubgraph
      { Name := plan.Name.ValueString, Namespace := plan.Namespace.ValueString,
        Schema := plan.Schema.ValueString } with
  | error err =>
    refine ⟨[], ?_, ?_, ?_, ?_, hval⟩
    · simp [FederatedSubgraphResource.Update, hschema, hp]
    · simp
    · simp [status_PublishFederatedSubgraph, hp, Except.toOption]
    · simp
  | ok rp =>
    by_cases hc : rp.Response.Code = EnumStatusCode.OK
    · cases hm : client.MoveSubgraph
          { Name := state.Name.ValueString, Namespace := state.Namespace.ValueString,
            NewNamespace := plan.Namespace.ValueString } with
      | error err =>
        refine ⟨[Call.MoveSubgraph
          { Name := state.Name.ValueString, Namespace := state.Namespace.ValueString,
            NewNamespace := plan.Namespace.ValueString }], ?_, ?_, ?_, ?_, hval⟩
        · simp [FederatedSubgraphResource.Update, subgraphUpdateMove, hschema, hns, hp, hc, hm]
        · simp [Call.name]
        · simp
        · simp [status_PublishFederatedSubgraph, hp, hc, Except.toOption]
      | ok rm =>
        by_cases hc2 : rm.Response.Code = EnumStatusCode.OK
        · obtain ⟨tail, ht, hnames⟩ := subgraphUpdateGeneral_names client plan
            [Call.PublishFederatedSubgraph
              { Name := plan.Name.ValueString, Namespace := plan.Namespace.ValueString,
                Schema := plan.Schema.ValueString },
             Call.MoveSubgraph
              { Name := state.Name.ValueString, Namespace := state.Namespace.ValueString,
                NewNamespace := plan.Namespace.ValueString }]
          refine ⟨Call.MoveSubgraph
              { Name := state.Name.ValueString, Namespace := state.Namespace.ValueString,
                NewNamespace := plan.Namespace.ValueString } :: tail, ?_, ?_, ?_, ?_, hval⟩
          · simp only [FederatedSubgraphResource.Update, subgraphUpdateMove, if_pos hschema,
              if_pos hns, hp, hc, hm, hc2, ne_eq, not_true_eq_false, if_false,
              List.cons_append, List.nil_append]
            rw [ht]
            simp
          · intro c hcm
            rcases List.mem_cons.mp hcm with rfl | hcm
            · simp [Call.name]
            · rw [hnames c hcm]
              decide
          · simp
          · simp [status_PublishFederatedSubgraph, hp, hc, Except.toOption]
        · refine ⟨[Call.MoveSubgraph
            { Name := state.Name.ValueString, Namespace := state.Namespace.ValueString,
              NewNamespace := plan.Namespace.ValueString }], ?_, ?_, ?_, ?_, hval⟩
          · simp [FederatedSubgraphResource.Update, subgraphUpdateMove, hschema, hns, hp, hc,
              hm, hc2]
          · simp [Call.name]
          · simp
          · simp [status_PublishFederatedSubgraph, hp, hc, Except.toOption]
    · refine ⟨[], ?_, ?_, ?_, ?_, hval⟩
      · simp [FederatedSubgraphResource.Update, hschema, hp, hc]
      · simp
      · simp [status_PublishFederatedSubgraph, hp, hc, Except.toOption]
      · simp

/-- Witness for C23: the schema and the namespace of the sample subgraph change
and the remote answers every call with status OK. -/
theorem FederatedSubgraphResource_Update_publish_first_witness :
    ∃ rest, (FederatedSubgraphResource.Update
          (fixedClient EnumStatusCode.OK "" [] [] [sampleListed])
          { sampleSubgraph with
            Schema := TFString.value "type Query2", Namespace := TFString.value "staging" }
          sampleSubgraph).calls =
        Call.PublishFederatedSubgraph
          { Name := "acme.users", Namespace := "staging", Schema := "type Query2" } :: rest ∧
      (∀ c ∈ rest, c.name ≠ "PublishFederatedSubgraph") ∧
      ((fixedClient EnumStatusCode.OK "" [] [] [sampleListed]).status
          (Call.PublishFederatedSubgraph
            { Name := "acme.users", Namespace := "staging", Schema := "type Query2" }) =
          some EnumStatusCode.OK →
        rest.head? = some (Call.MoveSubgraph
          { Name := "acme.users", Namespace := "default", NewNamespace := "staging" })) ∧
      ((fixedClient EnumStatusCode.OK "" [] [] [sampleListed]).status
          (Call.PublishFederatedSubgraph
            { Name := "acme.users", Namespace := "staging", Schema := "type Query2" }) ≠
          some EnumStatusCode.OK →
        rest = []) ∧
      ((TFString.value "staging").isKnown = true → sampleSubgraph.Namespace.isKnown = true →
        "staging" ≠ sampleSubgraph.Namespace.ValueString) :=
  FederatedSubgraphResource_Update_publish_first
    (fixedClient EnumStatusCode.OK "" [] [] [sampleListed])
    { sampleSubgraph with
      Schema := TFString.value "type Query2", Namespace := TFString.value "staging" }
    sampleSubgraph (by decide) (by decide)

theorem graphReadScan_secret (id : String) (graphs : List FederatedGraph)
    (cur : Option FederatedGraphModel) (m : FederatedGraphModel)
    (hcur : ∀ c, cur = some c → c.AdmissionWebhookSecret = TFString.null)
    (h : graphReadScan id graphs cur = Except.ok (some m)) :
    m.AdmissionWebhookSecret = TFString.null := by
  induction graphs generalizing cur with
  | nil =>
    simp only [graphReadScan, Except.ok.injEq] at h
    exact hcur m h
  | cons n rest ih =>
    rw [graphReadScan] at h
    by_cases hid : n.Id = id
    · rw [if_pos hid] at h
      by_cases he : HasError (MapLabelMatchersFromNative n.LabelMatchers).2 = true
      · simp [he] at h
      · simp only [he] at h
        refine ih _ ?_ h
        intro c hc
        simp only [Option.some.injEq] at hc
        rw [← hc, graphReadModel_eq]
    · rw [if_neg hid] at h
      exact ih cur hcur h

/-- C24: whenever `FederatedGraphResource.Read` writes a state, the webhook
secret of that state is null, whatever secret the prior state held and whatever
the remote returned. -/
theorem FederatedGraphResource_Read_secret_null (client : PlatformServiceClient)
    (data s : FederatedGraphModel)
    (h : (FederatedGraphResource.Read client data).state = some s) :
    s.AdmissionWebhookSecret = TFString.null := by
  simp only [FederatedGraphResource.Read] at h
  split at h
  · simp at h
  · split at h
    · simp at h
    · split at h
      · simp at h
      · simp at h
      · rename_i current hscan
        simp only [Option.some.injEq] at h
        subst h
        exact graphReadScan_secret _ _ none _ (by simp) hscan

/-- Witness for C24: the prior state holds the secret `s3cret`; the state read
from the listed graph holds none. -/
theorem FederatedGraphResource_Read_secret_null_witness :
    (FederatedGraphResource.Read
        (fixedClient EnumStatusCode.OK "" []
          [{ Id := "id1", Name := "acme.prod", Namespace := "default",
             RoutingURL := "https://api.acme.com", LabelMatchers := ["env=prod"],
             AdmissionWebhookUrl := some "https://hook.acme.com" }] [])
        { Id := TFString.value "id1", Name := TFString.value "acme.prod",
          Namespace := TFString.value "default",
          RoutingUrl := TFString.value "https://api.acme.com",
          LabelMatchers := Slice.mk [],
          AdmissionWebhookUrl := TFString.value "https://hook.acme.com",
          AdmissionWebhookSecret := TFString.value "s3cret" }).state =
      some
        { Id := TFString.value "id1", Name := TFString.value "acme.prod",
          Namespace := TFString.value "default",
          RoutingUrl := TFString.value "https://api.acme.com",
          LabelMatchers := Slice.mk
            [{ Key := TFString.value "env", Values := TFList.known [TFString.value "prod"] }],
          AdmissionWebhookUrl := TFString.value "https://hook.acme.com",
          AdmissionWebhookSecret := TFString.null } ∧
    ({ Id := TFString.value "id1", Name := TFString.value "acme.prod",
       Namespace := TFString.value "default",
       RoutingUrl := TFString.value "https://api.acme.com",
       LabelMatchers := Slice.mk
         [{ Key := TFString.value "env", Values := TFList.known [TFString.value "prod"] }],
       AdmissionWebhookUrl := TFString.value "https://hook.acme.com",
       AdmissionWebhookSecret := TFString.null } :
      FederatedGraphModel).AdmissionWebhookSecret = TFString.null :=
  ⟨by decide,
    FederatedGraphResource_Read_secret_null
      (fixedClient EnumStatusCode.OK "" []
        [{ Id := "id1", Name := "acme.prod", Namespace := "default",
           RoutingURL := "https://api.acme.com", LabelMatchers := ["env=prod"],
           AdmissionWebhookUrl := some "https://hook.acme.com" }] [])
      { Id := TFString.value "id1", Name := TFString.value "acme.prod",
        Namespace := TFString.value "default",
        RoutingUrl := TFString.value "https://api.acme.com",
        LabelMatchers := Slice.mk [],
        AdmissionWebhookUrl := TFString.value "https://hook.acme.com",
        AdmissionWebhookSecret := TFString.value "s3cret" }
      _ (by decide)⟩

/-- C25: for every input all of whose entries have only tags with exactly one
`=`, decoding succeeds and the key of the matcher decoded from an entry is the
text before `=` of the first tag in which that text is not empty, and the empty
string when there is no such tag. The entry `=a,k=b` decodes with key `k` and
values `a`, `b`; the entry `=a,=b` decodes with the empty key. -/
theorem MapLabelMatchersFromNative_key_spec (input : List String)
    (h : ∀ v ∈ input, ∀ e ∈ Split v ',', countEq e = 1) :
    (∃ l, MapLabelMatchersFromNative input = (Slice.mk l, []) ∧
      l.map LabelMatcher.Key =
        input.map (fun v => TFString.value (firstNonEmptyBefore (Split v ',')))) ∧
    MapLabelMatchersFromNative ["=a,k=b"] =
      (Slice.mk [{ Key := TFString.value "k",
                   Values := TFList.known [TFString.value "a", TFString.value "b"] }], []) ∧
    MapLabelMatchersFromNative ["=a,=b"] =
      (Slice.mk [{ Key := TFString.value "",
                   Values := TFList.known [TFString.value "a", TFString.value "b"] }], []) := by
  refine ⟨⟨_, decodeLoop_ok input [] h, ?_⟩, by decide, by decide⟩
  simp [entryMatcher, List.map_map, Function.comp_def]

/-- Witness for C25: the first tag of the second entry has an empty text before
`=`, and so has every tag of the third. -/
theorem MapLabelMatchersFromNative_key_spec_witness :
    (∃ l, MapLabelMatchersFromNative ["k=a,j=b", "=a,k=b", "=a,=b"] = (Slice.mk l, []) ∧
      l.map LabelMatcher.Key =
        ["k=a,j=b", "=a,k=b", "=a,=b"].map
          (fun v => TFString.value (firstNonEmptyBefore (Split v ',')))) ∧
    MapLabelMatchersFromNative ["=a,k=b"] =
      (Slice.mk [{ Key := TFString.value "k",
                   Values := TFList.known [TFString.value "a", TFString.value "b"] }], []) ∧
    MapLabelMatchersFromNative ["=a,=b"] =
      (Slice.mk [{ Key := TFString.value "",
                   Values := TFList.known [TFString.value "a", TFString.value "b"] }], []) :=
  MapLabelMatchersFromNative_key_spec ["k=a,j=b", "=a,k=b", "=a,=b"] (by decide)

/-! ## The states the subgraph resource writes -/

theorem sameElements_readable (a b : TFMap) (h : TFMap.sameElements a b) :
    a.readable = b.readable := by
  cases a with
  | null => cases b <;> simp [TFMap.sameElements] at h ⊢
  | unknown => cases b <;> simp [TFMap.sameElements] at h ⊢
  | known xs =>
    cases b with
    | null => simp [TFMap.sameElements] at h
    | unknown => simp [TFMap.sameElements] at h
    | known ys =>
      simp only [TFMap.sameElements] at h
      simp only [TFMap.readable]
      rw [Bool.eq_iff_iff, List.all_eq_true, List.all_eq_true]
      constructor
      · intro hx e he
        exact hx e ((h e).mpr he)
      · intro hy e he
        exact hy e ((h e).mp he)

theorem subgraphUpdateGeneral_state (client : PlatformServiceClient)
    (plan s : FederatedSubgraphModel) (calls : List Call)
    (h : (subgraphUpdateGeneral client plan calls).state = some s) :
    plan.Labels.readable = true := by
  by_cases hr : plan.Labels.readable = true
  · exact hr
  · simp only [Bool.not_eq_true] at hr
    simp only [subgraphUpdateGeneral, MapElementsAs_unreadable _ hr] at h
    split at h
    · simp at h
    · split at h
      · simp at h
      · simp [HasError, Diagnostic.isError] at h

theorem subgraphUpdate_state (client : PlatformServiceClient)
    (plan state s : FederatedSubgraphModel)
    (h : (FederatedSubgraphResource.Update client plan state).state = some s) :
    s = plan ∧ plan.Labels.readable = true := by
  obtain ⟨hs, _⟩ : (FederatedSubgraphResource.Update client plan state).state = some s ∧ True :=
    ⟨h, trivial⟩
  have hgen : ∀ calls, (subgraphUpdateGeneral client plan calls).state = some s → s = plan := by
    intro calls hg
    simp only [subgraphUpdateGeneral] at hg
    split at hg
    · simp at hg
    · split at hg
      · simp at hg
      · split at hg
        · simp at hg
        · split at hg
          · simp at hg
          · split at hg
            · simp at hg
            · simpa using hg.symm
  have hmove : ∀ calls, (subgraphUpdateMove client plan state calls).state = some s →
      ∃ calls2, (subgraphUpdateGeneral client plan calls2).state = some s := by
    intro calls hm
    simp only [subgraphUpdateMove] at hm
    split at hm
    · split at hm
      · simp at hm
      · split at hm
        · simp at hm
        · exact ⟨_, hm⟩
    · exact ⟨_, hm⟩
  have htop : ∃ calls, (subgraphUpdateMove client plan state calls).state = some s := by
    simp only [FederatedSubgraphResource.Update] at h
    split at h
    · split at h
      · simp at h
      · split at h
        · simp at h
        · exact ⟨_, h⟩
    · exact ⟨_, h⟩
  obtain ⟨calls, hm⟩ := htop
  obtain ⟨calls2, hg⟩ := hmove calls hm
  exact ⟨hgen calls2 hg, subgraphUpdateGeneral_state client plan s calls2 hg⟩

theorem subgraphCreate_state (client : PlatformServiceClient)
    (plan s : FederatedSubgraphModel)
    (h : (FederatedSubgraphResource.Create client plan).state = some s) :
    s.Labels = plan.Labels ∧ plan.Labels.readable = true := by
  have hread : plan.Labels.readable = true := by
    by_cases hr : plan.Labels.readable = true
    · exact hr
    · simp only [Bool.not_eq_true] at hr
      have := (subgraphCreate_early client plan (Or.inr (Or.inr hr))).2.1
      rw [this] at h
      simp at h
  refine ⟨?_, hread⟩
  have hpub : ∀ p calls, (subgraphCreatePublish client p calls).state = some s → s = p := by
    intro p calls hp
    simp only [subgraphCreatePublish] at hp
    split at hp
    · simp at hp
    · split at hp
      · simp at hp
      · simpa using hp.symm
  have hlist : ∀ calls, (subgraphCreateList client plan calls).state = some s →
      s.Labels = plan.Labels := by
    intro calls hl
    rcases subgraphCreateList_spec client plan calls with ⟨_, hn, _⟩ | ⟨ns, g, _, _, hL⟩
    · rw [hn] at hl
      simp at hl
    · rw [hL] at hl
      rw [hpub _ _ hl]
  simp only [FederatedSubgraphResource.Create] at h
  split at h
  · simp at h
  · split at h
    · simp at h
    · split at h
      · simp at h
      · split at h
        · simp at h
        · split at h
          · simp at h
          · exact hlist _ h

theorem MapValueFrom_readable (labels : List Label) :
    (MapValueFrom (MapLabelsFromNative labels)).1.readable = true := by
  simp only [MapLabelsFromNative, MapValueFrom, TFMap.readable, List.all_eq_true, List.mem_map]
  rintro e ⟨x, _, rfl⟩
  rfl

theorem subgraphReadScan_readable (id : String) (graphs : List Subgraph)
    (cur : Option FederatedSubgraphModel) (m : FederatedSubgraphModel)
    (hcur : ∀ c, cur = some c → c.Labels.readable = true)
    (h : subgraphReadScan id graphs cur = Except.ok (some m)) :
    m.Labels.readable = true := by
  induction graphs generalizing cur with
  | nil =>
    simp only [subgraphReadScan, Except.ok.injEq] at h
    exact hcur m h
  | cons n rest ih =>
    rw [subgraphReadScan] at h
    by_cases hid : n.Id = id
    · rw [if_pos hid] at h
      by_cases he : HasError (MapValueFrom (MapLabelsFromNative n.Labels)).2 = true
      · simp [he] at h
      · simp only [he] at h
        refine ih _ ?_ h
        intro c hc
        simp only [Option.some.injEq] at hc
        rw [← hc]
        exact MapValueFrom_readable n.Labels
    · rw [if_neg hid] at h
      exact ih cur hcur h

theorem subgraphRead_state (client : PlatformServiceClient)
    (data s : FederatedSubgraphModel)
    (h : (FederatedSubgraphResource.Read client data).state = some s) :
    s.Labels.readable = true := by
  simp only [FederatedSubgraphResource.Read] at h
  split at h
  · simp at h
  · split at h
    · simp at h
    · split at h
      · simp at h
      · simp at h
      · rename_i current hscan
        have hcur := subgraphReadScan_readable _ _ none current (by simp) hscan
        simp only [subgraphReadSdl] at h
        split at h
        · simp at h
        · split at h
          · simp at h
          · simp only [Option.some.injEq] at h
            rw [← h]
            exact hcur

theorem subgraphPriorState_readable (s : FederatedSubgraphModel)
    (h : subgraphPriorState s) : s.Labels.readable = true := by
  rcases h with ⟨client, plan, hc⟩ | ⟨client, data, hr⟩ | ⟨client, plan, state, hu⟩
  · obtain ⟨hl, hread⟩ := subgraphCreate_state client plan s hc
    rw [hl]
    exact hread
  · exact subgraphRead_state client data s hr
  · obtain ⟨hs, hread⟩ := subgraphUpdate_state client plan state s hu
    rw [hs]
    exact hread

/-! ## Claims about the subgraph update with one changed field -/

/-- C14: for every prior state that the resource wrote and every plan that
differs from it in schema but not in namespace or labels (whatever its other
fields), with supported protocols, and every call issued answered with status
OK: the calls issued are exactly one publish call followed by exactly one
general update call, and no move call. -/
theorem FederatedSubgraphResource_Update_schema_only (client : PlatformServiceClient)
    (plan state : FederatedSubgraphModel)
    (hprior : subgraphPriorState state)
    (hschema : plan.Schema ≠ state.Schema)
    (hns : plan.Namespace = state.Namespace)
    (hlabels : TFMap.sameElements plan.Labels state.Labels)
    (hsp : supportedSubscriptionProtocol plan.SubscriptionProtocol)
    (hwsp : supportedWebsocketSubprotocol plan.WebsocketSubprotocol)
    (hok : ∀ c ∈ (FederatedSubgraphResource.Update client plan state).calls,
      client.status c = some EnumStatusCode.OK) :
    (FederatedSubgraphResource.Update client plan state).calls =
      [Call.PublishFederatedSubgraph
        { Name := plan.Name.ValueString,
          Namespace := plan.Namespace.ValueString,
          Schema := plan.Schema.ValueString },
       Call.UpdateSubgraph
        { Name := plan.Name.ValueString,
          Namespace := plan.Namespace.ValueString,
          RoutingUrl := plan.RoutingUrl.ValueStringPointer,
          SubscriptionUrl := plan.SubscriptionUrl.ValueStringPointer,
          Labels := MapLabelsToNative (MapElementsAs plan.Labels).1,
          SubscriptionProtocol := (MapSubscriptionProtocol plan.SubscriptionProtocol).1,
          WebsocketSubprotocol := (MapWebSocketSubprotocol plan.WebsocketSubprotocol).1 }] := by
  have hlab : plan.Labels.readable = true := by
    rw [sameElements_readable _ _ hlabels]
    exact subgraphPriorState_readable state hprior
  revert hok
  simp only [FederatedSubgraphResource.Update, if_pos hschema]
  split
  · rename_i err herr
    intro hok
    have := hok _ (List.mem_singleton.mpr rfl)
    rw [status_PublishFederatedSubgraph, herr] at this
    simp [Except.toOption] at this
  · rename_i rp hrp
    split
    · rename_i hcode
      intro hok
      have := hok _ (List.mem_singleton.mpr rfl)
      rw [status_PublishFederatedSubgraph, hrp] at this
      simp only [Except.toOption, Option.map_some', Option.some.injEq] at this
      exact absurd this hcode
    · intro _
      simp only [subgraphUpdateMove, hns, ne_eq, not_true_eq_false, if_false]
      rw [subgraphUpdateGeneral_calls client plan _ hsp hwsp hlab]
      simp [hns]

/-- Witness for C14: the sample subgraph is a state that `Create` writes; only
its schema changes and the remote answers every call with status OK. -/
theorem FederatedSubgraphResource_Update_schema_only_witness :
    (FederatedSubgraphResource.Update
        (fixedClient EnumStatusCode.OK "" [] [] [sampleListed])
        { sampleSubgraph with Schema := TFString.value "type Query2" }
        sampleSubgraph).calls =
      [Call.PublishFederatedSubgraph
        { Name := "acme.users", Namespace := "default", Schema := "type Query2" },
       Call.UpdateSubgraph
        { Name := "acme.users", Namespace := "default",
          RoutingUrl := some "https://users.acme.com", SubscriptionUrl := none,
          Labels := Slice.mk [{ Key := "team", Value := "a" }],
          SubscriptionProtocol := some GraphQLSubscriptionProtocol.WS,
          WebsocketSubprotocol := some GraphQLWebsocketSubprotocol.AUTO }] :=
  FederatedSubgraphResource_Update_schema_only
    (fixedClient EnumStatusCode.OK "" [] [] [sampleListed])
    { sampleSubgraph with Schema := TFString.value "type Query2" }
    sampleSubgraph
    (Or.inl ⟨fixedClient EnumStatusCode.OK "" [] [] [sampleListed],
      { sampleSubgraph with Id := TFString.unknown }, by decide⟩)
    (by decide) (by decide) (fun _ => Iff.rfl) (by decide) (by decide) (by decide)

/-- C15: for every prior state that the resource wrote and every plan that
differs from it in namespace but not in schema or labels (whatever its other
fields), with supported protocols, and every call issued answered with status
OK: the calls issued are exactly one move call, carrying the prior state's
name and namespace with the plan's namespace as the new namespace, followed by
exactly one general update call, and no publish call. -/
theorem FederatedSubgraphResource_Update_namespace_only (client : PlatformServiceClient)
    (plan state : FederatedSubgraphModel)
    (hprior : subgraphPriorState state)
    (hschema : plan.Schema = state.Schema)
    (hns : plan.Namespace ≠ state.Namespace)
    (hlabels : TFMap.sameElements plan.Labels state.Labels)
    (hsp : supportedSubscriptionProtocol plan.SubscriptionProtocol)
    (hwsp : supportedWebsocketSubprotocol plan.WebsocketSubprotocol)
    (hok : ∀ c ∈ (FederatedSubgraphResource.Update client plan state).calls,
      client.status c = some EnumStatusCode.OK) :
    (FederatedSubgraphResource.Update client plan state).calls =
      [Call.MoveSubgraph
        { Name := state.Name.ValueString,
          Namespace := state.Namespace.ValueString,
          NewNamespace := plan.Namespace.ValueString },
       Call.UpdateSubgraph
        { Name := plan.Name.ValueString,
          Namespace := plan.Namespace.ValueString,
          RoutingUrl := plan.RoutingUrl.ValueStringPointer,
          SubscriptionUrl := plan.SubscriptionUrl.ValueStringPointer,
          Labels := MapLabelsToNative (MapElementsAs plan.Labels).1,
          SubscriptionProtocol := (MapSubscriptionProtocol plan.SubscriptionProtocol).1,
          WebsocketSubprotocol := (MapWebSocketSubprotocol plan.WebsocketSubprotocol).1 }] := by
  have hlab : plan.Labels.readable = true := by
    rw [sameElements_readable _ _ hlabels]
    exact subgraphPriorState_readable state hprior
  revert hok
  simp only [FederatedSubgraphResource.Update, hschema, ne_eq, not_true_eq_false, if_false,
    subgraphUpdateMove, hns, not_false_eq_true, if_true]
  split
  · rename_i err herr
    intro hok
    have := hok (Call.MoveSubgraph
      { Name := state.Name.ValueString, Namespace := state.Namespace.ValueString,
        NewNamespace := plan.Namespace.ValueString }) (by simp)
    rw [status_MoveSubgraph, herr] at this
    simp [Except.toOption] at this
  · rename_i rm hrm
    split
    · rename_i hcode
      intro hok
      have := hok (Call.MoveSubgraph
        { Name := state.Name.ValueString, Namespace := state.Namespace.ValueString,
          NewNamespace := plan.Namespace.ValueString }) (by simp)
      rw [status_MoveSubgraph, hrm] at this
      simp only [Except.toOption, Option.map_some', Option.some.injEq] at this
      exact absurd this hcode
    · intro _
      rw [subgraphUpdateGeneral_calls client plan _ hsp hwsp hlab]
      simp

/-- Witness for C15: the sample subgraph is a state that `Create` writes; only
its namespace changes and the remote answers every call with status OK. -/
theorem FederatedSubgraphResource_Update_namespace_only_witness :
    (FederatedSubgraphResource.Update
        (fixedClient EnumStatusCode.OK "" [] [] [sampleListed])
        { sampleSubgraph with Namespace := TFString.value "staging" }
        sampleSubgraph).calls =
      [Call.MoveSubgraph
        { Name := "acme.users", Namespace := "default", NewNamespace := "staging" },
       Call.UpdateSubgraph
        { Name := "acme.users", Namespace := "staging",
          RoutingUrl := some "https://users.acme.com", SubscriptionUrl := none,
          Labels := Slice.mk [{ Key := "team", Value := "a" }],
          SubscriptionProtocol := some GraphQLSubscriptionProtocol.WS,
          WebsocketSubprotocol := some GraphQLWebsocketSubprotocol.AUTO }] :=
  FederatedSubgraphResource_Update_namespace_only
    (fixedClient EnumStatusCode.OK "" [] [] [sampleListed])
    { sampleSubgraph with Namespace := TFString.value "staging" }
    sampleSubgraph
    (Or.inl ⟨fixedClient EnumStatusCode.OK "" [] [] [sampleListed],
      { sampleSubgraph with Id := TFString.unknown }, by decide⟩)
    (by decide) (by decide) (fun _ => Iff.rfl) (by decide) (by decide) (by decide)

/-! ## Claims about the subgraph update with an unsupported protocol -/

/-- C17, amended: whenever the plan's subscription protocol or websocket
subprotocol is an unsupported literal, for every prior state: the publish call
is issued, first, exactly when the plan's schema differs from the state's; the
move call is issued after it exactly when the namespace differs and the publish
call, if issued, was answered with status OK; nothing else is issued, so the
general update call never is, and no call at all is issued exactly when the
plan's schema and namespace are those of the prior state. The operation
reports an error and writes no state, and the error is the mapper's when every
call issued was answered with status OK. -/
theorem FederatedSubgraphResource_Update_unsupported (client : PlatformServiceClient)
    (plan state : FederatedSubgraphModel)
    (h : ¬ supportedSubscriptionProtocol plan.SubscriptionProtocol ∨
      ¬ supportedWebsocketSubprotocol plan.WebsocketSubprotocol) :
    ∃ e, protocolError plan = some e ∧
      (FederatedSubgraphResource.Update client plan state).calls =
        (if plan.Schema ≠ state.Schema then
          [Call.PublishFederatedSubgraph
            { Name := plan.Name.ValueString, Namespace := plan.Namespace.ValueString,
              Schema := plan.Schema.ValueString }]
        else []) ++
        (if plan.Namespace ≠ state.Namespace ∧
            (plan.Schema = state.Schema ∨
              client.status (Call.PublishFederatedSubgraph
                { Name := plan.Name.ValueString, Namespace := plan.Namespace.ValueString,
                  Schema := plan.Schema.ValueString }) = some EnumStatusCode.OK) then
          [Call.MoveSubgraph
            { Name := state.Name.ValueString, Namespace := state.Namespace.ValueString,
              NewNamespace := plan.Namespace.ValueString }]
        else []) ∧
      (∀ c ∈ (FederatedSubgraphResource.Update client plan state).calls,
        c.name ≠ "UpdateSubgraph") ∧
      ((FederatedSubgraphResource.Update client plan state).calls = [] ↔
        plan.Schema = state.Schema ∧ plan.Namespace = state.Namespace) ∧
      (FederatedSubgraphResource.Update client plan state).state = none ∧
      HasError (FederatedSubgraphResource.Update client plan state).diags = true ∧
      ((∀ c ∈ (FederatedSubgraphResource.Update client plan state).calls,
          client.status c = some EnumStatusCode.OK) →
        (FederatedSubgraphResource.Update client plan state).diags =
          [Diagnostic.error "Error creating subgraph" e]) := by
  obtain ⟨e, he⟩ := protocolError_of_unsupported plan h
  refine ⟨e, he, ?_⟩
  simp only [FederatedSubgraphResource.Update, subgraphUpdateMove,
    subgraphUpdateGeneral_of_protocolError client plan _ e he, status_PublishFederatedSubgraph]
  by_cases hs : plan.Schema = state.Schema <;> by_cases hn : plan.Namespace = state.Namespace
  · simp [hs, hn, HasError, Diagnostic.isError]
  · simp only [hs, hn, ne_eq, not_true_eq_false, not_false_eq_true, if_true, if_false]
    cases hm : client.MoveSubgraph
        { Name := state.Name.ValueString, Namespace := state.Namespace.ValueString,
          NewNamespace := plan.Namespace.ValueString } with
    | error err =>
      simp [HasError_AddError, Call.name, status_MoveSubgraph, hm, Except.toOption]
    | ok rm =>
      by_cases hc : rm.Response.Code = EnumStatusCode.OK
      · simp [hc, HasError, Diagnostic.isError, Call.name]
      · simp [hc, HasError_AddError, Call.name, status_MoveSubgraph, hm, Except.toOption]
  · simp only [hs, hn, ne_eq, not_true_eq_false, not_false_eq_true, if_true, if_false]
    cases hp : client.PublishFederatedSubgraph
        { Name := plan.Name.ValueString, Namespace := state.Namespace.ValueString,
          Schema := plan.Schema.ValueString } with
    | error err =>
      simp [HasError_AddError, Call.name, status_PublishFederatedSubgraph, hp, Except.toOption]
    | ok rp =>
      by_cases hc : rp.Response.Code = EnumStatusCode.OK
      · simp [hc, HasError, Diagnostic.isError, Call.name]
      · simp [hc, HasError_AddError, Call.name, status_PublishFederatedSubgraph, hp,
          Except.toOption]
  · simp only [hs, hn, ne_eq, not_true_eq_false, not_false_eq_true, if_true, if_false]
    cases hp : client.PublishFederatedSubgraph
        { Name := plan.Name.ValueString, Namespace := plan.Namespace.ValueString,
          Schema := plan.Schema.ValueString } with
    | error err =>
      simp [HasError_AddError, Call.name, status_PublishFederatedSubgraph, hp, Except.toOption]
    | ok rp =>
      by_cases hc : rp.Response.Code = EnumStatusCode.OK
      · simp only [hc, ne_eq, not_true_eq_false, if_false]
        cases hm : client.MoveSubgraph
            { Name := state.Name.ValueString, Namespace := state.Namespace.ValueString,
              NewNamespace := plan.Namespace.ValueString } with
        | error err =>
          simp [HasError_AddError, Call.name, status_MoveSubgraph, hm, Except.toOption,
            status_PublishFederatedSubgraph, hp, hc]
        | ok rm =>
          by_cases hc2 : rm.Response.Code = EnumStatusCode.OK
          · simp [hc2, HasError, Diagnostic.isError, Call.name, Except.toOption, hc]
          · simp [hc2, HasError_AddError, Call.name, status_MoveSubgraph, hm, Except.toOption,
              status_PublishFederatedSubgraph, hp, hc]
      · simp [hc, HasError_AddError, Call.name, status_PublishFederatedSubgraph, hp,
          Except.toOption]

/-- Witness for the amended C17: the plan has an unsupported subscription
protocol and a changed schema and namespace; the publish call and the move call
are issued, in that order, and then the mapper rejects the literal. -/
theorem FederatedSubgraphResource_Update_unsupported_witness :
    FederatedSubgraphResource.Update
        (fixedClient EnumStatusCode.OK "" [] [] [sampleListed])
        { sampleSubgraph with
          SubscriptionProtocol := TFString.value "invalid",
          Schema := TFString.value "type Query2",
          Namespace := TFString.value "staging" }
        sampleSubgraph =
      { calls :=
          [Call.PublishFederatedSubgraph
            { Name := "acme.users", Namespace := "staging", Schema := "type Query2" },
           Call.MoveSubgraph
            { Name := "acme.users", Namespace := "default", NewNamespace := "staging" }],
        diags := [Diagnostic.error "Error creating subgraph" "unsupported protocol: invalid"],
        state := none } ∧
    ∃ e, protocolError
          { sampleSubgraph with
            SubscriptionProtocol := TFString.value "invalid",
            Schema := TFString.value "type Query2",
            Namespace := TFString.value "staging" } = some e ∧
      (FederatedSubgraphResource.Update
          (fixedClient EnumStatusCode.OK "" [] [] [sampleListed])
          { sampleSubgraph with
            SubscriptionProtocol := TFString.value "invalid",
            Schema := TFString.value "type Query2",
            Namespace := TFString.value "staging" }
          sampleSubgraph).calls =
        (if (TFString.value "type Query2") ≠ sampleSubgraph.Schema then
          [Call.PublishFederatedSubgraph
            { Name := "acme.users", Namespace := "staging", Schema := "type Query2" }]
        else []) ++
        (if (TFString.value "staging") ≠ sampleSubgraph.Namespace ∧
            ((TFString.value "type Query2") = sampleSubgraph.Schema ∨
              (fixedClient EnumStatusCode.OK "" [] [] [sampleListed]).status
                (Call.PublishFederatedSubgraph
                  { Name := "acme.users", Namespace := "staging", Schema := "type Query2" }) =
                some EnumStatusCode.OK) then
          [Call.MoveSubgraph
            { Name := "acme.users", Namespace := "default", NewNamespace := "staging" }]
        else []) ∧
      (∀ c ∈ (FederatedSubgraphResource.Update
            (fixedClient EnumStatusCode.OK "" [] [] [sampleListed])
            { sampleSubgraph with
              SubscriptionProtocol := TFString.value "invalid",
              Schema := TFString.value "type Query2",
              Namespace := TFString.value "staging" }
            sampleSubgraph).calls,
        c.name ≠ "UpdateSubgraph") ∧
      ((FederatedSubgraphResource.Update
            (fixedClient EnumStatusCode.OK "" [] [] [sampleListed])
            { sampleSubgraph with
              SubscriptionProtocol := TFString.value "invalid",
              Schema := TFString.value "type Query2",
              Namespace := TFString.value "staging" }
            sampleSubgraph).calls = [] ↔
        (TFString.value "type Query2") = sampleSubgraph.Schema ∧
          (TFString.value "staging") = sampleSubgraph.Namespace) ∧
      (FederatedSubgraphResource.Update
          (fixedClient EnumStatusCode.OK "" [] [] [sampleListed])
          { sampleSubgraph with
            SubscriptionProtocol := TFString.value "invalid",
            Schema := TFString.value "type Query2",
            Namespace := TFString.value "staging" }
          sampleSubgraph).state = none ∧
      HasError (FederatedSubgraphResource.Update
          (fixedClient EnumStatusCode.OK "" [] [] [sampleListed])
          { sampleSubgraph with
            SubscriptionProtocol := TFString.value "invalid",
            Schema := TFString.value "type Query2",
            Namespace := TFString.value "staging" }
          sampleSubgraph).diags = true ∧
      ((∀ c ∈ (FederatedSubgraphResource.Update
            (fixedClient EnumStatusCode.OK "" [] [] [sampleListed])
            { sampleSubgraph with
              SubscriptionProtocol := TFString.value "invalid",
              Schema := TFString.value "type Query2",
              Namespace := TFString.value "staging" }
            sampleSubgraph).calls,
          (fixedClient EnumStatusCode.OK "" [] [] [sampleListed]).status c =
            some EnumStatusCode.OK) →
        (FederatedSubgraphResource.Update
            (fixedClient EnumStatusCode.OK "" [] [] [sampleListed])
            { sampleSubgraph with
              SubscriptionProtocol := TFString.value "invalid",
              Schema := TFString.value "type Query2",
              Namespace := TFString.value "staging" }
            sampleSubgraph).diags =
          [Diagnostic.error "Error creating subgraph" e]) :=
  ⟨by decide,
    FederatedSubgraphResource_Update_unsupported
      (fixedClient EnumStatusCode.OK "" [] [] [sampleListed])
      { sampleSubgraph with
        SubscriptionProtocol := TFString.value "invalid",
        Schema := TFString.value "type Query2",
        Namespace := TFString.value "staging" }
      sampleSubgraph
      (Or.inl (by decide))⟩

/-! ## Claims about the subgraph creation -/

theorem subgraphCreate_cases (client : PlatformServiceClient) (plan : FederatedSubgraphModel)
    (creq : CreateFederatedSubgraphRequest)
    (hcreq : creq =
      { Name := plan.Name.ValueString,
        Namespace := plan.Namespace.ValueString,
        RoutingUrl := plan.RoutingUrl.ValueStringPointer,
        SubscriptionUrl := plan.SubscriptionUrl.ValueStringPointer,
        SubscriptionProtocol := (MapSubscriptionProtocol plan.SubscriptionProtocol).1,
        WebsocketSubprotocol := (MapWebSocketSubprotocol plan.WebsocketSubprotocol).1,
        Labels := MapLabelsToNative (MapElementsAs plan.Labels).1,
        IsEventDrivenGraph := plan.IsEventDrivenGraph.ValueBoolPointer,
        IsFeatureSubgraph := plan.IsFeatureSubgraph.ValueBoolPointer })
    (hsp : supportedSubscriptionProtocol plan.SubscriptionProtocol)
    (hwsp : supportedWebsocketSubprotocol plan.WebsocketSubprotocol)
    (hlab : plan.Labels.readable = true) :
    (client.status (Call.CreateFederatedSubgraph creq) ≠ some EnumStatusCode.OK ∧
      (FederatedSubgraphResource.Create client plan).calls =
        [Call.CreateFederatedSubgraph creq] ∧
      (FederatedSubgraphResource.Create client plan).state = none ∧
      HasError (FederatedSubgraphResource.Create client plan).diags = true) ∨
    (client.status (Call.CreateFederatedSubgraph creq) = some EnumStatusCode.OK ∧
      FederatedSubgraphResource.Create client plan =
        subgraphCreateList client plan [Call.CreateFederatedSubgraph creq]) := by
  subst hcreq
  simp only [FederatedSubgraphResource.Create, MapSubscriptionProtocol_supported _ hsp,
    MapWebSocketSubprotocol_supported _ hwsp, MapElementsAs_readable _ hlab,
    status_CreateFederatedSubgraph]
  simp only [Bool.false_eq_true, if_false]
  split
  · rename_i err herr
    simp [herr, HasError_AddError, Except.toOption]
  · rename_i rc hrc
    by_cases hc : rc.Response.Code = EnumStatusCode.OK
    · simp [hrc, hc, Except.toOption]
    · simp [hrc, hc, HasError_AddError, Except.toOption]

/-- C18: `FederatedSubgraphResource.Create` issues its remote calls in the order
create, list, publish and stops at the first failure; `creq` is the create
request built from the plan. (1) An unsupported protocol literal or unreadable
labels: no call is issued, no state is written, an error is reported. In the
other cases the create call with `creq` is issued first. (2) The create call
fails at transport level or is answered with a status other than OK: it is the
only call, no state, an error. (3) The create call is answered with OK and the
list call fails or lists no subgraph of the plan's name: the calls are exactly
the create call and the list call for the plan's namespace, no state, an
error. (4) The list call lists a subgraph of the plan's name, `g` being the
last such: the calls are exactly the create call, the list call and the publish
call with the plan's name, namespace and schema; when the publish call is
answered with OK the state written is the plan with the id of `g` and nothing
is reported, otherwise no state is written and an error is reported. (5) State
is written exactly when a publish call was issued and answered with OK, and
(6) an error is reported exactly when no state is written. -/
theorem FederatedSubgraphResource_Create_spec (client : PlatformServiceClient)
    (plan : FederatedSubgraphModel) (creq : CreateFederatedSubgraphRequest)
    (hcreq : creq =
      { Name := plan.Name.ValueString,
        Namespace := plan.Namespace.ValueString,
        RoutingUrl := plan.RoutingUrl.ValueStringPointer,
        SubscriptionUrl := plan.SubscriptionUrl.ValueStringPointer,
        SubscriptionProtocol := (MapSubscriptionProtocol plan.SubscriptionProtocol).1,
        WebsocketSubprotocol := (MapWebSocketSubprotocol plan.WebsocketSubprotocol).1,
        Labels := MapLabelsToNative (MapElementsAs plan.Labels).1,
        IsEventDrivenGraph := plan.IsEventDrivenGraph.ValueBoolPointer,
        IsFeatureSubgraph := plan.IsFeatureSubgraph.ValueBoolPointer }) :
    ((¬ supportedSubscriptionProtocol plan.SubscriptionProtocol ∨
        ¬ supportedWebsocketSubprotocol plan.WebsocketSubprotocol ∨
        plan.Labels.readable = false) →
      (FederatedSubgraphResource.Create client plan).calls = [] ∧
      (FederatedSubgraphResource.Create client plan).state = none ∧
      HasError (FederatedSubgraphResource.Create client plan).diags = true) ∧
    (supportedSubscriptionProtocol plan.SubscriptionProtocol →
      supportedWebsocketSubprotocol plan.WebsocketSubprotocol →
      plan.Labels.readable = true →
      client.status (Call.CreateFederatedSubgraph creq) ≠ some EnumStatusCode.OK →
      (FederatedSubgraphResource.Create client plan).calls =
        [Call.CreateFederatedSubgraph creq] ∧
      (FederatedSubgraphResource.Create client plan).state = none ∧
      HasError (FederatedSubgraphResource.Create client plan).diags = true) ∧
    (supportedSubscriptionProtocol plan.SubscriptionProtocol →
      supportedWebsocketSubprotocol plan.WebsocketSubprotocol →
      plan.Labels.readable = true →
      client.status (Call.CreateFederatedSubgraph creq) = some EnumStatusCode.OK →
      (∀ ns, client.GetSubgraphs { Namespace := plan.Namespace.ValueString } = Except.ok ns →
        lastSubgraphNamed ns.Graphs plan.Name.ValueString = none) →
      (FederatedSubgraphResource.Create client plan).calls =
        [Call.CreateFederatedSubgraph creq,
         Call.GetSubgraphs { Namespace := plan.Namespace.ValueString }] ∧
      (FederatedSubgraphResource.Create client plan).state = none ∧
      HasError (FederatedSubgraphResource.Create client plan).diags = true) ∧
    (supportedSubscriptionProtocol plan.SubscriptionProtocol →
      supportedWebsocketSubprotocol plan.WebsocketSubprotocol →
      plan.Labels.readable = true →
      client.status (Call.CreateFederatedSubgraph creq) = some EnumStatusCode.OK →
      ∀ ns g, client.GetSubgraphs { Namespace := plan.Namespace.ValueString } = Except.ok ns →
        lastSubgraphNamed ns.Graphs plan.Name.ValueString = some g →
        (FederatedSubgraphResource.Create client plan).calls =
          [Call.CreateFederatedSubgraph creq,
           Call.GetSubgraphs { Namespace := plan.Namespace.ValueString },
           Call.PublishFederatedSubgraph
            { Name := plan.Name.ValueString,
              Namespace := plan.Namespace.ValueString,
              Schema := plan.Schema.ValueString }] ∧
        (client.status (Call.PublishFederatedSubgraph
              { Name := plan.Name.ValueString,
                Namespace := plan.Namespace.ValueString,
                Schema := plan.Schema.ValueString }) = some EnumStatusCode.OK →
          (FederatedSubgraphResource.Create client plan).state =
              some { plan with Id := TFString.value g.Id } ∧
            (FederatedSubgraphResource.Create client plan).diags = []) ∧
        (client.status (Call.PublishFederatedSubgraph
              { Name := plan.Name.ValueString,
                Namespace := plan.Namespace.ValueString,
                Schema := plan.Schema.ValueString }) ≠ some EnumStatusCode.OK →
          (FederatedSubgraphResource.Create client plan).state = none ∧
            HasError (FederatedSubgraphResource.Create client plan).diags = true)) ∧
    ((FederatedSubgraphResource.Create client plan).state ≠ none ↔
      ∃ c ∈ (FederatedSubgraphResource.Create client plan).calls,
        c.name = "PublishFederatedSubgraph" ∧ client.status c = some EnumStatusCode.OK) ∧
    ((FederatedSubgraphResource.Create client plan).state = none ↔
      HasError (FederatedSubgraphResource.Create client plan).diags = true) := by
  by_cases hearly : ¬ supportedSubscriptionProtocol plan.SubscriptionProtocol ∨
      ¬ supportedWebsocketSubprotocol plan.WebsocketSubprotocol ∨
      plan.Labels.readable = false
  · obtain ⟨hcalls, hstate, herr⟩ := subgraphCreate_early client plan hearly
    refine ⟨fun _ => ⟨hcalls, hstate, herr⟩, ?_, ?_, ?_, ?_, ?_⟩
    · intro hsp hwsp hlab
      rcases hearly with h | h | h
      · exact absurd hsp h
      · exact absurd hwsp h
      · rw [hlab] at h; exact absurd h (by decide)
    · intro hsp hwsp hlab
      rcases hearly with h | h | h
      · exact absurd hsp h
      · exact absurd hwsp h
      · rw [hlab] at h; exact absurd h (by decide)
    · intro hsp hwsp hlab
      rcases hearly with h | h | h
      · exact absurd hsp h
      · exact absurd hwsp h
      · rw [hlab] at h; exact absurd h (by decide)
    · simp [hcalls, hstate]
    · simp [hstate, herr]
  · have hearly2 := hearly
    simp only [not_or, Decidable.not_not, Bool.not_eq_false] at hearly2
    obtain ⟨hsp, hwsp, hlab⟩ := hearly2
    refine ⟨fun h => absurd h hearly, ?_⟩
    rcases subgraphCreate_cases client plan creq hcreq hsp hwsp hlab with
      ⟨hst, hcalls, hstate, herr⟩ | ⟨hst, hR⟩
    · refine ⟨fun _ _ _ _ => ⟨hcalls, hstate, herr⟩, fun _ _ _ h => absurd h hst,
        fun _ _ _ h => absurd h hst, ?_, ?_⟩
      · simp [hcalls, hstate, Call.name]
      · simp [hstate, herr]
    · refine ⟨fun _ _ _ h => absurd hst h, ?_⟩
      rw [hR]
      rcases subgraphCreateList_spec client plan [Call.CreateFederatedSubgraph creq] with
        ⟨hcalls, hstate, herr, hnone⟩ | ⟨ns, g, hns, hg, hL⟩
      · simp only [List.cons_append, List.nil_append] at hcalls
        refine ⟨fun _ _ _ _ _ => ⟨hcalls, hstate, herr⟩, ?_, ?_, ?_⟩
        · intro _ _ _ _ ns g hns hg
          rw [hnone ns hns] at hg
          exact absurd hg (by simp)
        · simp [hcalls, hstate, Call.name]
        · simp [hstate, herr]
      · simp only [List.cons_append, List.nil_append] at hL
        rw [hL]
        obtain ⟨hcalls, hpub⟩ := subgraphCreatePublish_spec client
          { plan with Id := TFString.value g.Id }
          [Call.CreateFederatedSubgraph creq,
            Call.GetSubgraphs { Namespace := plan.Namespace.ValueString }]
        simp only [List.cons_append, List.nil_append] at hcalls hpub
        refine ⟨?_, ?_, ?_, ?_⟩
        · intro _ _ _ _ hno
          rw [hno ns hns] at hg
          exact absurd hg (by simp)
        · intro _ _ _ _ ns2 g2 hns2 hg2
          rw [hns] at hns2
          cases hns2
          rw [hg] at hg2
          cases hg2
          refine ⟨hcalls, ?_, ?_⟩
          · intro hps
            rcases hpub with ⟨_, hstate, hdiags⟩ | ⟨hps2, _, _⟩
            · exact ⟨hstate, hdiags⟩
            · exact absurd hps hps2
          · intro hps
            rcases hpub with ⟨hps2, _, _⟩ | ⟨_, hstate, herr⟩
            · exact absurd hps2 hps
            · exact ⟨hstate, herr⟩
        · rcases hpub with ⟨hps, hstate, hdiags⟩ | ⟨hps, hstate, herr⟩
          · simp [hcalls, hstate, Call.name, hps]
          · simp [hcalls, hstate, Call.name, hps]
        · rcases hpub with ⟨hps, hstate, hdiags⟩ | ⟨hps, hstate, herr⟩
          · simp [hstate, hdiags, HasError]
          · simp [hstate, herr]

/-- Witness for C18: the plan is the sample subgraph with an id not yet known,
the remote answers every call with status OK and lists the sample subgraph; the
three calls are issued in order and the state written is the plan with the
listed id. -/
theorem FederatedSubgraphResource_Create_spec_witness :
    (FederatedSubgraphResource.Create
        (fixedClient EnumStatusCode.OK "" [] [] [sampleListed])
        { sampleSubgraph with Id := TFString.unknown }).calls =
      [Call.CreateFederatedSubgraph
        { Name := "acme.users", Namespace := "default",
          RoutingUrl := some "https://users.acme.com", SubscriptionUrl := none,
          SubscriptionProtocol := some GraphQLSubscriptionProtocol.WS,
          WebsocketSubprotocol := some GraphQLWebsocketSubprotocol.AUTO,
          Labels := Slice.mk [{ Key := "team", Value := "a" }],
          IsEventDrivenGraph := some false, IsFeatureSubgraph := some false },
       Call.GetSubgraphs { Namespace := "default" },
       Call.PublishFederatedSubgraph
        { Name := "acme.users", Namespace := "default", Schema := "type Query" }] ∧
    (FederatedSubgraphResource.Create
        (fixedClient EnumStatusCode.OK "" [] [] [sampleListed])
        { sampleSubgraph with Id := TFString.unknown }).state = some sampleSubgraph ∧
    (FederatedSubgraphResource.Create
        (fixedClient EnumStatusCode.OK "" [] [] [sampleListed])
        { sampleSubgraph with Id := TFString.unknown }).diags = [] :=
  have h := ((FederatedSubgraphResource_Create_spec
    (fixedClient EnumStatusCode.OK "" [] [] [sampleListed])
    { sampleSubgraph with Id := TFString.unknown }
    { Name := "acme.users", Namespace := "default",
      RoutingUrl := some "https://users.acme.com", SubscriptionUrl := none,
      SubscriptionProtocol := some GraphQLSubscriptionProtocol.WS,
      WebsocketSubprotocol := some GraphQLWebsocketSubprotocol.AUTO,
      Labels := Slice.mk [{ Key := "team", Value := "a" }],
      IsEventDrivenGraph := some false, IsFeatureSubgraph := some false }
    (by decide)).2.2.2.1 (by decide) (by decide) (by decide) (by decide)
    { Response := { Code := EnumStatusCode.OK, Details := "" }, Graphs := [sampleListed] }
    sampleListed rfl (by decide))
  ⟨h.1, h.2.1 (by decide)⟩

end resources
